import Mathlib

/-!
Verification development for the HHOA-FSSP optimizer (Horse Herd Optimization
Algorithm for the permutation Flow Shop Scheduling Problem).

The C++ sources are shallowly embedded: C++ `double` is modelled by `ℚ`,
C++ `int` by `Int`, fallible operations (functions that may `throw`) return
`Except Err`, and the process-wide pseudo-random source is modelled by an
explicit response tape threaded through every probabilistic operation.
-/

/- The core `Rat` operations are sealed; `allowUnsafeReducibility` lets the
concrete-evaluation sections below reopen them locally so that closed runs of
the embedded algorithm evaluate inside `decide` proofs. -/
set_option allowUnsafeReducibility true

namespace HHOAFSSP

/-- Exception payload (`std::invalid_argument` / `std::out_of_range` /
`std::runtime_error` messages). -/
abbrev Err := String

instance {α : Type} [DecidableEq α] : DecidableEq (Except Err α) := fun a b =>
  match a, b with
  | .error x, .error y =>
    if h : x = y then .isTrue (by rw [h]) else .isFalse (by simp [h])
  | .ok x, .ok y =>
    if h : x = y then .isTrue (by rw [h]) else .isFalse (by simp [h])
  | .error _, .ok _ => .isFalse (by simp)
  | .ok _, .error _ => .isFalse (by simp)

/-! ## The random source (`src/utils/Random.cpp`)

The random generator is process-wide external state.  Each draw is modelled
by popping the next response from a stream of the corresponding kind; any
value the real generator can produce corresponds to some tape, and no other
value is producible (responses are folded into the documented range). -/

structure Tape where
  ints : List Int
  dbls : List ℚ
  perms : List (List Nat)
deriving Repr, DecidableEq

/-- `Random::randInt(min, max)`: uniform integer in `[min, max]`; throws when
`min > max`.  The tape response is folded into the range. -/
def randIntR (lo hi : Int) (t : Tape) : Except Err (Int × Tape) :=
  if lo > hi then .error "min cannot be greater than max"
  else
    .ok (lo + (t.ints.headD 0 - lo) % (hi - lo + 1), { t with ints := t.ints.tail })

/-- `Random::randDouble()`: uniform real in `[0, 1)`.  The tape response is
folded into the range. -/
def randDoubleR (t : Tape) : ℚ × Tape :=
  let q := t.dbls.headD 0
  (if 0 ≤ q ∧ q < 1 then q else 0, { t with dbls := t.dbls.tail })

/-- `Random::randBool(probability)`: throws when the probability is outside
`[0,1]`, otherwise returns `randDouble() < probability`. -/
def randBoolR (p : ℚ) (t : Tape) : Except Err (Bool × Tape) :=
  if p < 0 ∨ p > 1 then .error "probability must be between 0.0 and 1.0"
  else .ok (decide ((randDoubleR t).1 < p), (randDoubleR t).2)

/-- A position permutation of `[0, n)`: used to model `std::shuffle`. -/
def isPosPerm (n : Nat) (σ : List Nat) : Bool :=
  σ.length = n && (List.range n).all (fun i => σ.contains i)

/-- Reorder `v` by the position list `σ`. -/
def applyShuffle (σ : List Nat) (v : List Int) : List Int :=
  σ.map (fun i => v.getD i 0)

/-- `Random::shuffle(vec)`: the generator drives `std::shuffle`; the resulting
order is an arbitrary permutation of the input, taken from the tape (a
non-permutation response is ignored, leaving the input unchanged, so the
result is always a permutation of the input — exactly the guarantee of
`std::shuffle`). -/
def shuffleR (v : List Int) (t : Tape) : List Int × Tape :=
  let σ := t.perms.headD []
  let t1 := { t with perms := t.perms.tail }
  (if isPosPerm v.length σ then applyShuffle σ v else v, t1)

/-- `Random::sample(population_size, sample_size)`: shuffles `[0, n)` and
takes the first `sample_size` entries; throws on negative sizes or
`sample_size > population_size`. -/
def sampleR (populationSize sampleSize : Int) (t : Tape) : Except Err (List Int × Tape) :=
  if populationSize < 0 ∨ sampleSize < 0 then .error "sizes must be non-negative"
  else if sampleSize > populationSize then
    .error "sample size cannot be larger than population size"
  else
    let sh := shuffleR ((List.range populationSize.toNat).map (Nat.cast : Nat → Int)) t
    .ok (sh.1.take sampleSize.toNat, sh.2)

/-! ## Problem instance (`src/core/ProblemInstance.*`) -/

structure ProblemInstance where
  numJobs : Int
  numMachines : Int
  pt : List (List Int)
deriving Repr, DecidableEq

/-- Matrix constructor: dimensions are derived from the matrix shape. -/
def ProblemInstance.ofMatrix (m : List (List Int)) : ProblemInstance :=
  { numJobs := m.length, numMachines := (m.headD []).length, pt := m }

/-- `ProblemInstance::isValid`. -/
def ProblemInstance.isValid (inst : ProblemInstance) : Bool :=
  (0 < inst.numJobs) &&
  (0 < inst.numMachines) &&
  ((inst.pt.length : Int) = inst.numJobs) &&
  inst.pt.all (fun row => ((row.length : Int) = inst.numMachines) && row.all (fun x => 0 ≤ x))

/-- `ProblemInstance::getProcessingTime(job, machine)`: bounds-checked. -/
def ProblemInstance.getPT (inst : ProblemInstance) (job machine : Int) : Except Err Int :=
  if job < 0 ∨ job ≥ inst.numJobs ∨ machine < 0 ∨ machine ≥ inst.numMachines then
    .error "Invalid job or machine index"
  else
    .ok ((inst.pt.getD job.toNat []).getD machine.toNat 0)

/-! ## Candidate solution (`src/core/Solution.*`)

A `Solution` owns a job sequence and (shares) its instance.  The mutable
makespan cache of the C++ class is consistent at every public-interface
boundary (every mutator calls `invalidateCache`), so the embedding computes
the makespan functionally; the single function that manipulates the sequence
while the cache is live (`Solution::applyInsertionSearch`) is embedded with an
explicit cache field below. -/

structure Sol where
  inst : ProblemInstance
  seq : List Int
deriving Repr, DecidableEq

/-- `Solution(instance)`: identity sequence `0, 1, …, n-1`; throws on an
invalid instance. -/
def Sol.identity (inst : ProblemInstance) : Except Err Sol :=
  if ¬ inst.isValid then .error "Invalid problem instance"
  else .ok ⟨inst, (List.range inst.numJobs.toNat).map (Nat.cast : Nat → Int)⟩

/-- `Solution(job_sequence, instance)`: throws on an invalid instance or a
size mismatch. -/
def Sol.ofSeq (s : List Int) (inst : ProblemInstance) : Except Err Sol :=
  if ¬ inst.isValid then .error "Invalid problem instance"
  else if (s.length : Int) ≠ inst.numJobs then
    .error "Job sequence size does not match problem instance"
  else .ok ⟨inst, s⟩

/-- `Solution::getJobAt(position)`: bounds-checked read. -/
def Sol.getJobAt (s : Sol) (position : Int) : Except Err Int :=
  if position < 0 ∨ position ≥ (s.seq.length : Int) then .error "Invalid position"
  else .ok (s.seq.getD position.toNat 0)

/-- `std::swap(v[i], v[j])` on a list. -/
def listSwap (l : List Int) (i j : Nat) : List Int :=
  (l.set i (l.getD j 0)).set j (l.getD i 0)

/-- `Solution::swapJobs(pos1, pos2)`: bounds-checked swap. -/
def Sol.swapJobs (s : Sol) (pos1 pos2 : Int) : Except Err Sol :=
  if pos1 < 0 ∨ pos1 ≥ (s.seq.length : Int) ∨ pos2 < 0 ∨ pos2 ≥ (s.seq.length : Int) then
    .error "Invalid positions"
  else .ok { s with seq := listSwap s.seq pos1.toNat pos2.toNat }

/-- `vector::insert(begin() + n, x)`. -/
def listInsertAt : Nat → Int → List Int → List Int
  | 0, x, l => x :: l
  | _ + 1, x, [] => [x]
  | n + 1, x, a :: l => a :: listInsertAt n x l

/-! ### Makespan evaluation (`Solution::calculateMakespan`)

`completion_times_[pos][machine]` is filled row by row; each entry follows the
source's four-way branch on `pos == 0` / `machine == 0`. -/

/-- One row of the completion-time matrix: iterate `machine` over the
remaining `cnt` machines, carrying the entry to the left. -/
def buildRow (inst : ProblemInstance) (job : Int) (pos : Nat) (prevRow : List Int) :
    Nat → Nat → Int → Except Err (List Int)
  | 0, _, _ => .ok []
  | cnt + 1, machine, left =>
    match inst.getPT job (machine : Int) with
    | .error e => .error e
    | .ok p =>
      let c : Int :=
        if pos = 0 ∧ machine = 0 then p
        else if pos = 0 then left + p
        else if machine = 0 then prevRow.getD machine 0 + p
        else max (prevRow.getD machine 0) left + p
      match buildRow inst job pos prevRow cnt (machine + 1) c with
      | .error e => .error e
      | .ok rest => .ok (c :: rest)

/-- All rows of the completion-time matrix, in position order. -/
def calcAllRows (inst : ProblemInstance) : List Int → Nat → List Int →
    Except Err (List (List Int))
  | [], _, _ => .ok []
  | job :: rest, pos, prevRow =>
    match buildRow inst job pos prevRow inst.numMachines.toNat 0 0 with
    | .error e => .error e
    | .ok row =>
      match calcAllRows inst rest (pos + 1) row with
      | .error e => .error e
      | .ok rows => .ok (row :: rows)

/-- `Solution::calculateMakespan`: completion-time matrix plus the makespan
`completion_times_[num_jobs - 1][num_machines - 1]` (`0` when the sequence is
empty). -/
def Sol.calcMakespanE (s : Sol) : Except Err (List (List Int) × Int) :=
  match calcAllRows s.inst s.seq 0 [] with
  | .error e => .error e
  | .ok rows =>
    let n := s.seq.length
    .ok (rows,
      if 0 < n then (rows.getD (n - 1) []).getD (s.inst.numMachines.toNat - 1) 0 else 0)

/-- `Solution::getMakespan` (on a consistent cache). -/
def Sol.makespanE (s : Sol) : Except Err Int :=
  match s.calcMakespanE with
  | .error e => .error e
  | .ok r => .ok r.2

/-- The validity-check loop of `Solution::isValid` with its `used` array. -/
def validLoop (n : Int) : List Int → List Bool → Bool
  | [], _ => true
  | job :: rest, used =>
    if job < 0 ∨ job ≥ n then false
    else if used.getD job.toNat false then false
    else validLoop n rest (used.set job.toNat true)

/-- `Solution::isValid`. -/
def Sol.isValid (s : Sol) : Bool :=
  ((s.seq.length : Int) = s.inst.numJobs) &&
  validLoop s.inst.numJobs s.seq (List.replicate s.inst.numJobs.toNat false)

/-- `Solution::initializeRandom`: shuffle the job sequence. -/
def Sol.initRandom (s : Sol) (t : Tape) : Sol × Tape :=
  ({ s with seq := (shuffleR s.seq t).1 }, (shuffleR s.seq t).2)

/-- Total processing time of a job over all machines (`initializeGreedy`
helper; every `getProcessingTime(job, machine)` call there has `job` and
`machine` in range, so the access is embedded directly). -/
def totalTime (inst : ProblemInstance) (job : Nat) : Int :=
  (List.range inst.numMachines.toNat).foldl
    (fun acc mach => acc + (inst.pt.getD job []).getD mach 0) 0

/-- Insertion into a lexicographically `std::sort`-ed list of
`(total_time, job)` pairs.  The comparator is a strict total order (jobs are
distinct), so the sorted result is unique and algorithm-independent. -/
def insertPair (x : Int × Int) : List (Int × Int) → List (Int × Int)
  | [] => [x]
  | y :: ys =>
    if x.1 < y.1 ∨ (x.1 = y.1 ∧ x.2 < y.2) then x :: y :: ys else y :: insertPair x ys

def sortPairs : List (Int × Int) → List (Int × Int)
  | [] => []
  | x :: xs => insertPair x (sortPairs xs)

/-- `Solution::initializeGreedy`: jobs in ascending order of total processing
time. -/
def Sol.initGreedy (s : Sol) : Sol :=
  let pairs := (List.range s.inst.numJobs.toNat).map
    (fun job => (totalTime s.inst job, (job : Int)))
  { s with seq := (sortPairs pairs).map (·.2) }

/-- Positions at which the two sequences disagree (`Solution::distanceTo`
inner loop). -/
def countDiff : List Int → List Int → Int
  | [], _ => 0
  | _ :: _, [] => 0
  | a :: as', b :: bs => (if a ≠ b then 1 else 0) + countDiff as' bs

/-- `Solution::distanceTo(other)`: `INT_MAX` on length mismatch. -/
def Sol.distanceTo (s o : Sol) : Int :=
  if s.seq.length ≠ o.seq.length then 2147483647
  else countDiff s.seq o.seq

/-- The relocate move of `createInsertNeighbor` / the insertion searches:
remove the job at `i`, reinsert at `j` (adjusted when `j > i`). -/
def insMove (seq : List Int) (i j : Nat) : List Int :=
  listInsertAt (if j > i then j - 1 else j) (seq.getD i 0) (seq.eraseIdx i)

/-- The corresponding revert: remove at the adjusted target, reinsert at `i`. -/
def insRevert (seq1 : List Int) (i j : Nat) (job : Int) : List Int :=
  listInsertAt i job (seq1.eraseIdx (if j > i then j - 1 else j))

/-- `Solution::createSwapNeighbor`. -/
def Sol.createSwapNeighbor (s : Sol) (t : Tape) : Except Err (Sol × Tape) :=
  match randIntR 0 ((s.seq.length : Int) - 1) t with
  | .error e => .error e
  | .ok (pos1, t1) =>
    match randIntR 0 ((s.seq.length : Int) - 1) t1 with
    | .error e => .error e
    | .ok (pos2, t2) =>
      match s.swapJobs pos1 pos2 with
      | .error e => .error e
      | .ok s1 => .ok (s1, t2)

/-- `Solution::createInsertNeighbor`. -/
def Sol.createInsertNeighbor (s : Sol) (t : Tape) : Except Err (Sol × Tape) :=
  match randIntR 0 ((s.seq.length : Int) - 1) t with
  | .error e => .error e
  | .ok (fpos, t1) =>
    match randIntR 0 ((s.seq.length : Int) - 1) t1 with
    | .error e => .error e
    | .ok (tpos, t2) =>
      if fpos ≠ tpos then
        .ok ({ s with seq := insMove s.seq fpos.toNat tpos.toNat }, t2)
      else .ok (s, t2)

/-- `[a, b)` as a list of naturals. -/
def rangeFromTo (a b : Nat) : List Nat :=
  (List.range (b - a)).map (· + a)

/-! ### `Solution::apply2Opt`: full scan over all pairs `i < j`, keeping every
improving swap and reverting the rest (it does NOT stop at the first
improvement).  Every `getMakespan` here runs on a freshly invalidated cache
(`swapJobs` invalidates), so the makespan is computed functionally. -/

def twoOptInner (i : Nat) : List Nat → Sol → Int → Bool → Except Err (Sol × Int × Bool)
  | [], s, current, improved => .ok (s, current, improved)
  | j :: js, s, current, improved =>
    match s.swapJobs (i : Int) (j : Int) with
    | .error e => .error e
    | .ok s1 =>
      match s1.makespanE with
      | .error e => .error e
      | .ok nm =>
        if nm < current then twoOptInner i js s1 nm true
        else
          match s1.swapJobs (i : Int) (j : Int) with
          | .error e => .error e
          | .ok s2 => twoOptInner i js s2 current improved

def twoOptOuter (size : Nat) : List Nat → Sol → Int → Bool → Except Err (Sol × Int × Bool)
  | [], s, current, improved => .ok (s, current, improved)
  | i :: is', s, current, improved =>
    match twoOptInner i (rangeFromTo (i + 1) size) s current improved with
    | .error e => .error e
    | .ok (s1, cur1, imp1) => twoOptOuter size is' s1 cur1 imp1

def Sol.apply2Opt (s : Sol) : Except Err (Bool × Sol) :=
  match s.makespanE with
  | .error e => .error e
  | .ok m0 =>
    match twoOptOuter s.seq.length (List.range (s.seq.length - 1)) s m0 false with
    | .error e => .error e
    | .ok (s1, _, imp) => .ok (imp, s1)

/-! ### `Solution::applyInsertionSearch`: full scan over all `(i, j)` pairs.
This method manipulates `job_sequence_` directly WITHOUT invalidating the
cache, so `getMakespan()` after a move returns the stale cached value until a
revert invalidates it; the embedding carries the cache explicitly. -/

/-- `getMakespan` against an explicit cache state. -/
def getMakespanC (inst : ProblemInstance) (seq : List Int) (cache : Option Int) :
    Except Err (Int × Option Int) :=
  match cache with
  | some v => .ok (v, some v)
  | none =>
    match Sol.makespanE ⟨inst, seq⟩ with
    | .error e => .error e
    | .ok v => .ok (v, some v)

def insInner (inst : ProblemInstance) (i : Nat) :
    List Nat → List Int → Option Int → Int → Bool →
    Except Err (List Int × Option Int × Int × Bool)
  | [], seq, cache, current, improved => .ok (seq, cache, current, improved)
  | j :: js, seq, cache, current, improved =>
    if i = j then insInner inst i js seq cache current improved
    else
      let job := seq.getD i 0
      let seq1 := insMove seq i j
      match getMakespanC inst seq1 cache with
      | .error e => .error e
      | .ok (nm, cache1) =>
        if nm < current then insInner inst i js seq1 cache1 nm true
        else insInner inst i js (insRevert seq1 i j job) none current improved

def insOuter (inst : ProblemInstance) :
    List Nat → List Int → Option Int → Int → Bool →
    Except Err (List Int × Option Int × Int × Bool)
  | [], seq, cache, current, improved => .ok (seq, cache, current, improved)
  | i :: is', seq, cache, current, improved =>
    match insInner inst i (List.range seq.length) seq cache current improved with
    | .error e => .error e
    | .ok (seq1, c1, cur1, imp1) => insOuter inst is' seq1 c1 cur1 imp1

def Sol.applyInsertionSearch (s : Sol) : Except Err (Bool × Sol) :=
  match s.makespanE with
  | .error e => .error e
  | .ok m0 =>
    match insOuter s.inst (List.range s.seq.length) s.seq (some m0) m0 false with
    | .error e => .error e
    | .ok (seq1, _, _, imp) => .ok (imp, ⟨s.inst, seq1⟩)

/-! ### The Horse-level local searches (`Horse::apply2OptSearch`,
`Horse::applyInsertionSearch`): these DO stop at the first improvement. -/

def h2optInner (i : Nat) : List Nat → Sol → Int → Except Err (Sol × Bool)
  | [], s, _ => .ok (s, false)
  | j :: js, s, current =>
    match s.swapJobs (i : Int) (j : Int) with
    | .error e => .error e
    | .ok s1 =>
      match s1.makespanE with
      | .error e => .error e
      | .ok nm =>
        if nm < current then .ok (s1, true)
        else
          match s1.swapJobs (i : Int) (j : Int) with
          | .error e => .error e
          | .ok s2 => h2optInner i js s2 current

def h2optOuter (size : Nat) : List Nat → Sol → Int → Except Err (Sol × Bool)
  | [], s, _ => .ok (s, false)
  | i :: is', s, current =>
    match h2optInner i (rangeFromTo (i + 1) size) s current with
    | .error e => .error e
    | .ok (s1, true) => .ok (s1, true)
    | .ok (s1, false) => h2optOuter size is' s1 current

/-- `Horse::apply2OptSearch` acting on the carried solution. -/
def apply2OptSearchH (s : Sol) : Except Err (Sol × Bool) :=
  match s.makespanE with
  | .error e => .error e
  | .ok m0 => h2optOuter s.seq.length (List.range (s.seq.length - 1)) s m0

def hInsInner (base : Sol) (current : Int) (i : Nat) :
    List Nat → Except Err (Option Sol)
  | [] => .ok none
  | j :: js =>
    if i = j then hInsInner base current i js
    else
      match Sol.ofSeq (insMove base.seq i j) base.inst with
      | .error e => .error e
      | .ok temp =>
        match temp.makespanE with
        | .error e => .error e
        | .ok nm =>
          if nm < current then .ok (some temp)
          else hInsInner base current i js

def hInsOuter (base : Sol) (current : Int) : List Nat → Except Err (Option Sol)
  | [] => .ok none
  | i :: is' =>
    match hInsInner base current i (List.range base.seq.length) with
    | .error e => .error e
    | .ok (some temp) => .ok (some temp)
    | .ok none => hInsOuter base current is'

/-- `Horse::applyInsertionSearch` acting on the carried solution: candidate
sequences are always derived from the entry sequence, and the first improving
one is installed and returned. -/
def applyInsertionSearchH (s : Sol) : Except Err (Sol × Bool) :=
  match s.makespanE with
  | .error e => .error e
  | .ok m0 =>
    match hInsOuter s m0 (List.range s.seq.length) with
    | .error e => .error e
    | .ok (some temp) => .ok (temp, true)
    | .ok none => .ok (s, false)

/-! ## Individual agent (`src/algorithm/Horse.h`, `Horse.cpp`) -/

structure Horse where
  solution : Sol
  bestSolution : Sol
  fitness : ℚ
  bestFitness : ℚ
  age : ℚ
  grazingAbility : ℚ
  stamina : ℚ
  leaderFlag : Bool
  stagnationCounter : Int
deriving Repr, DecidableEq

/-- `Horse::calculateFitness(makespan)`: `-makespan` for positive makespans,
a large negative sentinel otherwise. -/
def calculateFitness (makespan : Int) : ℚ :=
  if 0 < makespan then -(makespan : ℚ) else -1000000

/-- `Horse::initializeRandom`: shuffle the current solution, refresh fitness,
reset the personal best to the (new) current solution. -/
def Horse.initRandom (h : Horse) (t : Tape) : Except Err (Horse × Tape) :=
  let s1 := (Sol.initRandom h.solution t).1
  match s1.makespanE with
  | .error e => .error e
  | .ok m =>
    let f := calculateFitness m
    .ok ({ h with solution := s1, fitness := f, bestSolution := s1, bestFitness := f },
      (Sol.initRandom h.solution t).2)

/-- `Horse::initializeGreedy`. -/
def Horse.initGreedy (h : Horse) : Except Err Horse :=
  let s1 := h.solution.initGreedy
  match s1.makespanE with
  | .error e => .error e
  | .ok m =>
    let f := calculateFitness m
    .ok { h with solution := s1, fitness := f, bestSolution := s1, bestFitness := f }

/-- `Horse::Horse(instance)`: identity solution, ability `0.8`, stamina
`1.0`, then `initializeRandom()`. -/
def Horse.ofInstance (inst : ProblemInstance) (t : Tape) : Except Err (Horse × Tape) :=
  match Sol.identity inst with
  | .error e => .error e
  | .ok s0 =>
    Horse.initRandom
      { solution := s0, bestSolution := s0, fitness := 0, bestFitness := 0,
        age := 0, grazingAbility := 0.8, stamina := 1.0,
        leaderFlag := false, stagnationCounter := 0 } t

/-- `Horse::setSolution`: install the solution, refresh fitness, update the
personal best on strict fitness improvement (resetting stagnation), otherwise
increment the stagnation counter. -/
def Horse.setSolution (h : Horse) (s : Sol) : Except Err Horse :=
  match s.makespanE with
  | .error e => .error e
  | .ok m =>
    let f := calculateFitness m
    if f > h.bestFitness then
      .ok { h with solution := s, fitness := f, bestSolution := s, bestFitness := f,
                   stagnationCounter := 0 }
    else
      .ok { h with solution := s, fitness := f,
                   stagnationCounter := h.stagnationCounter + 1 }

/-- `Horse::getMakespan`. -/
def Horse.makespanE (h : Horse) : Except Err Int := h.solution.makespanE

/-- `Horse::getBestMakespan`. -/
def Horse.bestMakespanE (h : Horse) : Except Err Int := h.bestSolution.makespanE

/-- `Horse::isStagnant(max_stagnation)`. -/
def Horse.isStagnant (h : Horse) (maxStagnation : Int) : Bool :=
  h.stagnationCounter ≥ maxStagnation

/-- `Horse::increaseAge`: age by one cycle, abilities decay multiplicatively,
floored at `0.1`. -/
def Horse.increaseAge (h : Horse) : Horse :=
  { h with age := h.age + 1,
           grazingAbility := max 0.1 (h.grazingAbility * 0.995),
           stamina := max 0.1 (h.stamina * 0.998) }

/-- `Horse::rejuvenate`: reset age and stagnation, redraw abilities in
`[0.8, 1.0]`. -/
def Horse.rejuvenate (h : Horse) (t : Tape) : Horse × Tape :=
  let d1 := randDoubleR t
  let d2 := randDoubleR d1.2
  ({ h with age := 0, grazingAbility := 0.8 + d1.1 * 0.2, stamina := 0.8 + d2.1 * 0.2,
            stagnationCounter := 0 }, d2.2)

/-- `Horse::graze(intensity)`: throws outside `(0, 1]`; gates 2-opt and
insertion search on `intensity × grazingAbility × stamina`; refreshes fitness
and the personal best only when some search improved. -/
def Horse.graze (h : Horse) (intensity : ℚ) (t : Tape) : Except Err (Horse × Bool × Tape) :=
  if intensity ≤ 0 ∨ intensity > 1 then .error "Intensity must be between 0.0 and 1.0"
  else
    let eff := intensity * h.grazingAbility * h.stamina
    let d1 := randDoubleR t
    let step1 : Except Err (Sol × Bool) :=
      if d1.1 < eff then apply2OptSearchH h.solution else .ok (h.solution, false)
    match step1 with
    | .error e => .error e
    | .ok (s1, imp1) =>
      let d2 := randDoubleR d1.2
      let step2 : Except Err (Sol × Bool) :=
        if d2.1 < eff * 0.7 then applyInsertionSearchH s1 else .ok (s1, false)
      match step2 with
      | .error e => .error e
      | .ok (s2, imp2) =>
        let improved := imp1 || imp2
        if improved then
          match s2.makespanE with
          | .error e => .error e
          | .ok m =>
            let f := calculateFitness m
            let h1 := { h with solution := s2, fitness := f }
            if f > h1.bestFitness then
              .ok ({ h1 with bestSolution := s2, bestFitness := f }, improved, d2.2)
            else .ok (h1, improved, d2.2)
        else .ok ({ h with solution := s2 }, improved, d2.2)

/-- The swap-or-insert move loop of `Horse::roam`. -/
def roamLoop : Nat → Sol → Tape → Except Err (Sol × Tape)
  | 0, s, t => .ok (s, t)
  | k + 1, s, t =>
    match randBoolR 0.5 t with
    | .error e => .error e
    | .ok (b, t1) =>
      match (if b then s.createSwapNeighbor t1 else s.createInsertNeighbor t1) with
      | .error e => .error e
      | .ok (s1, t2) => roamLoop k s1 t2

/-- `Horse::roam(exploration_rate)`: throws outside `[0, 1]`; performs
`max(1, trunc(rate × n × 0.5))` random swap-or-insert moves on a copy of the
current solution and returns it (the horse itself is untouched). -/
def Horse.roam (h : Horse) (explorationRate : ℚ) (t : Tape) : Except Err (Sol × Tape) :=
  if explorationRate < 0 ∨ explorationRate > 1 then
    .error "Exploration rate must be between 0.0 and 1.0"
  else
    let numMoves : Int :=
      max 1 (explorationRate * (h.solution.seq.length : ℚ) * 0.5).floor
    roamLoop numMoves.toNat h.solution t

/-! ### Crossovers (`Horse::orderCrossover`,
`Horse::partiallyMappedCrossover`) -/

/-- `while (current_pos < size && offspring[current_pos] != -1) current_pos++`. -/
def firstEmptyFromAux (off : List Int) : Nat → Nat → Nat
  | 0, k => k
  | fuel + 1, k =>
    if k < off.length ∧ off.getD k 0 ≠ -1 then firstEmptyFromAux off fuel (k + 1) else k

def firstEmptyFrom (off : List Int) (k : Nat) : Nat :=
  firstEmptyFromAux off (off.length - k) k

/-- Order-crossover phase 1: copy parent-1's segment `[point1, point2]`
(jobs validated to be in `[0, size)`). -/
def ocCopy (p1 : Sol) (size : Nat) :
    List Nat → List Int → List Bool → Except Err (List Int × List Bool)
  | [], off, used => .ok (off, used)
  | i :: is', off, used =>
    match p1.getJobAt (i : Int) with
    | .error e => .error e
    | .ok job =>
      if 0 ≤ job ∧ job < (size : Int) then
        ocCopy p1 size is' (off.set i job) (used.set job.toNat true)
      else ocCopy p1 size is' off used

/-- Order-crossover phase 2: fill the remaining slots, in first-empty order,
with parent-2's unused jobs in parent-2's order. -/
def ocFill (p2 : Sol) (size : Nat) :
    List Nat → List Int → List Bool → Nat → Except Err (List Int × List Bool)
  | [], off, used, _ => .ok (off, used)
  | i :: is', off, used, cpos =>
    if cpos ≥ size then .ok (off, used)
    else
      match p2.getJobAt (i : Int) with
      | .error e => .error e
      | .ok job =>
        if 0 ≤ job ∧ job < (size : Int) ∧ ¬ used.getD job.toNat false then
          let off1 := off.set cpos job
          ocFill p2 size is' off1 (used.set job.toNat true) (firstEmptyFrom off1 (cpos + 1))
        else ocFill p2 size is' off used cpos

/-- Order-crossover phase 3: drop any still-unused job into the first
remaining `-1` slot. -/
def ocGap : List Nat → List Int → List Bool → List Int × List Bool
  | [], off, used => (off, used)
  | i :: is', off, used =>
    if ¬ used.getD i false then
      match off.findIdx? (· = -1) with
      | some j => ocGap is' (off.set j (i : Int)) (used.set i true)
      | none => ocGap is' off used
    else ocGap is' off used

/-- `Horse::orderCrossover(parent1, parent2)`. -/
def orderCrossover (p1 p2 : Sol) (t : Tape) : Except Err (Sol × Tape) :=
  let size := p1.seq.length
  match randIntR 0 ((size : Int) - 1) t with
  | .error e => .error e
  | .ok (q1, t1) =>
    match randIntR 0 ((size : Int) - 1) t1 with
    | .error e => .error e
    | .ok (q2, t2) =>
      let point1 := if q1 > q2 then q2 else q1
      let point2 := if q1 > q2 then q1 else q2
      match ocCopy p1 size (rangeFromTo point1.toNat (point2.toNat + 1))
          (List.replicate size (-1)) (List.replicate size false) with
      | .error e => .error e
      | .ok (off, used) =>
        match ocFill p2 size (List.range size) off used (firstEmptyFrom off 0) with
        | .error e => .error e
        | .ok (off1, used1) =>
          match Sol.ofSeq (ocGap (List.range size) off1 used1).1 p1.inst with
          | .error e => .error e
          | .ok child => .ok (child, t2)

/-- The well-formedness carried through the order-crossover phases: array
sizes, range bounds, pairwise distinctness of placed jobs, and the `used`
array tracking exactly the jobs already placed. -/
def ocInv (size : Nat) (off : List Int) (used : List Bool) : Prop :=
  off.length = size ∧ used.length = size ∧
  (∀ e ∈ off, e ≠ -1 → 0 ≤ e ∧ e < (size : Int)) ∧
  (∀ k1 k2 : Fin off.length, k1 ≠ k2 → off.get k1 ≠ -1 → off.get k1 ≠ off.get k2) ∧
  (∀ j : Nat, j < size → (used.getD j false = true ↔ (j : Int) ∈ off))

/-- The swap loop of the simplified partially-mapped crossover. -/
def mcLoop (p2 : Sol) (size : Nat) :
    Nat → List Int → Tape → Except Err (List Int × Tape)
  | 0, off, t => .ok (off, t)
  | k + 1, off, t =>
    match randIntR 0 ((size : Int) - 1) t with
    | .error e => .error e
    | .ok (pos1, t1) =>
      match randIntR 0 ((size : Int) - 1) t1 with
      | .error e => .error e
      | .ok (pos2, t2) =>
        match p2.getJobAt pos1 with
        | .error e => .error e
        | .ok job =>
          match off.findIdx? (· = job) with
          | some j => mcLoop p2 size k (listSwap off j pos2.toNat) t2
          | none => mcLoop p2 size k off t2

/-- `Horse::partiallyMappedCrossover(parent1, parent2)` (simplified PMX):
start from parent-1's order and perform `randInt(1, min(3, size/2))` targeted
swaps towards parent-2. -/
def mappedCrossover (p1 p2 : Sol) (t : Tape) : Except Err (Sol × Tape) :=
  let size := p1.seq.length
  match randIntR 1 ((min 3 (size / 2) : Nat) : Int) t with
  | .error e => .error e
  | .ok (numSwaps, t1) =>
    match mcLoop p2 size numSwaps.toNat p1.seq t1 with
    | .error e => .error e
    | .ok (off, t2) =>
      match Sol.ofSeq off p1.inst with
      | .error e => .error e
      | .ok child => .ok (child, t2)

/-- `Horse::followLeader(leader, following_rate)`: throws outside `[0, 1]`;
order crossover with probability `following_rate`, otherwise the mapped
crossover, both against the leader's personal best. -/
def Horse.followLeader (h : Horse) (leader : Horse) (followingRate : ℚ) (t : Tape) :
    Except Err (Sol × Tape) :=
  if followingRate < 0 ∨ followingRate > 1 then
    .error "Following rate must be between 0.0 and 1.0"
  else
    let d := randDoubleR t
    if d.1 < followingRate then orderCrossover h.solution leader.bestSolution d.2
    else mappedCrossover h.solution leader.bestSolution d.2

/-- `Horse::mateWith(mate, crossover_rate)`: throws outside `[0, 1]`; with
probability `crossover_rate` a coin-flip between the two crossovers of both
personal bests, otherwise one parent's personal best chosen by coin flip. -/
def Horse.mateWith (h : Horse) (mate : Horse) (crossoverRate : ℚ) (t : Tape) :
    Except Err (Sol × Tape) :=
  if crossoverRate < 0 ∨ crossoverRate > 1 then
    .error "Crossover rate must be between 0.0 and 1.0"
  else
    let d := randDoubleR t
    if d.1 < crossoverRate then
      match randBoolR 0.5 d.2 with
      | .error e => .error e
      | .ok (b, t2) =>
        if b then orderCrossover h.bestSolution mate.bestSolution t2
        else mappedCrossover h.bestSolution mate.bestSolution t2
    else
      match randBoolR 0.5 d.2 with
      | .error e => .error e
      | .ok (b, t2) => .ok (if b then h.bestSolution else mate.bestSolution, t2)

/-- `Horse::mutate(mutation_rate)`: throws outside `[0, 1]`; with probability
`mutation_rate` replaces the current solution by a random swap- or
insert-neighbor (KEPT unconditionally) and refreshes fitness / personal
best. -/
def Horse.mutate (h : Horse) (mutationRate : ℚ) (t : Tape) : Except Err (Horse × Tape) :=
  if mutationRate < 0 ∨ mutationRate > 1 then
    .error "Mutation rate must be between 0.0 and 1.0"
  else
    let d := randDoubleR t
    if d.1 < mutationRate then
      match randBoolR 0.5 d.2 with
      | .error e => .error e
      | .ok (b, t2) =>
        match (if b then h.solution.createSwapNeighbor t2
               else h.solution.createInsertNeighbor t2) with
        | .error e => .error e
        | .ok (s1, t3) =>
          match s1.makespanE with
          | .error e => .error e
          | .ok m =>
            let f := calculateFitness m
            if f > h.bestFitness then
              .ok ({ h with solution := s1, fitness := f,
                            bestSolution := s1, bestFitness := f }, t3)
            else .ok ({ h with solution := s1, fitness := f }, t3)
    else .ok (h, d.2)

/-! ## Population (`src/algorithm/HorseHerd.*`) -/

structure Herd where
  horses : List Horse
  inst : ProblemInstance
  leader : Horse
  herdSize : Int
  diversity : ℚ
  generation : Int
deriving Repr, DecidableEq

/-- Placeholder for never-taken list accesses (all embedded accesses are
index-valid in reachable states). -/
def dummyHorse : Horse :=
  { solution := ⟨⟨0, 0, []⟩, []⟩, bestSolution := ⟨⟨0, 0, []⟩, []⟩,
    fitness := 0, bestFitness := 0, age := 0, grazingAbility := 0,
    stamina := 0, leaderFlag := false, stagnationCounter := 0 }

/-- `std::max_element` by `getBestFitness` (keeps the first maximum). -/
def bestHorse1 (h0 : Horse) : List Horse → Horse
  | [] => h0
  | h :: hs => bestHorse1 (if h.bestFitness > h0.bestFitness then h else h0) hs

/-- `HorseHerd::getBestHorse`: throws on an empty herd. -/
def getBestHorseE (horses : List Horse) : Except Err Horse :=
  match horses with
  | [] => .error "Herd is empty"
  | h :: hs => .ok (bestHorse1 h hs)

/-- `HorseHerd::HorseHerd(instance, herd_size)`: the leader member is
constructed (randomly initialized) before the size guard runs. -/
def mkHerd (inst : ProblemInstance) (herdSize : Int) (t : Tape) :
    Except Err (Herd × Tape) :=
  match Horse.ofInstance inst t with
  | .error e => .error e
  | .ok (leader0, t1) =>
    if herdSize ≤ 0 then .error "Herd size must be positive"
    else .ok ({ horses := [], inst := inst, leader := leader0, herdSize := herdSize,
                diversity := 0, generation := 0 }, t1)

/-- The mark-the-leader scan of `HorseHerd::updateLeader`: flag the first
horse whose best makespan equals the leader's, leaving the rest untouched. -/
def markLeaderFirst (lm : Int) : List Horse → Except Err (List Horse)
  | [] => .ok []
  | h :: hs =>
    match h.bestMakespanE with
    | .error e => .error e
    | .ok m =>
      if m = lm then .ok ({ h with leaderFlag := true } :: hs)
      else
        match markLeaderFirst lm hs with
        | .error e => .error e
        | .ok hs1 => .ok (h :: hs1)

/-- `HorseHerd::updateLeader`: replace the stored leader by a copy of the best
agent only when that agent's best fitness strictly exceeds the leader's;
then re-mark the leader flag across the population.  Returns whether the
leader changed. -/
def Herd.updateLeader (hd : Herd) : Except Err (Herd × Bool) :=
  match hd.horses with
  | [] => .ok (hd, false)
  | h :: hs =>
    let best := bestHorse1 h hs
    let (leader1, changed) :=
      if best.bestFitness > hd.leader.bestFitness then
        ({ best with leaderFlag := true }, true)
      else (hd.leader, false)
    let cleared := hd.horses.map (fun x => { x with leaderFlag := false })
    match leader1.bestMakespanE with
    | .error e => .error e
    | .ok lm =>
      match markLeaderFirst lm cleared with
      | .error e => .error e
      | .ok horses1 => .ok ({ hd with horses := horses1, leader := leader1 }, changed)

/-- `HorseHerd::calculateDistance`: normalized by the first solution's job
count. -/
def distQ (s1 s2 : Sol) : ℚ :=
  (s1.distanceTo s2 : ℚ) / (s1.seq.length : ℚ)

def rowTotal (h : Horse) : List Horse → ℚ
  | [] => 0
  | x :: xs => distQ h.solution x.solution + rowTotal h xs

def pairTotals : List Horse → ℚ × Int
  | [] => (0, 0)
  | h :: hs =>
    let pr := pairTotals hs
    (rowTotal h hs + pr.1, pr.2 + (hs.length : Int))

/-- `HorseHerd::calculateDiversity`: mean pairwise normalized distance; `0`
for fewer than two horses. -/
def Herd.calcDiversity (hd : Herd) : Herd :=
  if hd.horses.length < 2 then { hd with diversity := 0 }
  else
    let pc := pairTotals hd.horses
    { hd with diversity := if pc.2 > 0 then pc.1 / (pc.2 : ℚ) else 0 }

/-- The per-horse loop of `HorseHerd::performGrazing`. -/
def grazeAll (intensity : ℚ) : List Horse → Tape → Except Err (List Horse × Int × Tape)
  | [], t => .ok ([], 0, t)
  | h :: hs, t =>
    match h.graze intensity t with
    | .error e => .error e
    | .ok (h1, imp, t1) =>
      match grazeAll intensity hs t1 with
      | .error e => .error e
      | .ok (hs1, c, t2) => .ok (h1 :: hs1, (if imp then c + 1 else c), t2)

/-- `HorseHerd::performGrazing(intensity)`. -/
def Herd.performGrazing (hd : Herd) (intensity : ℚ) (t : Tape) :
    Except Err (Herd × Int × Tape) :=
  match grazeAll intensity hd.horses t with
  | .error e => .error e
  | .ok (horses1, c, t1) =>
    let hd1 := { hd with horses := horses1 }
    if c > 0 then
      match hd1.updateLeader with
      | .error e => .error e
      | .ok (hd2, _) => .ok (hd2, c, t1)
    else .ok (hd1, c, t1)

/-- The per-horse loop of `HorseHerd::performRoaming`. -/
def roamAll (roamingRate explorationRate : ℚ) :
    List Horse → Tape → Except Err (List Horse × Int × Tape)
  | [], t => .ok ([], 0, t)
  | h :: hs, t =>
    let d := randDoubleR t
    if d.1 < roamingRate then
      match h.roam explorationRate d.2 with
      | .error e => .error e
      | .ok (ns, t2) =>
        match ns.makespanE with
        | .error e => .error e
        | .ok nm =>
          match h.solution.makespanE with
          | .error e => .error e
          | .ok cm =>
            if nm < cm then
              match h.setSolution ns with
              | .error e => .error e
              | .ok h1 =>
                match roamAll roamingRate explorationRate hs t2 with
                | .error e => .error e
                | .ok (hs1, c, t3) => .ok (h1 :: hs1, c + 1, t3)
            else
              match roamAll roamingRate explorationRate hs t2 with
              | .error e => .error e
              | .ok (hs1, c, t3) => .ok (h :: hs1, c, t3)
    else
      match roamAll roamingRate explorationRate hs d.2 with
      | .error e => .error e
      | .ok (hs1, c, t3) => .ok (h :: hs1, c, t3)

/-- `HorseHerd::performRoaming(roaming_rate, exploration_rate)`: accepted only
when the roamed solution strictly improves the current makespan. -/
def Herd.performRoaming (hd : Herd) (roamingRate explorationRate : ℚ) (t : Tape) :
    Except Err (Herd × Int × Tape) :=
  match roamAll roamingRate explorationRate hd.horses t with
  | .error e => .error e
  | .ok (horses1, c, t1) =>
    let hd1 := { hd with horses := horses1 }
    if c > 0 then
      match hd1.updateLeader with
      | .error e => .error e
      | .ok (hd2, _) => .ok (hd2, c, t1)
    else .ok (hd1, c, t1)

/-- The per-horse loop of `HorseHerd::performFollowing`. -/
def followAll (leader : Horse) (followingRate : ℚ) :
    List Horse → Tape → Except Err (List Horse × Int × Tape)
  | [], t => .ok ([], 0, t)
  | h :: hs, t =>
    if ¬ h.leaderFlag then
      match h.followLeader leader followingRate t with
      | .error e => .error e
      | .ok (ns, t1) =>
        match ns.makespanE with
        | .error e => .error e
        | .ok nm =>
          match h.solution.makespanE with
          | .error e => .error e
          | .ok cm =>
            if nm < cm then
              match h.setSolution ns with
              | .error e => .error e
              | .ok h1 =>
                match followAll leader followingRate hs t1 with
                | .error e => .error e
                | .ok (hs1, c, t2) => .ok (h1 :: hs1, c + 1, t2)
            else
              match followAll leader followingRate hs t1 with
              | .error e => .error e
              | .ok (hs1, c, t2) => .ok (h :: hs1, c, t2)
    else
      match followAll leader followingRate hs t with
      | .error e => .error e
      | .ok (hs1, c, t2) => .ok (h :: hs1, c, t2)

/-- `HorseHerd::performFollowing(following_rate)`. -/
def Herd.performFollowing (hd : Herd) (followingRate : ℚ) (t : Tape) :
    Except Err (Herd × Int × Tape) :=
  match followAll hd.leader followingRate hd.horses t with
  | .error e => .error e
  | .ok (horses1, c, t1) =>
    let hd1 := { hd with horses := horses1 }
    if c > 0 then
      match hd1.updateLeader with
      | .error e => .error e
      | .ok (hd2, _) => .ok (hd2, c, t1)
    else .ok (hd1, c, t1)

/-- Insertion sort step with a strict-order comparator. -/
def insertBy {α : Type} (lt : α → α → Bool) (x : α) : List α → List α
  | [] => [x]
  | y :: ys => if lt x y then x :: y :: ys else y :: insertBy lt x ys

def sortBy {α : Type} (lt : α → α → Bool) : List α → List α
  | [] => []
  | x :: xs => insertBy lt x (sortBy lt xs)

/-- `HorseHerd::tournamentSelection(tournament_size)`: sample indices without
replacement, keep the first by best fitness. -/
def tsScan (horses : List Horse) : Int → ℚ → List Int → Int
  | bestIdx, _, [] => bestIdx
  | bestIdx, bestFit, c :: cs =>
    let f := (horses.getD c.toNat dummyHorse).bestFitness
    if f > bestFit then tsScan horses c f cs else tsScan horses bestIdx bestFit cs

def tournamentSelection (horses : List Horse) (tournamentSize : Int) (t : Tape) :
    Except Err (Int × Tape) :=
  let ts := min tournamentSize (horses.length : Int)
  match sampleR (horses.length : Int) ts t with
  | .error e => .error e
  | .ok (candidates, t1) =>
    match candidates with
    | [] => .error "empty tournament"
    | c0 :: _ =>
      .ok (tsScan horses c0 (horses.getD c0.toNat dummyHorse).bestFitness candidates, t1)

/-- `HorseHerd::selectForReplacement(num_horses)`: worst `num` indices by
ascending `(best_fitness, index)` (the pair comparator is a strict total
order, so the `std::sort` result is unique). -/
def selectForReplacement (num : Int) (horses : List Horse) : List Int :=
  let pairs := horses.enum.map (fun p => (p.2.bestFitness, (p.1 : Int)))
  let sorted := sortBy (fun a b => a.1 < b.1 ∨ (a.1 = b.1 ∧ a.2 < b.2)) pairs
  ((sorted.take (min num (pairs.length : Int)).toNat).map (·.2))

/-- The `while (parent2_idx == parent1_idx && herd_size > 1)` retry loop of
`HorseHerd::performMating`, fuel-bounded (the C++ loop is unbounded; any
execution that exits within the fuel is represented exactly, the rest map to
an error). -/
def retryP2 (horses : List Horse) (p1 : Int) : Nat → Int → Tape → Except Err (Int × Tape)
  | 0, p2, t =>
    if p2 = p1 ∧ horses.length > 1 then .error "mating parent retry limit"
    else .ok (p2, t)
  | fuel + 1, p2, t =>
    if p2 = p1 ∧ horses.length > 1 then
      match tournamentSelection horses 3 t with
      | .error e => .error e
      | .ok (p2n, t1) => retryP2 horses p1 fuel p2n t1
    else .ok (p2, t)

/-- One mating event loop of `HorseHerd::performMating`. -/
def matingEvents (crossoverRate : ℚ) :
    Nat → List Horse → Int → Tape → Except Err (List Horse × Int × Tape)
  | 0, horses, count, t => .ok (horses, count, t)
  | k + 1, horses, count, t =>
    match tournamentSelection horses 3 t with
    | .error e => .error e
    | .ok (p1, t1) =>
      match tournamentSelection horses 3 t1 with
      | .error e => .error e
      | .ok (p2i, t2) =>
        match retryP2 horses p1 1000 p2i t2 with
        | .error e => .error e
        | .ok (p2, t3) =>
          match Horse.mateWith (horses.getD p1.toNat dummyHorse)
              (horses.getD p2.toNat dummyHorse) crossoverRate t3 with
          | .error e => .error e
          | .ok (offspring, t4) =>
            match selectForReplacement 1 horses with
            | [] => matingEvents crossoverRate k horses count t4
            | weakIdx :: _ =>
              match offspring.makespanE with
              | .error e => .error e
              | .ok om =>
                match (horses.getD weakIdx.toNat dummyHorse).solution.makespanE with
                | .error e => .error e
                | .ok wm =>
                  if om < wm then
                    match (horses.getD weakIdx.toNat dummyHorse).setSolution offspring with
                    | .error e => .error e
                    | .ok hw =>
                      matingEvents crossoverRate k (horses.set weakIdx.toNat hw) (count + 1) t4
                  else matingEvents crossoverRate k horses count t4

/-- `HorseHerd::performMating(mating_rate, crossover_rate)`. -/
def Herd.performMating (hd : Herd) (matingRate crossoverRate : ℚ) (t : Tape) :
    Except Err (Herd × Int × Tape) :=
  let numMatings : Int := ((hd.horses.length : ℚ) * matingRate / 2).floor
  match matingEvents crossoverRate numMatings.toNat hd.horses 0 t with
  | .error e => .error e
  | .ok (horses1, c, t1) =>
    let hd1 := { hd with horses := horses1 }
    if c > 0 then
      match hd1.updateLeader with
      | .error e => .error e
      | .ok (hd2, _) => .ok (hd2, c, t1)
    else .ok (hd1, c, t1)

/-- The per-horse loop of `HorseHerd::performMutation`: `mutate` is applied to
EVERY horse and its result is kept; the count only reports how many ended up
strictly better than before. -/
def mutateAll (mutationRate : ℚ) :
    List Horse → Tape → Except Err (List Horse × Int × Tape)
  | [], t => .ok ([], 0, t)
  | h :: hs, t =>
    match h.solution.makespanE with
    | .error e => .error e
    | .ok om =>
      match h.mutate mutationRate t with
      | .error e => .error e
      | .ok (h1, t1) =>
        match h1.solution.makespanE with
        | .error e => .error e
        | .ok nm =>
          match mutateAll mutationRate hs t1 with
          | .error e => .error e
          | .ok (hs1, c, t2) => .ok (h1 :: hs1, (if nm < om then c + 1 else c), t2)

/-- `HorseHerd::performMutation(mutation_rate)`. -/
def Herd.performMutation (hd : Herd) (mutationRate : ℚ) (t : Tape) :
    Except Err (Herd × Int × Tape) :=
  match mutateAll mutationRate hd.horses t with
  | .error e => .error e
  | .ok (horses1, c, t1) =>
    let hd1 := { hd with horses := horses1 }
    if c > 0 then
      match hd1.updateLeader with
      | .error e => .error e
      | .ok (hd2, _) => .ok (hd2, c, t1)
    else .ok (hd1, c, t1)

/-- `HorseHerd::ageHorses`. -/
def Herd.ageHorses (hd : Herd) : Herd :=
  { hd with horses := hd.horses.map Horse.increaseAge }

/-- The replacement loop of `HorseHerd::replaceWeakHorses`. -/
def replaceAt (inst : ProblemInstance) :
    List Int → List Horse → Tape → Except Err (List Horse × Tape)
  | [], horses, t => .ok (horses, t)
  | idx :: rest, horses, t =>
    match Horse.ofInstance inst t with
    | .error e => .error e
    | .ok (fresh, t1) => replaceAt inst rest (horses.set idx.toNat fresh) t1

/-- `HorseHerd::replaceWeakHorses(replacement_rate)`: replaces the worst
`trunc(size × rate)` horses with fresh random ones (early-returns `0` when
that count is zero, without a leader refresh). -/
def Herd.replaceWeakHorses (hd : Herd) (replacementRate : ℚ) (t : Tape) :
    Except Err (Herd × Int × Tape) :=
  let num : Int := ((hd.horses.length : ℚ) * replacementRate).floor
  if num = 0 then .ok (hd, 0, t)
  else
    let weak := selectForReplacement num hd.horses
    match replaceAt hd.inst weak hd.horses t with
    | .error e => .error e
    | .ok (horses1, t1) =>
      match Herd.updateLeader { hd with horses := horses1 } with
      | .error e => .error e
      | .ok (hd2, _) => .ok (hd2, num, t1)

/-- The per-horse loop of `HorseHerd::rejuvenateStagnantHorses`: rejuvenate
AND randomly reinitialize every stagnant horse. -/
def rejuvenateAll (maxStagnation : Int) :
    List Horse → Tape → Except Err (List Horse × Int × Tape)
  | [], t => .ok ([], 0, t)
  | h :: hs, t =>
    if h.isStagnant maxStagnation then
      let r := h.rejuvenate t
      match r.1.initRandom r.2 with
      | .error e => .error e
      | .ok (h2, t2) =>
        match rejuvenateAll maxStagnation hs t2 with
        | .error e => .error e
        | .ok (hs1, c, t3) => .ok (h2 :: hs1, c + 1, t3)
    else
      match rejuvenateAll maxStagnation hs t with
      | .error e => .error e
      | .ok (hs1, c, t3) => .ok (h :: hs1, c, t3)

/-- `HorseHerd::rejuvenateStagnantHorses(max_stagnation)`. -/
def Herd.rejuvenateStagnant (hd : Herd) (maxStagnation : Int) (t : Tape) :
    Except Err (Herd × Int × Tape) :=
  match rejuvenateAll maxStagnation hd.horses t with
  | .error e => .error e
  | .ok (horses1, c, t1) =>
    let hd1 := { hd with horses := horses1 }
    if c > 0 then
      match hd1.updateLeader with
      | .error e => .error e
      | .ok (hd2, _) => .ok (hd2, c, t1)
    else .ok (hd1, c, t1)

/-- The elite loop of `HorseHerd::improveElite`: high-intensity grazing on the
first `k` horses of the sorted population. -/
def eliteLoop : Nat → List Horse → Tape → Except Err (List Horse × Int × Tape)
  | 0, horses, t => .ok (horses, 0, t)
  | _ + 1, [], t => .ok ([], 0, t)
  | k + 1, h :: hs, t =>
    match h.bestMakespanE with
    | .error e => .error e
    | .ok om =>
      match h.graze 0.9 t with
      | .error e => .error e
      | .ok (h1, _, t1) =>
        match h1.bestMakespanE with
        | .error e => .error e
        | .ok nm =>
          match eliteLoop k hs t1 with
          | .error e => .error e
          | .ok (hs1, c, t2) => .ok (h1 :: hs1, (if nm < om then c + 1 else c), t2)

/-- `HorseHerd::improveElite(num_horses)`: sorts the population descending by
current fitness (`std::sort` leaves the tie order unspecified; the embedding
fixes the stable order, which is one admissible execution) and grazes the top
`min(num, size)` at intensity `0.9`. -/
def Herd.improveElite (hd : Herd) (numHorses : Int) (t : Tape) :
    Except Err (Herd × Int × Tape) :=
  let sorted := sortBy (fun a b => a.fitness > b.fitness) hd.horses
  let eliteCount := min numHorses (sorted.length : Int)
  match eliteLoop eliteCount.toNat sorted t with
  | .error e => .error e
  | .ok (horses1, c, t1) =>
    let hd1 := { hd with horses := horses1 }
    if c > 0 then
      match hd1.updateLeader with
      | .error e => .error e
      | .ok (hd2, _) => .ok (hd2, c, t1)
    else .ok (hd1, c, t1)

/-- `HorseHerd::getBestSolution`. -/
def Herd.getBestSolution (hd : Herd) : Except Err Sol :=
  match getBestHorseE hd.horses with
  | .error e => .error e
  | .ok h => .ok h.bestSolution

/-- `HorseHerd::getAverageFitness`. -/
def Herd.averageFitness (hd : Herd) : ℚ :=
  if hd.horses.isEmpty then 0
  else (hd.horses.foldl (fun acc h => acc + h.bestFitness) 0) / (hd.horses.length : ℚ)

/-- The horse-creation loops of `HorseHerd::initialize`: `numRandom` random
horses followed by `numGreedy` greedy horses, the `i`-th greedy horse (for
`i > 0`) mutated at rate `0.1 × i`. -/
def mkRandomHorses (inst : ProblemInstance) :
    Nat → Tape → Except Err (List Horse × Tape)
  | 0, t => .ok ([], t)
  | k + 1, t =>
    match Horse.ofInstance inst t with
    | .error e => .error e
    | .ok (h, t1) =>
      match mkRandomHorses inst k t1 with
      | .error e => .error e
      | .ok (hs, t2) => .ok (h :: hs, t2)

def mkGreedyHorses (inst : ProblemInstance) (total : Nat) :
    Nat → Tape → Except Err (List Horse × Tape)
  | 0, t => .ok ([], t)
  | k + 1, t =>
    let i := total - (k + 1)
    match Horse.ofInstance inst t with
    | .error e => .error e
    | .ok (h0, t1) =>
      match h0.initGreedy with
      | .error e => .error e
      | .ok (h1) =>
        match (if 0 < i then Horse.mutate h1 ((1 : ℚ)/10 * (i : ℚ)) t1
               else .ok (h1, t1)) with
        | .error e => .error e
        | .ok (h2, t2) =>
          match mkGreedyHorses inst total k t2 with
          | .error e => .error e
          | .ok (hs, t3) => .ok (h2 :: hs, t3)

/-- `HorseHerd::initialize(random_ratio)`: throws outside `[0, 1]`; fills the
population with `trunc(size × ratio)` random and the remaining greedy horses,
refreshes the leader and the diversity (the closing log line evaluates the
best horse's best makespan, which requires a non-empty herd). -/
def Herd.herdInit (hd : Herd) (randomRat : ℚ) (t : Tape) :
    Except Err (Herd × Tape) :=
  if randomRat < 0 ∨ randomRat > 1 then
    .error "Random ratio must be between 0.0 and 1.0"
  else
    let numRandom : Int := ((hd.herdSize : ℚ) * randomRat).floor
    let numGreedy : Int := hd.herdSize - numRandom
    match mkRandomHorses hd.inst numRandom.toNat t with
    | .error e => .error e
    | .ok (randoms, t1) =>
      match mkGreedyHorses hd.inst numGreedy.toNat numGreedy.toNat t1 with
      | .error e => .error e
      | .ok (greedys, t2) =>
        let hd1 := { hd with horses := randoms ++ greedys }
        match hd1.updateLeader with
        | .error e => .error e
        | .ok (hd2, _) =>
          let hd3 := hd2.calcDiversity
          match getBestHorseE hd3.horses with
          | .error e => .error e
          | .ok bh =>
            match bh.bestMakespanE with
            | .error e => .error e
            | .ok _ => .ok (hd3, t2)

/-! ## Optimizer driver (`src/algorithm/HHOA.*`) -/

structure HHOAParameters where
  populationSize : Int := 30
  maxIterations : Int := 1000
  grazingIntensity : ℚ := 0.5
  roamingRate : ℚ := 0.3
  explorationRate : ℚ := 0.3
  followingRate : ℚ := 0.7
  matingRate : ℚ := 0.4
  crossoverRate : ℚ := 0.8
  mutationRate : ℚ := 0.1
  replacementRate : ℚ := 0.1
  maxStagnation : Int := 20
  eliteImprovementFreq : Int := 10
  eliteCount : Int := 3
  diversityThreshold : ℚ := 0.01
  adaptiveParameters : Bool := true
  terminationPatience : Int := 100
deriving Repr, DecidableEq

/-- `HHOAParameters::isValid`. -/
def HHOAParameters.isValid (p : HHOAParameters) : Bool :=
  (0 < p.populationSize) && (0 < p.maxIterations) &&
  (0 ≤ p.grazingIntensity) && (p.grazingIntensity ≤ 1) &&
  (0 ≤ p.roamingRate) && (p.roamingRate ≤ 1) &&
  (0 ≤ p.explorationRate) && (p.explorationRate ≤ 1) &&
  (0 ≤ p.followingRate) && (p.followingRate ≤ 1) &&
  (0 ≤ p.matingRate) && (p.matingRate ≤ 1) &&
  (0 ≤ p.crossoverRate) && (p.crossoverRate ≤ 1) &&
  (0 ≤ p.mutationRate) && (p.mutationRate ≤ 1) &&
  (0 ≤ p.replacementRate) && (p.replacementRate ≤ 1) &&
  (0 < p.maxStagnation) && (0 ≤ p.eliteCount) &&
  (0 < p.terminationPatience)

structure HHOAStatistics where
  iterationsExecuted : Int := 0
  totalImprovements : Int := 0
  leaderChanges : Int := 0
  rejuvenations : Int := 0
  replacements : Int := 0
  bestMakespanHistory : List Int := []
  diversityHistory : List ℚ := []
  averageFitnessHistory : List ℚ := []
deriving Repr, DecidableEq

/-- The driver state: the parameters are mutable during the run (adaptive
control and diversity preservation rewrite rates). -/
structure AlgState where
  inst : ProblemInstance
  params : HHOAParameters
  stats : HHOAStatistics
  herd : Herd
deriving Repr, DecidableEq

/-- `HHOA::HHOA(instance, parameters)`: throws on an invalid instance or
invalid parameters before constructing the herd. -/
def mkHHOA (inst : ProblemInstance) (params : HHOAParameters) (t : Tape) :
    Except Err (AlgState × Tape) :=
  if ¬ inst.isValid then .error "Invalid problem instance"
  else if ¬ params.isValid then .error "Invalid HHOA parameters"
  else
    match mkHerd inst params.populationSize t with
    | .error e => .error e
    | .ok (hd, t1) => .ok ({ inst := inst, params := params, stats := {}, herd := hd }, t1)

/-- `HHOA::getBestSolution` (herd present by construction). -/
def AlgState.getBestSolutionA (st : AlgState) : Except Err Sol :=
  st.herd.getBestSolution

/-- `HHOA::applyDiversityPreservation(diversity)`: replace about 20% of the
population with random horses and raise the mutation rate (capped at 0.4). -/
def applyDiversityPreservation (st : AlgState) (diversity : ℚ) (t : Tape) :
    Except Err (AlgState × Tape) :=
  if diversity ≥ st.params.diversityThreshold then .ok (st, t)
  else
    let numRepl : Int := max 1 ((st.params.populationSize : ℚ) * 0.2).floor
    match st.herd.replaceWeakHorses ((numRepl : ℚ) / (st.params.populationSize : ℚ)) t with
    | .error e => .error e
    | .ok (hd1, _, t1) =>
      .ok ({ st with herd := hd1,
                     params := { st.params with
                       mutationRate := min 0.4 (st.params.mutationRate * 1.5) } }, t1)

/-- `HHOA::executeIteration(iteration)`: the fixed phase sequence. -/
def executeIteration (iteration : Int) (st : AlgState) (t : Tape) :
    Except Err (Bool × AlgState × Tape) :=
  match st.herd.performGrazing st.params.grazingIntensity t with
  | .error e => .error e
  | .ok (hd1, g, t1) =>
    match hd1.performRoaming st.params.roamingRate st.params.explorationRate t1 with
    | .error e => .error e
    | .ok (hd2, r, t2) =>
      match hd2.performFollowing st.params.followingRate t2 with
      | .error e => .error e
      | .ok (hd3, f, t3) =>
        match hd3.performMating st.params.matingRate st.params.crossoverRate t3 with
        | .error e => .error e
        | .ok (hd4, mt, t4) =>
          match hd4.performMutation st.params.mutationRate t4 with
          | .error e => .error e
          | .ok (hd5, mu, t5) =>
            let hd6 := hd5.ageHorses
            match (if iteration % 10 = 0 then hd6.replaceWeakHorses st.params.replacementRate t5
                   else .ok (hd6, 0, t5)) with
            | .error e => .error e
            | .ok (hd7, repl, t6) =>
              match (if iteration % st.params.maxStagnation = 0 then
                       hd7.rejuvenateStagnant st.params.maxStagnation t6
                     else .ok (hd7, 0, t6)) with
              | .error e => .error e
              | .ok (hd8, rej, t7) =>
                match (if iteration % st.params.eliteImprovementFreq = 0 then
                         hd8.improveElite st.params.eliteCount t7
                       else .ok (hd8, 0, t7)) with
                | .error e => .error e
                | .ok (hd9, el, t8) =>
                  match hd9.updateLeader with
                  | .error e => .error e
                  | .ok (hd10, leaderChanged) =>
                    let hd11 := hd10.calcDiversity
                    let stats1 := { st.stats with
                      replacements := st.stats.replacements + repl,
                      rejuvenations := st.stats.rejuvenations + rej,
                      leaderChanges :=
                        st.stats.leaderChanges + (if leaderChanged then 1 else 0) }
                    let st1 := { st with herd := hd11, stats := stats1 }
                    let improved :=
                      g > 0 ∨ r > 0 ∨ f > 0 ∨ mt > 0 ∨ mu > 0 ∨ el > 0
                    match (if hd11.diversity < st1.params.diversityThreshold then
                             applyDiversityPreservation st1 hd11.diversity t8
                           else .ok (st1, t8)) with
                    | .error e => .error e
                    | .ok (st2, t9) => .ok (decide improved, st2, t9)

/-- `HHOA::recordStatistics`: append best makespan, diversity and average
fitness to the history series. -/
def recordStats (st : AlgState) : Except Err AlgState :=
  match st.getBestSolutionA with
  | .error e => .error e
  | .ok best =>
    match best.makespanE with
    | .error e => .error e
    | .ok m =>
      .ok { st with stats := { st.stats with
        bestMakespanHistory := st.stats.bestMakespanHistory ++ [m],
        diversityHistory := st.stats.diversityHistory ++ [st.herd.diversity],
        averageFitnessHistory :=
          st.stats.averageFitnessHistory ++ [st.herd.averageFitness] } }

/-- `HHOA::updateAdaptiveParameters(iteration, diversity, stagnation_count)`. -/
def adaptStep (iteration : Int) (diversity : ℚ) (stagnationCount : Int)
    (p : HHOAParameters) : HHOAParameters :=
  let progress : ℚ := (iteration : ℚ) / (p.maxIterations : ℚ)
  let p1 :=
    if progress < 0.3 then
      { p with roamingRate := min 0.5 (p.roamingRate * 1.1),
               explorationRate := min 0.5 (p.explorationRate * 1.1) }
    else if progress > 0.7 then
      { p with grazingIntensity := min 0.9 (p.grazingIntensity * 1.05),
               followingRate := min 0.9 (p.followingRate * 1.05) }
    else p
  let p2 :=
    if diversity < p1.diversityThreshold then
      { p1 with mutationRate := min 0.3 (p1.mutationRate * 1.2),
                replacementRate := min 0.2 (p1.replacementRate * 1.1) }
    else if diversity > 0.1 then
      { p1 with grazingIntensity := min 0.9 (p1.grazingIntensity * 1.1) }
    else p1
  if stagnationCount > p2.maxStagnation / 2 then
    { p2 with mutationRate := min 0.3 (p2.mutationRate * 1.15) }
  else p2

/-- `HHOA::shouldTerminate(iteration, stagnation_count)`: an installed
termination callback REPLACES the built-in max-iteration and stagnation
checks (`best` is the herd's best solution snapshot passed to the callback). -/
def shouldTerminate (cb : Option (Int → Sol → Bool)) (p : HHOAParameters)
    (iteration stagnationCount : Int) (best : Sol) : Bool :=
  match cb with
  | some f => f iteration best
  | none =>
    if iteration ≥ p.maxIterations - 1 then true
    else if stagnationCount ≥ p.terminationPatience then true
    else false

/-- The makespan bookkeeping of one loop step of `HHOA::optimize`. -/
def nextBM (currentMakespan bestMakespan : Int) : Int :=
  if currentMakespan < bestMakespan then currentMakespan else bestMakespan

/-- The stagnation counter after one loop step. -/
def nextSC (currentMakespan bestMakespan stagnationCount : Int) : Int :=
  if currentMakespan < bestMakespan then 0 else stagnationCount + 1

/-- The improvement bookkeeping on the driver state. -/
def nextST3 (currentMakespan bestMakespan : Int) (st2 : AlgState) : AlgState :=
  if currentMakespan < bestMakespan then
    { st2 with stats := { st2.stats with
        totalImprovements := st2.stats.totalImprovements + 1 } }
  else st2

/-- The adaptive-parameter update on the driver state. -/
def nextST (iteration currentMakespan bestMakespan stagnationCount : Int)
    (st2 : AlgState) : AlgState :=
  if (nextST3 currentMakespan bestMakespan st2).params.adaptiveParameters then
    { nextST3 currentMakespan bestMakespan st2 with
      params := adaptStep iteration
        (nextST3 currentMakespan bestMakespan st2).herd.diversity
        (nextSC currentMakespan bestMakespan stagnationCount)
        (nextST3 currentMakespan bestMakespan st2).params }
  else nextST3 currentMakespan bestMakespan st2

/-- The generation/iteration counters advanced for the next loop pass. -/
def advanceST (iteration : Int) (st4 : AlgState) : AlgState :=
  { st4 with
    herd := { st4.herd with generation := st4.herd.generation + 1 },
    stats := { st4.stats with iterationsExecuted := iteration + 1 } }

/-- The iteration loop of `HHOA::optimize(iterations)`; `fuel` counts the
remaining loop indices. -/
def optLoop (cb : Option (Int → Sol → Bool)) :
    Nat → Int → AlgState → Int → Int → Tape → Except Err (AlgState × Tape)
  | 0, _, st, _, _, t => .ok (st, t)
  | fuel + 1, iteration, st, bestMakespan, stagnationCount, t =>
    match executeIteration iteration st t with
    | .error e => .error e
    | .ok (_, st1, t1) =>
      match recordStats st1 with
      | .error e => .error e
      | .ok st2 =>
        match st2.getBestSolutionA with
        | .error e => .error e
        | .ok best =>
          match best.makespanE with
          | .error e => .error e
          | .ok currentMakespan =>
            if shouldTerminate cb
                (nextST iteration currentMakespan bestMakespan stagnationCount st2).params
                iteration (nextSC currentMakespan bestMakespan stagnationCount) best then
              .ok (nextST iteration currentMakespan bestMakespan stagnationCount st2, t1)
            else
              optLoop cb fuel (iteration + 1)
                (advanceST iteration
                  (nextST iteration currentMakespan bestMakespan stagnationCount st2))
                (nextBM currentMakespan bestMakespan)
                (nextSC currentMakespan bestMakespan stagnationCount) t1

/-- `HHOA::optimize(iterations)`: initialize (statistics reset, herd filled
with default random ratio `0.8`), run the loop from iteration `0`, return the
best solution. -/
def optimizeE (iterations : Int) (cb : Option (Int → Sol → Bool))
    (st : AlgState) (t : Tape) : Except Err (Sol × AlgState × Tape) :=
  match Herd.herdInit { st.herd with horses := [] } 0.8 t with
  | .error e => .error e
  | .ok (hd1, t1) =>
    let st1 := { st with herd := hd1, stats := {} }
    match st1.getBestSolutionA with
    | .error e => .error e
    | .ok b0 =>
      match b0.makespanE with
      | .error e => .error e
      | .ok m0 =>
        match optLoop cb iterations.toNat 0 st1 m0 0 t1 with
        | .error e => .error e
        | .ok (st2, t2) =>
          match st2.getBestSolutionA with
          | .error e => .error e
          | .ok bestFinal => .ok (bestFinal, st2, t2)

/-- `HHOA::optimize()` = `optimize(parameters_.max_iterations)`. -/
def optimize0 (cb : Option (Int → Sol → Bool)) (st : AlgState) (t : Tape) :
    Except Err (Sol × AlgState × Tape) :=
  optimizeE st.params.maxIterations cb st t

/-! ## Specification-side definitions

These formalize the SPEC's wording, to be compared against the embedded
code.  Each is clearly named `spec…` / `…Spec`. -/

/-- `processingTime(job at p, k)` for the spec recurrence. -/
def ptv (inst : ProblemInstance) (seq : List Int) (p k : Nat) : Int :=
  (inst.pt.getD (seq.getD p 0).toNat []).getD k 0

/-- The spec's flow-shop recurrence:
`C[p][k] = processingTime(job at p, k) + max(C[p-1][k] if p>0 else 0,
C[p][k-1] if k>0 else 0)`, with `C[0][0] = processingTime(job at 0, 0)`. -/
def specC (inst : ProblemInstance) (seq : List Int) : Nat → Nat → Int
  | 0, 0 => ptv inst seq 0 0
  | p + 1, 0 => ptv inst seq (p + 1) 0 + max (specC inst seq p 0) 0
  | 0, k + 1 => ptv inst seq 0 (k + 1) + max 0 (specC inst seq 0 k)
  | p + 1, k + 1 =>
    ptv inst seq (p + 1) (k + 1) +
      max (specC inst seq p (k + 1)) (specC inst seq (p + 1) k)

/-- The end-to-end scenario instance of the spec: `numJobs = 4`,
`numMachines = 3`, processing times `[[5,3,4],[4,5,3],[3,4,5],[5,4,3]]`. -/
def inst43 : ProblemInstance :=
  ProblemInstance.ofMatrix [[5, 3, 4], [4, 5, 3], [3, 4, 5], [5, 4, 3]]

/-- The 2-opt scan order of the searches: pairs `(i, j)` with `i < j`,
`i` ascending, then `j` ascending. -/
def fiPairs (n : Nat) : List (Nat × Nat) :=
  (List.range (n - 1)).flatMap (fun i => (rangeFromTo (i + 1) n).map (fun j => (i, j)))

/-- First-improvement scan for 2-opt, modelled from the spec:
apply each candidate swap to the entry solution, evaluate, and return as soon
as the first makespan reduction is found. -/
def fi2optGo (s : Sol) (m0 : Int) : List (Nat × Nat) → Except Err (Sol × Bool)
  | [] => .ok (s, false)
  | (i, j) :: rest =>
    match s.swapJobs (i : Int) (j : Int) with
    | .error e => .error e
    | .ok s1 =>
      match s1.makespanE with
      | .error e => .error e
      | .ok nm => if nm < m0 then .ok (s1, true) else fi2optGo s m0 rest

/-- The spec's first-improvement 2-opt search. -/
def firstImprovement2Opt (s : Sol) : Except Err (Sol × Bool) :=
  match s.makespanE with
  | .error e => .error e
  | .ok m0 => fi2optGo s m0 (fiPairs s.seq.length)

/-- The insertion scan order: pairs `(i, j)` with `j ≠ i`, both ascending. -/
def fiInsPairs (n : Nat) : List (Nat × Nat) :=
  (List.range n).flatMap (fun i => ((List.range n).filter (fun j => j ≠ i)).map (fun j => (i, j)))

/-- First-improvement scan for the insertion search, modelled from the spec:
candidates are relocate moves of the entry solution; the first one reducing
the makespan is returned. -/
def fiInsGo (base : Sol) (m0 : Int) : List (Nat × Nat) → Except Err (Option Sol)
  | [] => .ok none
  | (i, j) :: rest =>
    match Sol.ofSeq (insMove base.seq i j) base.inst with
    | .error e => .error e
    | .ok temp =>
      match temp.makespanE with
      | .error e => .error e
      | .ok nm => if nm < m0 then .ok (some temp) else fiInsGo base m0 rest

/-- The spec's first-improvement insertion search. -/
def firstImprovementIns (s : Sol) : Except Err (Sol × Bool) :=
  match s.makespanE with
  | .error e => .error e
  | .ok m0 =>
    match fiInsGo s m0 (fiInsPairs s.seq.length) with
    | .error e => .error e
    | .ok (some temp) => .ok (temp, true)
    | .ok none => .ok (s, false)

/-- Rounding to the nearest integer (half away from zero on the nonnegative
rationals at issue), for the spec's `round(explorationRate × n × 0.5)`. -/
def roundQ (x : ℚ) : Int := (x + 1 / 2).floor

/-- One random swap-neighbor move (`createSwapNeighbor` shape). -/
def isSwapOf (s s' : Sol) : Prop :=
  s'.inst = s.inst ∧ ∃ i j : Nat, i < s.seq.length ∧ j < s.seq.length ∧
    s'.seq = listSwap s.seq i j

/-- One random insert-neighbor move (`createInsertNeighbor` shape; the move
is the identity when the two drawn positions coincide). -/
def isInsertOf (s s' : Sol) : Prop :=
  s'.inst = s.inst ∧ (s'.seq = s.seq ∨ ∃ i j : Nat, i < s.seq.length ∧ j < s.seq.length ∧
    s'.seq = insMove s.seq i j)

/-- A chain of exactly `k` swap-or-insert neighbor moves. -/
def NSteps : Nat → Sol → Sol → Prop
  | 0, s, s' => s' = s
  | k + 1, s, s' => ∃ mid, (isSwapOf s mid ∨ isInsertOf s mid) ∧ NSteps k mid s'

/-- Modelled from the spec: the iteration loop with the built-in
max-iteration / stagnation-patience checks REMOVED — the supplied
termination predicate alone decides the early stop. -/
def optLoopCb (f : Int → Sol → Bool) :
    Nat → Int → AlgState → Int → Int → Tape → Except Err (AlgState × Tape)
  | 0, _, st, _, _, t => .ok (st, t)
  | fuel + 1, iteration, st, bestMakespan, stagnationCount, t =>
    match executeIteration iteration st t with
    | .error e => .error e
    | .ok (_, st1, t1) =>
      match recordStats st1 with
      | .error e => .error e
      | .ok st2 =>
        match st2.getBestSolutionA with
        | .error e => .error e
        | .ok best =>
          match best.makespanE with
          | .error e => .error e
          | .ok currentMakespan =>
            if f iteration best then
              .ok (nextST iteration currentMakespan bestMakespan stagnationCount st2, t1)
            else
              optLoopCb f fuel (iteration + 1)
                (advanceST iteration
                  (nextST iteration currentMakespan bestMakespan stagnationCount st2))
                (nextBM currentMakespan bestMakespan)
                (nextSC currentMakespan bestMakespan stagnationCount) t1

/-- Modelled from the spec: the configuration validity predicate as the spec
states it — all per-phase rates in `[0,1]`, all sizes/counts (population
size, max iterations, stagnation patience, elite count/frequency)
positive. -/
def specParamsValid (p : HHOAParameters) : Prop :=
  (0 ≤ p.grazingIntensity ∧ p.grazingIntensity ≤ 1) ∧
  (0 ≤ p.roamingRate ∧ p.roamingRate ≤ 1) ∧
  (0 ≤ p.explorationRate ∧ p.explorationRate ≤ 1) ∧
  (0 ≤ p.followingRate ∧ p.followingRate ≤ 1) ∧
  (0 ≤ p.matingRate ∧ p.matingRate ≤ 1) ∧
  (0 ≤ p.crossoverRate ∧ p.crossoverRate ≤ 1) ∧
  (0 ≤ p.mutationRate ∧ p.mutationRate ≤ 1) ∧
  (0 ≤ p.replacementRate ∧ p.replacementRate ≤ 1) ∧
  0 < p.populationSize ∧ 0 < p.maxIterations ∧
  0 < p.maxStagnation ∧ 0 < p.terminationPatience ∧
  0 < p.eliteCount ∧ 0 < p.eliteImprovementFreq

instance (p : HHOAParameters) : Decidable (specParamsValid p) := by
  unfold specParamsValid
  infer_instance

/-! ### Concrete inputs for counterexamples and witnesses -/

/-- A 2-job, 2-machine instance on which the job order matters:
`[0,1]` has makespan 11, `[1,0]` has makespan 19. -/
def inst2 : ProblemInstance := ProblemInstance.ofMatrix [[1, 9], [9, 1]]

/-- A 1-job instance (exposes the `randInt(1, 0)` call of the mapped
crossover). -/
def inst1 : ProblemInstance := ProblemInstance.ofMatrix [[1]]

/-- The (only) valid solution of `inst1`. -/
def sol1 : Sol := ⟨inst1, [0]⟩

/-- Population-1, single-iteration configuration (valid). -/
def params1 : HHOAParameters := { populationSize := 1, maxIterations := 1 }

/-- Tape for the C4 run: all gate draws fail (`0.9`), the two construction
shuffles are the identity, and the diversity-preservation replacement horse
is shuffled to the bad order `[1, 0]`. -/
def tape4 : Tape :=
  { ints := [], dbls := [9/10, 9/10, 9/10, 9/10, 9/10, 9/10, 9/10, 9/10],
    perms := [[0, 1], [0, 1], [1, 0]] }

/-- The best-of-population makespan immediately after initialization of the
C4 run. -/
def c4initBest : Except Err (List Int × Except Err Int) :=
  match mkHHOA inst2 params1 tape4 with
  | .error e => .error e
  | .ok (st, t1) =>
    match Herd.herdInit { st.herd with horses := [] } 0.8 t1 with
    | .error e => .error e
    | .ok (hd, _) =>
      match hd.getBestSolution with
      | .error e => .error e
      | .ok s => .ok (s.seq, s.makespanE)

/-- The result of the full C4 run: final solution, its makespan, its
validity. -/
def c4final : Except Err (List Int × Except Err Int × Bool) :=
  match mkHHOA inst2 params1 tape4 with
  | .error e => .error e
  | .ok (st, t1) =>
    match optimize0 none st t1 with
    | .error e => .error e
    | .ok (best, _, _) => .ok (best.seq, best.makespanE, best.isValid)

/-- A horse holding the good order of `inst2` with consistent fitness. -/
def horseC7 : Horse :=
  { solution := ⟨inst2, [0, 1]⟩, bestSolution := ⟨inst2, [0, 1]⟩,
    fitness := -11, bestFitness := -11, age := 0, grazingAbility := 0.8,
    stamina := 1, leaderFlag := false, stagnationCounter := 0 }

/-- A single-horse herd for the mutation counterexample. -/
def herdC7 : Herd :=
  { horses := [horseC7], inst := inst2, leader := horseC7, herdSize := 1,
    diversity := 0, generation := 0 }

/-- Tape on which the mutation gate fires and the drawn swap neighbor is
strictly worse. -/
def tapeC7 : Tape := { ints := [0, 1], dbls := [0, 0], perms := [] }

/-- The C7 horse after the worse mutation was kept. -/
def horseC7m : Horse := { horseC7 with solution := ⟨inst2, [1, 0]⟩, fitness := -19 }

/-- The C7 tape after the mutation pass consumed its draws. -/
def tapeC7e : Tape := { ints := [], dbls := [], perms := [] }

/-- The herd produced by `updateLeader` on the C7 single-horse herd: the best
agent does not strictly beat the stored leader, so only the flag is re-marked. -/
def herdC3r : Herd := { herdC7 with horses := [{ horseC7 with leaderFlag := true }] }

/-- A two-job parent for the crossover witness. -/
def solC2 : Sol := ⟨inst2, [0, 1]⟩

/-- A single-horse driver state for the callback-override witness. -/
def stC8 : AlgState := { inst := inst2, params := {}, stats := {}, herd := herdC7 }

/-- The state after one full iteration of the loop on `stC8` (empty tape, every
draw defaulted): the callback returned false, so the pass ran to fuel
exhaustion. -/
def stC8after : AlgState :=
  { inst := inst2,
    params := { roamingRate := 33/100, explorationRate := 33/100,
                mutationRate := 9/50, replacementRate := 11/100 },
    stats := { iterationsExecuted := 1, totalImprovements := 1, leaderChanges := 0,
               rejuvenations := 0, replacements := 0, bestMakespanHistory := [11],
               diversityHistory := [0], averageFitnessHistory := [-11] },
    herd := { horses := [{ solution := ⟨inst2, [0, 1]⟩, bestSolution := ⟨inst2, [0, 1]⟩,
                           fitness := -11, bestFitness := -11, age := 1,
                           grazingAbility := 199/250, stamina := 499/500,
                           leaderFlag := true, stagnationCounter := 0 }],
              inst := inst2, leader := horseC7, herdSize := 1, diversity := 0,
              generation := 1 } }

/-- Projection of the C7 run: the improvement count and the mutated horse's
current sequence. -/
def c7res : Except Err (Int × List Int) :=
  match Herd.performMutation herdC7 (1/2) tapeC7 with
  | .error e => .error e
  | .ok (hd', c, _) => .ok (c, (hd'.horses.getD 0 dummyHorse).solution.seq)

/-- A 4-job horse for the roam counterexample. -/
def horseC6 : Horse :=
  { solution := ⟨inst43, [0, 1, 2, 3]⟩, bestSolution := ⟨inst43, [0, 1, 2, 3]⟩,
    fitness := -26, bestFitness := -26, age := 0, grazingAbility := 0.8,
    stamina := 1, leaderFlag := false, stagnationCounter := 0 }

/-- Tape for the roam counterexample: every 50/50 choice picks the swap
neighbor, with positions `0,1` then `2,3`. -/
def tapeC6 : Tape := { ints := [0, 1, 2, 3], dbls := [0, 0], perms := [] }

/-- A 3-job instance on which `Solution::apply2Opt` keeps scanning past its
first improving swap. -/
def instC5 : ProblemInstance := ProblemInstance.ofMatrix [[1, 9], [9, 1], [5, 5]]

/-- The starting sequence of the 2-opt policy counterexample. -/
def solC5 : Sol := ⟨instC5, [2, 1, 0]⟩

/-! # Theorems -/

/-! ## Valid instances -/

theorem valid_numJobs_pos {inst : ProblemInstance} (hv : inst.isValid = true) :
    0 < inst.numJobs := by
  unfold ProblemInstance.isValid at hv
  simp only [Bool.and_eq_true, decide_eq_true_eq] at hv
  exact hv.1.1.1

theorem valid_numMachines_pos {inst : ProblemInstance} (hv : inst.isValid = true) :
    0 < inst.numMachines := by
  unfold ProblemInstance.isValid at hv
  simp only [Bool.and_eq_true, decide_eq_true_eq] at hv
  exact hv.1.1.2

theorem pt_getD_nonneg {inst : ProblemInstance} (hv : inst.isValid = true) (j k : Nat) :
    0 ≤ (inst.pt.getD j []).getD k 0 := by
  unfold ProblemInstance.isValid at hv
  simp only [Bool.and_eq_true, decide_eq_true_eq, List.all_eq_true] at hv
  obtain ⟨⟨⟨-, -⟩, -⟩, hrows⟩ := hv
  by_cases hjl : j < inst.pt.length
  · have hmem : inst.pt.getD j [] ∈ inst.pt := by
      rw [List.getD_eq_getElem _ _ hjl]
      exact List.getElem_mem hjl
    obtain ⟨-, hentries⟩ := hrows _ hmem
    by_cases hkl : k < (inst.pt.getD j []).length
    · have hmem2 : (inst.pt.getD j []).getD k 0 ∈ inst.pt.getD j [] := by
        rw [List.getD_eq_getElem _ _ hkl]
        exact List.getElem_mem hkl
      exact hentries _ hmem2
    · rw [List.getD_eq_default _ _ (Nat.le_of_not_lt hkl)]
  · rw [List.getD_eq_default _ _ (Nat.le_of_not_lt hjl)]
    simp [List.getD]

theorem ptv_nonneg {inst : ProblemInstance} (hv : inst.isValid = true)
    (seq : List Int) (p k : Nat) : 0 ≤ ptv inst seq p k :=
  pt_getD_nonneg hv _ _

theorem specC_nonneg {inst : ProblemInstance} (hv : inst.isValid = true)
    (seq : List Int) : ∀ p k, 0 ≤ specC inst seq p k := by
  intro p
  induction p with
  | zero =>
    intro k
    induction k with
    | zero => simpa [specC] using ptv_nonneg hv seq 0 0
    | succ k ihk =>
      have := ptv_nonneg hv seq 0 (k + 1)
      simp only [specC]
      have hm : (0 : Int) ≤ max 0 (specC inst seq 0 k) := le_max_left _ _
      omega
  | succ p ihp =>
    intro k
    induction k with
    | zero =>
      have := ptv_nonneg hv seq (p + 1) 0
      simp only [specC]
      have hm : (0 : Int) ≤ max (specC inst seq p 0) 0 := le_max_right _ _
      omega
    | succ k ihk =>
      have := ptv_nonneg hv seq (p + 1) (k + 1)
      simp only [specC]
      have hm : specC inst seq p (k + 1) ≤
          max (specC inst seq p (k + 1)) (specC inst seq (p + 1) k) := le_max_left _ _
      have := ihp (k + 1)
      omega

theorem getPT_ok {inst : ProblemInstance} (hv : inst.isValid = true) {job : Int}
    (h0 : 0 ≤ job) (h1 : job < inst.numJobs) {machine : Nat}
    (hm : (machine : Int) < inst.numMachines) :
    inst.getPT job machine = .ok ((inst.pt.getD job.toNat []).getD machine 0) := by
  unfold ProblemInstance.getPT
  rw [if_neg, Int.toNat_natCast]
  push_neg
  exact ⟨not_lt.mp (by omega), by omega, by omega, by omega⟩

/-! ## C1: the evaluator follows the spec recurrence -/

theorem buildRow_ok {inst : ProblemInstance} {seq : List Int}
    (hv : inst.isValid = true) (p : Nat) {job : Int} (hjob : job = seq.getD p 0)
    (h0 : 0 ≤ job) (h1 : job < inst.numJobs) (prevRow : List Int)
    (hprev : 0 < p → ∀ k, k < inst.numMachines.toNat →
      prevRow.getD k 0 = specC inst seq (p - 1) k) :
    ∀ cnt machine left, machine + cnt = inst.numMachines.toNat →
      (0 < machine → left = specC inst seq p (machine - 1)) →
      ∃ row, buildRow inst job p prevRow cnt machine left = .ok row ∧
        row.length = cnt ∧
        ∀ d, d < cnt → row.getD d 0 = specC inst seq p (machine + d) := by
  intro cnt
  induction cnt with
  | zero =>
    intro machine left _ _
    exact ⟨[], rfl, rfl, fun d hd => absurd hd (Nat.not_lt_zero d)⟩
  | succ cnt ih =>
    intro machine left hsum hleft
    have hmach : (machine : Int) < inst.numMachines := by
      have h2 : machine < inst.numMachines.toNat := by omega
      have h3 := valid_numMachines_pos hv
      omega
    have hget := getPT_ok hv h0 h1 hmach
    have hptv : (inst.pt.getD job.toNat []).getD machine 0 = ptv inst seq p machine := by
      unfold ptv
      rw [hjob]
    have hcell :
        (if p = 0 ∧ machine = 0 then (inst.pt.getD job.toNat []).getD machine 0
         else if p = 0 then left + (inst.pt.getD job.toNat []).getD machine 0
         else if machine = 0 then
           prevRow.getD machine 0 + (inst.pt.getD job.toNat []).getD machine 0
         else max (prevRow.getD machine 0) left +
           (inst.pt.getD job.toNat []).getD machine 0) = specC inst seq p machine := by
      rcases p with - | pp <;> rcases machine with - | mm
      · simpa [specC] using hptv
      · have hl : left = specC inst seq 0 mm := by simpa using hleft (Nat.succ_pos mm)
        have hnn := specC_nonneg hv seq 0 mm
        have hmx : max 0 (specC inst seq 0 mm) = specC inst seq 0 mm := max_eq_right hnn
        simp only [Nat.succ_ne_zero, and_false, if_false, if_true, specC, hptv, hl, hmx,
          reduceIte]
        omega
      · have hpr : prevRow.getD 0 0 = specC inst seq pp 0 := by
          simpa using hprev (Nat.succ_pos pp) 0 (by omega)
        have hnn := specC_nonneg hv seq pp 0
        have hmx : max (specC inst seq pp 0) 0 = specC inst seq pp 0 := max_eq_left hnn
        simp only [Nat.succ_ne_zero, false_and, and_true, if_false, if_true, specC, hptv,
          hpr, hmx, reduceIte]
        omega
      · have hpr : prevRow.getD (mm + 1) 0 = specC inst seq pp (mm + 1) := by
          simpa using hprev (Nat.succ_pos pp) (mm + 1) (by omega)
        have hl : left = specC inst seq (pp + 1) mm := by simpa using hleft (Nat.succ_pos mm)
        simp only [Nat.succ_ne_zero, false_and, and_false, if_false, specC, hptv, hpr, hl,
          reduceIte]
        omega
    obtain ⟨rest, hrest, hlen, hget2⟩ :=
      ih (machine + 1) (specC inst seq p machine) (by omega) (fun _ => by simp)
    refine ⟨specC inst seq p machine :: rest, ?_, by simp [hlen], ?_⟩
    · simp only [buildRow, hget, hcell, hrest]
    · intro d hd
      rcases d with - | dd
      · simp
      · have h := hget2 dd (by omega)
        rw [show machine + 1 + dd = machine + (dd + 1) by omega] at h
        simpa using h

theorem calcAllRows_ok {inst : ProblemInstance} {seq : List Int}
    (hv : inst.isValid = true) :
    ∀ (rest : List Int) (p : Nat) (prevRow : List Int),
      (∀ i, i < rest.length → rest.getD i 0 = seq.getD (p + i) 0) →
      (∀ x ∈ rest, 0 ≤ x ∧ x < inst.numJobs) →
      (0 < p → ∀ k, k < inst.numMachines.toNat →
        prevRow.getD k 0 = specC inst seq (p - 1) k) →
      ∃ rows, calcAllRows inst rest p prevRow = .ok rows ∧
        rows.length = rest.length ∧
        ∀ q k, q < rest.length → k < inst.numMachines.toNat →
          (rows.getD q []).getD k 0 = specC inst seq (p + q) k := by
  intro rest
  induction rest with
  | nil =>
    intro p prevRow _ _ _
    exact ⟨[], rfl, rfl, fun q k hq _ => absurd hq (Nat.not_lt_zero q)⟩
  | cons job rest' ih =>
    intro p prevRow hidx hrange hprev
    have hjob : job = seq.getD p 0 := by simpa using hidx 0 (Nat.succ_pos _)
    obtain ⟨hj0, hj1⟩ := hrange job (List.mem_cons_self _ _)
    obtain ⟨row, hrow, hrowlen, hrowget⟩ :=
      buildRow_ok hv p hjob hj0 hj1 prevRow hprev inst.numMachines.toNat 0 0 (by omega)
        (fun h => absurd h (by omega))
    obtain ⟨rows, hrows, hrowslen, hrowsget⟩ :=
      ih (p + 1) row
        (fun i hi => by
          have h := hidx (i + 1) (by simp only [List.length_cons]; omega)
          rw [List.getD_cons_succ] at h
          rw [show p + (i + 1) = p + 1 + i by omega] at h
          exact h)
        (fun x hx => hrange x (List.mem_cons_of_mem _ hx))
        (fun _ k hk => by simpa using hrowget k hk)
    refine ⟨row :: rows, ?_, by simp [hrowslen], ?_⟩
    · simp only [calcAllRows, hrow, hrows]
    · intro q k hq hk
      rcases q with - | qq
      · simpa using hrowget k hk
      · have h := hrowsget qq k (by simp only [List.length_cons] at hq; omega) hk
        rw [show p + 1 + qq = p + (qq + 1) by omega] at h
        exact h

/-- C1: for every valid instance and every length-`n` job sequence (jobs in
range), `calculateMakespan` fills `completionTime[p][k]` with exactly the
spec recurrence `specC`, and the returned makespan is `C[n-1][m-1]`; on the
4×3 end-to-end instance the identity order evaluates to the hand-computed
recurrence value `26`. -/
theorem claim_C1_evaluator_recurrence :
    (∀ (inst : ProblemInstance) (seq : List Int),
      inst.isValid = true →
      (seq.length : Int) = inst.numJobs →
      (∀ x ∈ seq, 0 ≤ x ∧ x < inst.numJobs) →
      ∃ rows, calcAllRows inst seq 0 [] = .ok rows ∧
        (∀ p k, p < seq.length → k < inst.numMachines.toNat →
          (rows.getD p []).getD k 0 = specC inst seq p k) ∧
        Sol.makespanE ⟨inst, seq⟩ =
          .ok (specC inst seq (seq.length - 1) (inst.numMachines.toNat - 1))) ∧
    (Sol.makespanE ⟨inst43, [0, 1, 2, 3]⟩ = .ok 26 ∧
      specC inst43 [0, 1, 2, 3] 3 2 = 26) := by
  have hgen : ∀ (inst : ProblemInstance) (seq : List Int),
      inst.isValid = true →
      (seq.length : Int) = inst.numJobs →
      (∀ x ∈ seq, 0 ≤ x ∧ x < inst.numJobs) →
      ∃ rows, calcAllRows inst seq 0 [] = .ok rows ∧
        (∀ p k, p < seq.length → k < inst.numMachines.toNat →
          (rows.getD p []).getD k 0 = specC inst seq p k) ∧
        Sol.makespanE ⟨inst, seq⟩ =
          .ok (specC inst seq (seq.length - 1) (inst.numMachines.toNat - 1)) := by
    intro inst seq hv hlen hrange
    obtain ⟨rows, hrows, hrowslen, hrowsget⟩ :=
      calcAllRows_ok hv seq 0 [] (fun i _ => by rw [Nat.zero_add]) hrange
        (fun h => absurd h (by omega))
    have hn : 0 < seq.length := by
      have := valid_numJobs_pos hv
      omega
    have hm : 0 < inst.numMachines.toNat := by
      have := valid_numMachines_pos hv
      omega
    refine ⟨rows, hrows, fun p k hp hk => by simpa using hrowsget p k hp hk, ?_⟩
    unfold Sol.makespanE Sol.calcMakespanE
    simp only [hrows]
    rw [if_pos hn]
    have h := hrowsget (seq.length - 1) (inst.numMachines.toNat - 1)
      (by omega) (by omega)
    simpa using h
  refine ⟨hgen, ?_, ?_⟩
  · decide
  · have h26 : Sol.makespanE ⟨inst43, [0, 1, 2, 3]⟩ = .ok 26 := by decide
    obtain ⟨rows, -, -, hmk⟩ := hgen inst43 [0, 1, 2, 3] (by decide) (by decide) (by decide)
    rw [hmk] at h26
    exact Except.ok.inj h26

/-- Witness for C1 at the concrete 4×3 instance with the identity order. -/
theorem claim_C1_witness :
    ∃ rows, calcAllRows inst43 [0, 1, 2, 3] 0 [] = .ok rows ∧
      (∀ p k, p < 4 → k < 3 → (rows.getD p []).getD k 0 = specC inst43 [0, 1, 2, 3] p k) ∧
      Sol.makespanE ⟨inst43, [0, 1, 2, 3]⟩ = .ok (specC inst43 [0, 1, 2, 3] 3 2) := by
  obtain ⟨rows, h1, h2, h3⟩ := claim_C1_evaluator_recurrence.1 inst43 [0, 1, 2, 3]
    (by decide) (by decide) (by decide)
  exact ⟨rows, h1, fun p k hp hk => h2 p k hp hk, h3⟩

/-! ## The random shuffle produces a permutation -/

theorem posPerm_perm {n : Nat} {σ : List Nat} (h : isPosPerm n σ = true) :
    σ.Perm (List.range n) := by
  unfold isPosPerm at h
  simp only [Bool.and_eq_true, decide_eq_true_eq, List.all_eq_true] at h
  obtain ⟨hlen, hmem⟩ := h
  have hsub : List.range n ⊆ σ := by
    intro x hx
    have := hmem x hx
    simpa [List.contains_iff_exists_mem_beq, beq_iff_eq] using this
  have hsp : (List.range n).Subperm σ := (List.nodup_range n).subperm hsub
  exact (hsp.perm_of_length_le (by rw [hlen, List.length_range])).symm

theorem map_getD_range (v : List Int) :
    (List.range v.length).map (fun i => v.getD i 0) = v := by
  apply List.ext_getElem
  · simp
  · intro i h1 h2
    simp only [List.getElem_map, List.getElem_range, List.getD_eq_getElem?_getD,
      List.getElem?_eq_getElem h2, Option.getD_some]

theorem shuffleR_perm (v : List Int) (t : Tape) : ((shuffleR v t).1).Perm v := by
  show (if isPosPerm v.length (t.perms.headD []) = true
    then applyShuffle (t.perms.headD []) v else v).Perm v
  by_cases h : isPosPerm v.length (t.perms.headD []) = true
  · rw [if_pos h]
    have hp := (posPerm_perm h).map (fun i => v.getD i 0)
    rw [map_getD_range v] at hp
    exact hp
  · rw [if_neg h]

/-! ## `Solution::isValid` characterizes permutations -/

theorem validLoop_iff (n : Int) :
    ∀ (l : List Int) (used : List Bool), used.length = n.toNat →
      (validLoop n l used = true ↔
        ((∀ x ∈ l, 0 ≤ x ∧ x < n) ∧ l.Nodup ∧
          ∀ x ∈ l, used.getD x.toNat false = false)) := by
  intro l
  induction l with
  | nil => simp [validLoop]
  | cons job rest ih =>
    intro used hlen
    unfold validLoop
    by_cases hr : job < 0 ∨ job ≥ n
    · rw [if_pos hr]
      apply iff_of_false (by simp)
      rintro ⟨hrange, -, -⟩
      have := hrange job (List.mem_cons_self _ _)
      omega
    · rw [if_neg hr]
      push_neg at hr
      obtain ⟨h0, h1⟩ := hr
      have hjn : job.toNat < n.toNat := by omega
      by_cases hu : used.getD job.toNat false = true
      · rw [if_pos hu]
        apply iff_of_false (by simp)
        rintro ⟨-, -, hfresh⟩
        have hf := hfresh job (List.mem_cons_self _ _)
        rw [hf] at hu
        exact absurd hu (by simp)
      · rw [if_neg hu, ih (used.set job.toNat true) (by simpa using hlen)]
        rw [Bool.not_eq_true] at hu
        have hset : ∀ x : Int, 0 ≤ x → x < n →
            ((used.set job.toNat true).getD x.toNat false = false ↔
              (x ≠ job ∧ used.getD x.toNat false = false)) := by
          intro x hx0 hx1
          rw [List.getD_eq_getElem?_getD, List.getElem?_set]
          by_cases hxy : job.toNat = x.toNat
          · have hxj : x = job := by omega
            rw [if_pos hxy, if_pos (by omega)]
            simp [hxj]
          · rw [if_neg hxy, ← List.getD_eq_getElem?_getD]
            have hxj : ¬ x = job := by omega
            simp [hxj]
        constructor
        · rintro ⟨hrange, hnd, hfresh⟩
          have hnotmem : job ∉ rest := by
            intro hmem
            exact ((hset job h0 h1).mp (hfresh job hmem)).1 rfl
          refine ⟨?_, List.nodup_cons.mpr ⟨hnotmem, hnd⟩, ?_⟩
          · intro x hx
            rcases List.mem_cons.mp hx with rfl | h
            · exact ⟨h0, h1⟩
            · exact hrange x h
          · intro x hx
            rcases List.mem_cons.mp hx with rfl | h
            · exact hu
            · exact ((hset x (hrange x h).1 (hrange x h).2).mp (hfresh x h)).2
        · rintro ⟨hrange, hnd, hfresh⟩
          have hrange' : ∀ x ∈ rest, 0 ≤ x ∧ x < n :=
            fun x hx => hrange x (List.mem_cons_of_mem _ hx)
          refine ⟨hrange', (List.nodup_cons.mp hnd).2, fun x hx => ?_⟩
          refine (hset x (hrange' x hx).1 (hrange' x hx).2).mpr
            ⟨fun hxy => ?_, hfresh x (List.mem_cons_of_mem _ hx)⟩
          exact (List.nodup_cons.mp hnd).1 (hxy ▸ hx)

theorem isValid_iff (s : Sol) :
    s.isValid = true ↔
      ((s.seq.length : Int) = s.inst.numJobs ∧ s.seq.Nodup ∧
        ∀ x ∈ s.seq, 0 ≤ x ∧ x < s.inst.numJobs) := by
  unfold Sol.isValid
  rw [Bool.and_eq_true, decide_eq_true_eq,
    validLoop_iff s.inst.numJobs s.seq _ (by simp)]
  constructor
  · rintro ⟨h1, h2, h3, -⟩
    exact ⟨h1, h3, h2⟩
  · rintro ⟨h1, h2, h3⟩
    refine ⟨h1, h3, h2, fun x hx => ?_⟩
    rw [List.getD_eq_getElem?_getD]
    rcases h4 : (List.replicate s.inst.numJobs.toNat false)[x.toNat]? with - | b
    · rfl
    · have hb := List.getElem?_mem h4
      rw [List.eq_of_mem_replicate hb]
      rfl

theorem isValid_of_perm {s s' : Sol} (h : s.isValid = true)
    (hp : s'.seq.Perm s.seq) (hi : s'.inst = s.inst) : s'.isValid = true := by
  rw [isValid_iff] at h ⊢
  obtain ⟨h1, h2, h3⟩ := h
  exact ⟨by rw [hp.length_eq, hi]; exact h1, hp.symm.nodup h2,
    fun x hx => hi ▸ h3 x (hp.subset hx)⟩

/-! ## Total evaluation on in-range sequences; horse construction -/

theorem paramsValid_iff (p : HHOAParameters) :
    p.isValid = true ↔
      (0 < p.populationSize ∧ 0 < p.maxIterations ∧
       (0 ≤ p.grazingIntensity ∧ p.grazingIntensity ≤ 1) ∧
       (0 ≤ p.roamingRate ∧ p.roamingRate ≤ 1) ∧
       (0 ≤ p.explorationRate ∧ p.explorationRate ≤ 1) ∧
       (0 ≤ p.followingRate ∧ p.followingRate ≤ 1) ∧
       (0 ≤ p.matingRate ∧ p.matingRate ≤ 1) ∧
       (0 ≤ p.crossoverRate ∧ p.crossoverRate ≤ 1) ∧
       (0 ≤ p.mutationRate ∧ p.mutationRate ≤ 1) ∧
       (0 ≤ p.replacementRate ∧ p.replacementRate ≤ 1) ∧
       0 < p.maxStagnation ∧ 0 ≤ p.eliteCount ∧ 0 < p.terminationPatience) := by
  unfold HHOAParameters.isValid
  simp only [Bool.and_eq_true, decide_eq_true_eq]
  tauto

theorem makespanE_ok {inst : ProblemInstance} {seq : List Int}
    (hv : inst.isValid = true)
    (hrange : ∀ x ∈ seq, 0 ≤ x ∧ x < inst.numJobs) :
    ∃ v, Sol.makespanE ⟨inst, seq⟩ = .ok v := by
  obtain ⟨rows, hrows, -, -⟩ :=
    calcAllRows_ok hv seq 0 [] (fun i _ => by rw [Nat.zero_add]) hrange
      (fun h => absurd h (by omega))
  unfold Sol.makespanE Sol.calcMakespanE
  rw [hrows]
  exact ⟨_, rfl⟩

theorem identity_ok {inst : ProblemInstance} (hv : inst.isValid = true) :
    Sol.identity inst =
      .ok ⟨inst, (List.range inst.numJobs.toNat).map (Nat.cast : Nat → Int)⟩ := by
  unfold Sol.identity
  rw [if_neg]
  simp [hv]

theorem range_map_range {inst : ProblemInstance} (hv : inst.isValid = true) :
    ∀ x ∈ (List.range inst.numJobs.toNat).map (Nat.cast : Nat → Int),
      0 ≤ x ∧ x < inst.numJobs := by
  intro x hx
  obtain ⟨i, hi, rfl⟩ := List.mem_map.mp hx
  rw [List.mem_range] at hi
  have hj := valid_numJobs_pos hv
  exact ⟨Int.natCast_nonneg i, by omega⟩

theorem initRandom_ok {h : Horse} (hv : h.solution.inst.isValid = true)
    (hrange : ∀ x ∈ h.solution.seq, 0 ≤ x ∧ x < h.solution.inst.numJobs) (t : Tape) :
    ∃ h' t', h.initRandom t = .ok (h', t') ∧
      h'.solution.inst = h.solution.inst ∧
      h'.solution.seq.Perm h.solution.seq ∧
      h'.bestSolution = h'.solution := by
  unfold Horse.initRandom
  have hfst : (Sol.initRandom h.solution t).1 =
      { h.solution with seq := (shuffleR h.solution.seq t).1 } := rfl
  simp only [hfst]
  have hperm := shuffleR_perm h.solution.seq t
  have hrange' : ∀ x ∈ (shuffleR h.solution.seq t).1, 0 ≤ x ∧ x < h.solution.inst.numJobs :=
    fun x hx => hrange x (hperm.subset hx)
  obtain ⟨v, hval⟩ := makespanE_ok hv hrange'
  rw [hval]
  exact ⟨_, _, rfl, rfl, hperm, rfl⟩

theorem ofInstance_ok {inst : ProblemInstance} (hv : inst.isValid = true) (t : Tape) :
    ∃ h' t', Horse.ofInstance inst t = .ok (h', t') ∧
      h'.solution.inst = inst ∧
      h'.solution.seq.Perm ((List.range inst.numJobs.toNat).map (Nat.cast : Nat → Int)) ∧
      h'.bestSolution = h'.solution := by
  unfold Horse.ofInstance
  rw [identity_ok hv]
  exact initRandom_ok hv (range_map_range hv) t

theorem mkHHOA_ok {inst : ProblemInstance} {p : HHOAParameters}
    (hv : inst.isValid = true) (hp : p.isValid = true) (t : Tape) :
    ∃ r, mkHHOA inst p t = .ok r := by
  unfold mkHHOA
  rw [if_neg (show ¬ ¬ inst.isValid = true from fun hc => hc hv),
      if_neg (show ¬ ¬ p.isValid = true from fun hc => hc hp)]
  unfold mkHerd
  obtain ⟨h', t', hh, -, -, -⟩ := ofInstance_ok hv t
  have hpop := ((paramsValid_iff p).mp hp).1
  simp only [hh, if_neg (show ¬ p.populationSize ≤ 0 by omega)]
  exact ⟨_, rfl⟩

/-! ## C10: zero grazing intensity passes validation yet makes grazing throw -/

theorem graze_zero_err (h : Horse) (t : Tape) :
    h.graze 0 t = .error "Intensity must be between 0.0 and 1.0" := by
  unfold Horse.graze
  rw [if_pos (Or.inl le_rfl)]

theorem performGrazing_zero_err (hd : Herd) (t : Tape) (hne : hd.horses ≠ []) :
    hd.performGrazing 0 t = .error "Intensity must be between 0.0 and 1.0" := by
  obtain ⟨h, hs, hhd⟩ := List.exists_cons_of_ne_nil hne
  unfold Herd.performGrazing
  rw [hhd]
  have hga : grazeAll 0 (h :: hs) t = .error "Intensity must be between 0.0 and 1.0" := by
    unfold grazeAll
    rw [graze_zero_err]
  rw [hga]

theorem executeIteration_graze_zero (it : Int) (st : AlgState) (t : Tape)
    (hgz : st.params.grazingIntensity = 0) (hne : st.herd.horses ≠ []) :
    executeIteration it st t = .error "Intensity must be between 0.0 and 1.0" := by
  unfold executeIteration
  rw [hgz, performGrazing_zero_err st.herd t hne]



/-! ## C9: the validity predicate versus the spec wording -/



/-- C9 (amended): the predicate holds iff all eight rates are in `[0,1]`,
population size, max iterations, max stagnation and termination patience are
positive, and the elite count is merely non-negative; the elite improvement
frequency is not validated at all.  Construction fails immediately on an
invalid instance or invalid parameters, and succeeds on valid ones. -/
theorem claim_C9_config_validation :
    (∀ p : HHOAParameters, p.isValid = true ↔
      (0 < p.populationSize ∧ 0 < p.maxIterations ∧
       (0 ≤ p.grazingIntensity ∧ p.grazingIntensity ≤ 1) ∧
       (0 ≤ p.roamingRate ∧ p.roamingRate ≤ 1) ∧
       (0 ≤ p.explorationRate ∧ p.explorationRate ≤ 1) ∧
       (0 ≤ p.followingRate ∧ p.followingRate ≤ 1) ∧
       (0 ≤ p.matingRate ∧ p.matingRate ≤ 1) ∧
       (0 ≤ p.crossoverRate ∧ p.crossoverRate ≤ 1) ∧
       (0 ≤ p.mutationRate ∧ p.mutationRate ≤ 1) ∧
       (0 ≤ p.replacementRate ∧ p.replacementRate ≤ 1) ∧
       0 < p.maxStagnation ∧ 0 ≤ p.eliteCount ∧ 0 < p.terminationPatience)) ∧
    (∀ (p : HHOAParameters) (f : Int),
      HHOAParameters.isValid { p with eliteImprovementFreq := f } = p.isValid) ∧
    (∀ (inst : ProblemInstance) (p : HHOAParameters) (t : Tape),
      inst.isValid = false → mkHHOA inst p t = .error "Invalid problem instance") ∧
    (∀ (inst : ProblemInstance) (p : HHOAParameters) (t : Tape),
      inst.isValid = true → p.isValid = false →
      mkHHOA inst p t = .error "Invalid HHOA parameters") ∧
    (∀ (inst : ProblemInstance) (p : HHOAParameters) (t : Tape),
      inst.isValid = true → p.isValid = true → ∃ r, mkHHOA inst p t = .ok r) := by
  refine ⟨paramsValid_iff, fun p f => rfl, ?_, ?_, ?_⟩
  · intro inst p t h
    unfold mkHHOA
    rw [if_pos (show ¬ inst.isValid = true by simp [h])]
  · intro inst p t h1 h2
    unfold mkHHOA
    rw [if_neg (show ¬ ¬ inst.isValid = true from fun hc => hc h1),
      if_pos (show ¬ p.isValid = true by simp [h2])]
  · intro inst p t h1 h2
    exact mkHHOA_ok h1 h2 t



/-! ## C4: the returned best CAN regress below the initial best -/



/-! ## C7 counterexample: non-improving mutations are kept -/



/-! ## C6 counterexample: the move count truncates, it does not round -/



/-! ## C5 counterexample: `Solution::apply2Opt` is not first-improvement -/

/-- C5 counterexample: on `solC5`, `Solution::apply2Opt` keeps TWO improving
swaps (result `[0,2,1]`), so it did not return at the first makespan
reduction; the spec's first-improvement policy stops at `[0,1,2]`. -/
theorem claim_C5_counterexample :
    Sol.apply2Opt solC5 = .ok (true, ⟨instC5, [0, 2, 1]⟩) ∧
    firstImprovement2Opt solC5 = .ok (⟨instC5, [0, 1, 2]⟩, true) ∧
    ¬ (Sol.apply2Opt solC5 =
        (firstImprovement2Opt solC5).map (fun p => (p.2, p.1))) :=
  ⟨by decide, by decide, by decide⟩

/-! ## C6 (amended): roam performs max(1, trunc(rate·n/2)) neighbor moves -/

theorem randIntR_ok {lo hi : Int} (h : lo ≤ hi) (t : Tape) :
    ∃ v, randIntR lo hi t = .ok (v, { t with ints := t.ints.tail }) ∧
      lo ≤ v ∧ v ≤ hi := by
  unfold randIntR
  rw [if_neg (not_lt.mpr h)]
  refine ⟨_, rfl, ?_, ?_⟩
  · have := Int.emod_nonneg (t.ints.headD 0 - lo) (show hi - lo + 1 ≠ 0 by omega)
    omega
  · have := Int.emod_lt_of_pos (t.ints.headD 0 - lo) (show 0 < hi - lo + 1 by omega)
    omega

theorem listSwap_length (l : List Int) (i j : Nat) :
    (listSwap l i j).length = l.length := by
  simp [listSwap]

theorem listInsertAt_length : ∀ (n : Nat) (x : Int) (l : List Int),
    (listInsertAt n x l).length = l.length + 1 := by
  intro n
  induction n with
  | zero => intro x l; rfl
  | succ n ih =>
    intro x l
    cases l with
    | nil => rfl
    | cons a l => simp [listInsertAt, ih]

theorem insMove_length {l : List Int} {i : Nat} (hi : i < l.length) (j : Nat) :
    (insMove l i j).length = l.length := by
  unfold insMove
  rw [listInsertAt_length, List.length_eraseIdx_of_lt hi]
  omega

theorem neighborStep_length {s mid : Sol} (h : isSwapOf s mid ∨ isInsertOf s mid) :
    mid.seq.length = s.seq.length := by
  rcases h with ⟨-, i, j, hi, hj, hseq⟩ | ⟨-, hseq | ⟨i, j, hi, hj, hseq⟩⟩
  · rw [hseq, listSwap_length]
  · rw [hseq]
  · rw [hseq, insMove_length hi]

theorem createSwapNeighbor_ok {s : Sol} (hlen : 0 < s.seq.length) (t : Tape) :
    ∃ s' t', s.createSwapNeighbor t = .ok (s', t') ∧ isSwapOf s s' := by
  unfold Sol.createSwapNeighbor
  have hb : (0 : Int) ≤ (s.seq.length : Int) - 1 := by omega
  obtain ⟨v1, h1, hv1a, hv1b⟩ := randIntR_ok hb t
  obtain ⟨v2, h2, hv2a, hv2b⟩ := randIntR_ok hb { t with ints := t.ints.tail }
  simp only [h1, h2]
  unfold Sol.swapJobs
  rw [if_neg (by push_neg; omega)]
  exact ⟨_, _, rfl, rfl, v1.toNat, v2.toNat, by omega, by omega, rfl⟩

theorem createInsertNeighbor_ok {s : Sol} (hlen : 0 < s.seq.length) (t : Tape) :
    ∃ s' t', s.createInsertNeighbor t = .ok (s', t') ∧ isInsertOf s s' := by
  unfold Sol.createInsertNeighbor
  have hb : (0 : Int) ≤ (s.seq.length : Int) - 1 := by omega
  obtain ⟨v1, h1, hv1a, hv1b⟩ := randIntR_ok hb t
  obtain ⟨v2, h2, hv2a, hv2b⟩ := randIntR_ok hb { t with ints := t.ints.tail }
  simp only [h1, h2]
  by_cases hne : v1 ≠ v2
  · rw [if_pos hne]
    exact ⟨_, _, rfl, rfl, Or.inr ⟨v1.toNat, v2.toNat, by omega, by omega, rfl⟩⟩
  · rw [if_neg hne]
    exact ⟨_, _, rfl, rfl, Or.inl rfl⟩

theorem roamLoop_ok : ∀ (k : Nat) (s : Sol) (t : Tape), 0 < s.seq.length →
    ∃ s' t', roamLoop k s t = .ok (s', t') ∧ NSteps k s s' ∧
      s'.seq.length = s.seq.length := by
  intro k
  induction k with
  | zero => exact fun s t _ => ⟨s, t, rfl, rfl, rfl⟩
  | succ k ih =>
    intro s t hlen
    unfold roamLoop
    have hrb : randBoolR 0.5 t = .ok (decide ((randDoubleR t).1 < 0.5), (randDoubleR t).2) := by
      unfold randBoolR
      rw [if_neg (by norm_num)]
    by_cases hq : (randDoubleR t).1 < (0.5 : ℚ)
    · obtain ⟨mid, t2, hok, hstep⟩ := createSwapNeighbor_ok hlen (randDoubleR t).2
      have hmidlen : 0 < mid.seq.length := by
        rw [neighborStep_length (Or.inl hstep)]; exact hlen
      obtain ⟨s', t', hloop, hns, hlen'⟩ := ih mid t2 hmidlen
      refine ⟨s', t', ?_, ⟨mid, Or.inl hstep, hns⟩, by
        rw [hlen', neighborStep_length (Or.inl hstep)]⟩
      simp only [hrb, hq, decide_True, if_true, hok, hloop]
    · obtain ⟨mid, t2, hok, hstep⟩ := createInsertNeighbor_ok hlen (randDoubleR t).2
      have hmidlen : 0 < mid.seq.length := by
        rw [neighborStep_length (Or.inr hstep)]; exact hlen
      obtain ⟨s', t', hloop, hns, hlen'⟩ := ih mid t2 hmidlen
      refine ⟨s', t', ?_, ⟨mid, Or.inr hstep, hns⟩, by
        rw [hlen', neighborStep_length (Or.inr hstep)]⟩
      simp only [hrb, hq, decide_False, Bool.false_eq_true, if_false, hok, hloop]

/-- C6 (amended): `roam` throws exactly outside `[0,1]`; inside, it performs
exactly `max(1, trunc(explorationRate × n × 0.5))` random swap-or-insert
neighbor moves (the C++ `static_cast<int>` truncates rather than rounds)
starting from the agent's current solution and returns the result without
touching the agent. -/
theorem claim_C6_roam_truncated_moves :
    (∀ (h : Horse) (rate : ℚ) (t : Tape), (rate < 0 ∨ rate > 1) →
      Horse.roam h rate t = .error "Exploration rate must be between 0.0 and 1.0") ∧
    (∀ (h : Horse) (rate : ℚ) (t : Tape), 0 ≤ rate → rate ≤ 1 →
      0 < h.solution.seq.length →
      ∃ s' t', Horse.roam h rate t = .ok (s', t') ∧
        NSteps (max 1 (rate * (h.solution.seq.length : ℚ) * 0.5).floor).toNat
          h.solution s') := by
  constructor
  · intro h rate t hr
    unfold Horse.roam
    rw [if_pos hr]
  · intro h rate t h0 h1 hlen
    unfold Horse.roam
    rw [if_neg (by push_neg; exact ⟨h0, h1⟩)]
    obtain ⟨s', t', hok, hns, -⟩ :=
      roamLoop_ok (max 1 (rate * (h.solution.seq.length : ℚ) * 0.5).floor).toNat
        h.solution t hlen
    exact ⟨s', t', hok, hns⟩

/-- Witness for C6 on the concrete roam counterexample inputs. -/
theorem claim_C6_witness :
    ∃ s' t', Horse.roam horseC6 (9/10) tapeC6 = .ok (s', t') ∧
      NSteps (max 1 ((9/10 : ℚ) * (horseC6.solution.seq.length : ℚ) * 0.5).floor).toNat
        horseC6.solution s' :=
  claim_C6_roam_truncated_moves.2 horseC6 (9/10) tapeC6 (by norm_num) (by norm_num)
    (by decide)

/-! ## C7 (amended): the mutation pass keeps non-improving candidates -/

theorem markLeaderFirst_fields : ∀ (lm : Int) (hs hs' : List Horse),
    markLeaderFirst lm hs = .ok hs' →
    hs'.length = hs.length ∧
    ∀ i, (hs'.getD i dummyHorse).solution = (hs.getD i dummyHorse).solution ∧
      (hs'.getD i dummyHorse).bestSolution = (hs.getD i dummyHorse).bestSolution ∧
      (hs'.getD i dummyHorse).bestFitness = (hs.getD i dummyHorse).bestFitness := by
  intro lm hs
  induction hs with
  | nil =>
    intro hs' h
    unfold markLeaderFirst at h
    simp only [Except.ok.injEq] at h
    subst h
    exact ⟨rfl, fun i => ⟨rfl, rfl, rfl⟩⟩
  | cons h0 hs ih =>
    intro hs' h
    unfold markLeaderFirst at h
    cases hm : h0.bestMakespanE with
    | error e => simp only [hm] at h; exact Except.noConfusion h
    | ok m =>
      simp only [hm] at h
      by_cases heq : m = lm
      · rw [if_pos heq] at h
        simp only [Except.ok.injEq] at h
        subst h
        refine ⟨by simp, fun i => ?_⟩
        cases i with
        | zero => exact ⟨rfl, rfl, rfl⟩
        | succ i => exact ⟨rfl, rfl, rfl⟩
      · rw [if_neg heq] at h
        cases hrec : markLeaderFirst lm hs with
        | error e => simp only [hrec] at h; exact Except.noConfusion h
        | ok hs1 =>
          simp only [hrec, Except.ok.injEq] at h
          subst h
          obtain ⟨hlen, hpt⟩ := ih hs1 hrec
          refine ⟨by simp [hlen], fun i => ?_⟩
          cases i with
          | zero => exact ⟨rfl, rfl, rfl⟩
          | succ i => exact hpt i

theorem updateLeader_fields {hd : Herd} {hd' : Herd} {b : Bool}
    (h : hd.updateLeader = .ok (hd', b)) :
    hd'.horses.length = hd.horses.length ∧
    ∀ i, (hd'.horses.getD i dummyHorse).solution = (hd.horses.getD i dummyHorse).solution ∧
      (hd'.horses.getD i dummyHorse).bestSolution =
        (hd.horses.getD i dummyHorse).bestSolution ∧
      (hd'.horses.getD i dummyHorse).bestFitness =
        (hd.horses.getD i dummyHorse).bestFitness := by
  unfold Herd.updateLeader at h
  cases hh : hd.horses with
  | nil =>
    simp only [hh, Except.ok.injEq, Prod.mk.injEq] at h
    obtain ⟨h1, -⟩ := h
    rw [← h1, hh]
    exact ⟨rfl, fun i => ⟨rfl, rfl, rfl⟩⟩
  | cons x xs =>
    simp only [hh] at h
    cases hif : (if (bestHorse1 x xs).bestFitness > hd.leader.bestFitness then
        ({ bestHorse1 x xs with leaderFlag := true }, true)
      else (hd.leader, false)) with
    | mk l1 ch =>
      simp only [hif] at h
      cases hm : l1.bestMakespanE with
      | error e => simp only [hm] at h; exact Except.noConfusion h
      | ok lm =>
        simp only [hm] at h
        cases hmk : markLeaderFirst lm
            ((x :: xs).map (fun y => { y with leaderFlag := false })) with
        | error e => simp only [hmk] at h; exact Except.noConfusion h
        | ok hs1 =>
          simp only [hmk, Except.ok.injEq, Prod.mk.injEq] at h
          obtain ⟨rfl, -⟩ := h
          obtain ⟨hlen, hpt⟩ := markLeaderFirst_fields _ _ _ hmk
          have hmap : ∀ i : Nat,
              ((((x :: xs).map (fun y => { y with leaderFlag := false })).getD i
                  dummyHorse).solution = ((x :: xs).getD i dummyHorse).solution) ∧
              ((((x :: xs).map (fun y => { y with leaderFlag := false })).getD i
                  dummyHorse).bestSolution = ((x :: xs).getD i dummyHorse).bestSolution) ∧
              ((((x :: xs).map (fun y => { y with leaderFlag := false })).getD i
                  dummyHorse).bestFitness = ((x :: xs).getD i dummyHorse).bestFitness) := by
            intro i
            by_cases hi : i < (x :: xs).length
            · rw [List.getD_eq_getElem _ _ (by simpa using hi),
                List.getD_eq_getElem _ _ hi, List.getElem_map]
              exact ⟨rfl, rfl, rfl⟩
            · rw [List.getD_eq_default _ _ (by simpa using Nat.le_of_not_lt hi),
                List.getD_eq_default _ _ (Nat.le_of_not_lt hi)]
              exact ⟨rfl, rfl, rfl⟩
          refine ⟨by simpa using hlen, fun i => ?_⟩
          obtain ⟨p1, p2, p3⟩ := hpt i
          obtain ⟨q1, q2, q3⟩ := hmap i
          exact ⟨p1.trans q1, p2.trans q2, p3.trans q3⟩

theorem mutateAll_spec : ∀ (hs : List Horse) (rate : ℚ) (t : Tape)
    (hs' : List Horse) (c : Int) (t' : Tape),
    mutateAll rate hs t = .ok (hs', c, t') →
    hs'.length = hs.length ∧
    ∃ ms : List (Int × Int), ms.length = hs.length ∧
      (∀ i, i < hs.length →
        (hs.getD i dummyHorse).solution.makespanE = .ok (ms.getD i (0, 0)).1 ∧
        (hs'.getD i dummyHorse).solution.makespanE = .ok (ms.getD i (0, 0)).2 ∧
        ∃ ti ti', Horse.mutate (hs.getD i dummyHorse) rate ti =
          .ok (hs'.getD i dummyHorse, ti')) ∧
      c = ((ms.filter (fun pr => pr.2 < pr.1)).length : Int) := by
  intro hs
  induction hs with
  | nil =>
    intro rate t hs' c t' h
    unfold mutateAll at h
    simp only [Except.ok.injEq, Prod.mk.injEq] at h
    obtain ⟨rfl, rfl, rfl⟩ := h
    exact ⟨rfl, [], rfl, fun i hi => absurd hi (Nat.not_lt_zero i), by simp⟩
  | cons h0 hs ih =>
    intro rate t hs' c t' hma
    unfold mutateAll at hma
    cases hom : h0.solution.makespanE with
    | error e => simp only [hom] at hma; exact Except.noConfusion hma
    | ok om =>
      simp only [hom] at hma
      cases hmu : h0.mutate rate t with
      | error e => simp only [hmu] at hma; exact Except.noConfusion hma
      | ok pr =>
        obtain ⟨h1, t1⟩ := pr
        simp only [hmu] at hma
        cases hnm : h1.solution.makespanE with
        | error e => simp only [hnm] at hma; exact Except.noConfusion hma
        | ok nm =>
          simp only [hnm] at hma
          cases hrec : mutateAll rate hs t1 with
          | error e => simp only [hrec] at hma; exact Except.noConfusion hma
          | ok tr =>
            obtain ⟨hs1, c0, t2⟩ := tr
            simp only [hrec, Except.ok.injEq, Prod.mk.injEq] at hma
            obtain ⟨rfl, rfl, rfl⟩ := hma
            obtain ⟨hlen, ms, hmslen, hpt, hcnt⟩ := ih rate t1 hs1 c0 t2 hrec
            refine ⟨by simp [hlen], (om, nm) :: ms, by simp [hmslen], ?_, ?_⟩
            · intro i hi
              cases i with
              | zero => exact ⟨hom, hnm, t, t1, hmu⟩
              | succ i => exact hpt i (by simpa using hi)
            · rw [List.filter_cons]
              by_cases hio : nm < om
              · simp [hio, hcnt]
              · simp [hio, hcnt]

theorem performMutation_spec {hd : Herd} {rate : ℚ} {t : Tape} {hd' : Herd}
    {c : Int} {t' : Tape} (hpm : hd.performMutation rate t = .ok (hd', c, t')) :
    ∃ hs1 t1, mutateAll rate hd.horses t = .ok (hs1, c, t1) ∧
      hd'.horses.length = hd.horses.length ∧
      ∀ i, (hd'.horses.getD i dummyHorse).solution = (hs1.getD i dummyHorse).solution := by
  unfold Herd.performMutation at hpm
  cases hma : mutateAll rate hd.horses t with
  | error e => simp only [hma] at hpm; exact Except.noConfusion hpm
  | ok tr =>
    obtain ⟨hs1, c1, t1⟩ := tr
    simp only [hma] at hpm
    by_cases hc : c1 > 0
    · rw [if_pos hc] at hpm
      cases hul : Herd.updateLeader { hd with horses := hs1 } with
      | error e => simp only [hul] at hpm; exact Except.noConfusion hpm
      | ok pr2 =>
        obtain ⟨hd2, b⟩ := pr2
        simp only [hul, Except.ok.injEq, Prod.mk.injEq] at hpm
        obtain ⟨rfl, rfl, rfl⟩ := hpm
        obtain ⟨hl, hpt⟩ := updateLeader_fields hul
        obtain ⟨hlen1, -⟩ := mutateAll_spec hd.horses rate t hs1 c1 t1 hma
        refine ⟨hs1, t1, rfl, ?_, fun i => (hpt i).1⟩
        rw [hl]
        exact hlen1
    · rw [if_neg hc] at hpm
      simp only [Except.ok.injEq, Prod.mk.injEq] at hpm
      obtain ⟨rfl, rfl, rfl⟩ := hpm
      obtain ⟨hlen1, -⟩ := mutateAll_spec hd.horses rate t hs1 c1 t1 hma
      exact ⟨hs1, t1, rfl, hlen1, fun i => rfl⟩

/-- C7 (amended): `performMutation` applies `mutate` to EVERY agent and keeps
the mutated candidate unconditionally — the count it returns is the number of
agents whose current makespan strictly improved, but a non-improving mutation
still replaces the agent's current solution (only the personal best is
protected).  The herd after the pass carries exactly the mutated solutions. -/
theorem claim_C7_mutation_semantics :
    (∀ (hs : List Horse) (rate : ℚ) (t : Tape) (hs' : List Horse) (c : Int) (t' : Tape),
      mutateAll rate hs t = .ok (hs', c, t') →
      hs'.length = hs.length ∧
      ∃ ms : List (Int × Int), ms.length = hs.length ∧
        (∀ i, i < hs.length →
          (hs.getD i dummyHorse).solution.makespanE = .ok (ms.getD i (0, 0)).1 ∧
          (hs'.getD i dummyHorse).solution.makespanE = .ok (ms.getD i (0, 0)).2 ∧
          ∃ ti ti', Horse.mutate (hs.getD i dummyHorse) rate ti =
            .ok (hs'.getD i dummyHorse, ti')) ∧
        c = ((ms.filter (fun pr => pr.2 < pr.1)).length : Int)) ∧
    (∀ (hd : Herd) (rate : ℚ) (t : Tape) (hd' : Herd) (c : Int) (t' : Tape),
      hd.performMutation rate t = .ok (hd', c, t') →
      ∃ hs1 t1, mutateAll rate hd.horses t = .ok (hs1, c, t1) ∧
        hd'.horses.length = hd.horses.length ∧
        ∀ i, (hd'.horses.getD i dummyHorse).solution = (hs1.getD i dummyHorse).solution) :=
  ⟨mutateAll_spec, fun _ _ _ _ _ _ h => performMutation_spec h⟩

/-! ## C2: helper lemmas for the crossover validity proofs -/

theorem getD_set_self {α : Type} {l : List α} {i : Nat} (hi : i < l.length) (a d : α) :
    (l.set i a).getD i d = a := by
  rw [List.getD_eq_getElem _ _ (by simpa using hi), List.getElem_set, if_pos rfl]

theorem getD_set_ne {α : Type} {l : List α} {i j : Nat} (h : i ≠ j) (a d : α) :
    (l.set i a).getD j d = l.getD j d := by
  by_cases hj : j < l.length
  · rw [List.getD_eq_getElem _ _ (by simpa using hj), List.getD_eq_getElem _ _ hj,
      List.getElem_set, if_neg h]
  · rw [List.getD_eq_default _ _ (by simpa using Nat.le_of_not_lt hj),
      List.getD_eq_default _ _ (Nat.le_of_not_lt hj)]

theorem mem_set_self {α : Type} {l : List α} {i : Nat} (hi : i < l.length) (a : α) :
    a ∈ l.set i a := by
  rw [List.mem_iff_getElem]
  exact ⟨i, by simpa using hi, by rw [List.getElem_set, if_pos rfl]⟩

theorem mem_set_iff_ne {α : Type} {l : List α} {i : Nat} {a x : α} (hi : i < l.length)
    (hxa : x ≠ a) (hxi : x ≠ l.get ⟨i, hi⟩) : x ∈ l.set i a ↔ x ∈ l := by
  rw [List.mem_iff_getElem, List.mem_iff_getElem]
  constructor
  · rintro ⟨n, hn, he⟩
    rw [List.length_set] at hn
    rw [List.getElem_set] at he
    by_cases hni : i = n
    · rw [if_pos hni] at he
      exact absurd he.symm hxa
    · rw [if_neg hni] at he
      exact ⟨n, hn, he⟩
  · rintro ⟨n, hn, he⟩
    refine ⟨n, by simpa using hn, ?_⟩
    rw [List.getElem_set]
    by_cases hni : i = n
    · subst hni
      exact absurd he.symm hxi
    · rw [if_neg hni]
      exact he

theorem findIdx_some_spec {p : Int → Bool} {l : List Int} {j : Nat}
    (h : List.findIdx? p l = some j) : ∃ hj : j < l.length, p (l.get ⟨j, hj⟩) = true := by
  obtain ⟨hl, hf⟩ := List.findIdx?_eq_some_iff_findIdx_eq.mp h
  exact ⟨hl, ((List.findIdx_eq hl).mp hf).1⟩

theorem getD_replicate_self {α : Type} (a : α) (n k : Nat) :
    (List.replicate n a).getD k a = a := by
  by_cases h : k < n
  · rw [List.getD_eq_getElem _ _ (by simpa using h)]
    exact List.getElem_replicate a _
  · rw [List.getD_eq_default _ _ (by simpa using Nat.le_of_not_lt h)]

theorem getD_replicate_lt {α : Type} (a d : α) {n k : Nat} (h : k < n) :
    (List.replicate n a).getD k d = a := by
  rw [List.getD_eq_getElem _ _ (by simpa using h)]
  exact List.getElem_replicate a _

theorem firstEmptyFromAux_spec (off : List Int) :
    ∀ (fuel k : Nat), off.length - k ≤ fuel →
      off.length ≤ firstEmptyFromAux off fuel k ∨
        off.getD (firstEmptyFromAux off fuel k) 0 = -1 := by
  intro fuel
  induction fuel with
  | zero =>
    intro k hk
    unfold firstEmptyFromAux
    exact Or.inl (by omega)
  | succ fuel ih =>
    intro k hk
    unfold firstEmptyFromAux
    by_cases hc : k < off.length ∧ off.getD k 0 ≠ -1
    · rw [if_pos hc]
      exact ih (k + 1) (by omega)
    · rw [if_neg hc]
      rcases Decidable.not_and_iff_or_not.mp hc with h | h
      · exact Or.inl (by omega)
      · exact Or.inr (Decidable.not_not.mp h)

theorem firstEmptyFrom_spec (off : List Int) (k : Nat) :
    off.length ≤ firstEmptyFrom off k ∨ off.getD (firstEmptyFrom off k) 0 = -1 :=
  firstEmptyFromAux_spec off (off.length - k) k (le_refl _)

theorem listSwap_perm (l : List Int) (i j : Nat) (hi : i < l.length) (hj : j < l.length) :
    (listSwap l i j).Perm l := by
  rw [List.perm_iff_count]
  intro a
  unfold listSwap
  rw [List.getD_eq_getElem _ _ hj, List.getD_eq_getElem _ _ hi]
  have hj2 : j < (l.set i l[j]).length := by simpa using hj
  rw [List.count_set _ _ _ _ hj2, List.count_set _ _ _ _ hi]
  have hmid : (l.set i l[j])[j] = l[j] := by
    rw [List.getElem_set]
    split <;> rfl
  rw [hmid]
  have hile : (if (l[i] == a) = true then 1 else 0) ≤ List.count a l := by
    split
    · next hia =>
      have : a ∈ l := by
        rw [← eq_of_beq hia]
        exact List.getElem_mem hi
      have := List.count_pos_iff.mpr this
      omega
    · omega
  have hjle : (if (l[j] == a) = true then 1 else 0) ≤ List.count a l := by
    split
    · next hja =>
      have : a ∈ l := by
        rw [← eq_of_beq hja]
        exact List.getElem_mem hj
      have := List.count_pos_iff.mpr this
      omega
    · omega
  omega

theorem full_coverage {size : Nat} {off : List Int} (hlen : off.length = size)
    (hbd : ∀ e ∈ off, e ≠ -1 → 0 ≤ e ∧ e < (size : Int))
    (hdis : ∀ k1 k2 : Fin off.length, k1 ≠ k2 → off.get k1 ≠ -1 → off.get k1 ≠ off.get k2)
    (hno : ∀ e ∈ off, e ≠ -1) :
    ∀ j : Nat, j < size → (j : Int) ∈ off := by
  have hnd : off.Nodup := by
    rw [List.nodup_iff_injective_get]
    intro k1 k2 he
    by_contra hne
    exact hdis k1 k2 hne (hno _ (List.get_mem _ _ _)) he
  have hpos : ∀ k : Fin off.length, 0 ≤ off.get k ∧ off.get k < (size : Int) :=
    fun k => hbd _ (List.get_mem _ _ _) (hno _ (List.get_mem _ _ _))
  have hinj : Function.Injective (fun k : Fin size =>
      (⟨(off.get ⟨k.val, by omega⟩).toNat, by
        have := hpos ⟨k.val, by omega⟩
        omega⟩ : Fin size)) := by
    intro a b hab
    have h1 := hpos ⟨a.val, by omega⟩
    have h2 := hpos ⟨b.val, by omega⟩
    have hv : (off.get ⟨a.val, by omega⟩).toNat = (off.get ⟨b.val, by omega⟩).toNat :=
      congrArg Fin.val hab
    have hget : off.get ⟨a.val, by omega⟩ = off.get ⟨b.val, by omega⟩ := by omega
    have hfin := List.nodup_iff_injective_get.mp hnd hget
    rw [Fin.mk.injEq] at hfin
    exact Fin.ext hfin
  have hsurj := Finite.injective_iff_surjective.mp hinj
  intro j hj
  obtain ⟨k, hk⟩ := hsurj ⟨j, hj⟩
  have h1 := hpos ⟨k.val, by omega⟩
  have hv : (off.get ⟨k.val, by omega⟩).toNat = j := congrArg Fin.val hk
  have hgj : off.get ⟨k.val, by omega⟩ = (j : Int) := by omega
  rw [← hgj]
  exact List.get_mem _ _ _

theorem ocInv_insert {size : Nat} {off : List Int} {used : List Bool}
    (hinv : ocInv size off used) {pos : Nat} {job : Int}
    (hpos : pos < size) (hoff_pos : off.getD pos 0 = -1)
    (hjb : 0 ≤ job ∧ job < (size : Int))
    (hfresh : used.getD job.toNat false = false) :
    ocInv size (off.set pos job) (used.set job.toNat true) := by
  obtain ⟨hol, hul, hbd, hdis, hmem⟩ := hinv
  have hposl : pos < off.length := by omega
  have hjnotin : job ∉ off := by
    intro hin
    have hm := (hmem job.toNat (by omega)).mpr (by rwa [Int.toNat_of_nonneg hjb.1])
    rw [hm] at hfresh
    exact Bool.noConfusion hfresh
  refine ⟨by simpa using hol, by simpa using hul, ?_, ?_, ?_⟩
  · intro e he hne
    rcases List.mem_or_eq_of_mem_set he with h | h
    · exact hbd e h hne
    · rw [h]
      exact hjb
  · intro k1 k2 hne h1
    have hk1 : k1.val < off.length := by have := k1.isLt; simpa using this
    have hk2 : k2.val < off.length := by have := k2.isLt; simpa using this
    have e1 : (off.set pos job).get k1 =
        if pos = k1.val then job else off.get ⟨k1.val, hk1⟩ := List.getElem_set _
    have e2 : (off.set pos job).get k2 =
        if pos = k2.val then job else off.get ⟨k2.val, hk2⟩ := List.getElem_set _
    rw [e1, e2]
    rw [e1] at h1
    by_cases hp1 : pos = k1.val
    · rw [if_pos hp1]
      by_cases hp2 : pos = k2.val
      · exact absurd (Fin.ext (show k1.val = k2.val by omega)) hne
      · rw [if_neg hp2]
        intro hc
        exact hjnotin (hc ▸ List.get_mem _ _ _)
    · rw [if_neg hp1]
      rw [if_neg hp1] at h1
      by_cases hp2 : pos = k2.val
      · rw [if_pos hp2]
        intro hc
        exact hjnotin (hc ▸ List.get_mem _ _ _)
      · rw [if_neg hp2]
        exact hdis ⟨k1.val, hk1⟩ ⟨k2.val, hk2⟩
          (fun hc => hne (Fin.ext (by rw [Fin.mk.injEq] at hc; exact hc))) h1
  · intro j hj
    by_cases hjj : j = job.toNat
    · subst hjj
      rw [getD_set_self (by omega) true false]
      have hjval : ((job.toNat : Nat) : Int) = job := Int.toNat_of_nonneg hjb.1
      refine iff_of_true rfl ?_
      rw [hjval]
      exact mem_set_self hposl job
    · rw [getD_set_ne (fun hc => hjj hc.symm) true false]
      have hja : (j : Int) ≠ job := by
        intro hc
        apply hjj
        omega
      have hji : (j : Int) ≠ off.get ⟨pos, hposl⟩ := by
        have hgm1 : off.get ⟨pos, hposl⟩ = -1 := by
          rw [← hoff_pos]
          exact (List.getD_eq_getElem _ _ hposl).symm
        rw [hgm1]
        intro hc
        omega
      rw [mem_set_iff_ne hposl hja hji]
      exact hmem j hj

theorem ocCopy_spec (p1 : Sol) (size : Nat) (hp1len : p1.seq.length = size)
    (hnd1 : p1.seq.Nodup) (hbd1 : ∀ x ∈ p1.seq, 0 ≤ x ∧ x < (size : Int)) :
    ∀ (is : List Nat) (off : List Int) (used : List Bool),
      ocInv size off used → is.Nodup →
      (∀ i ∈ is, i < size ∧ off.getD i 0 = -1 ∧
        used.getD (p1.seq.getD i 0).toNat false = false) →
      ∃ off1 used1, ocCopy p1 size is off used = .ok (off1, used1) ∧
        ocInv size off1 used1 := by
  intro is
  induction is with
  | nil =>
    intro off used hinv _ _
    exact ⟨off, used, rfl, hinv⟩
  | cons i is ih =>
    intro off used hinv hnd hpre
    obtain ⟨hi, hoffi, husedi⟩ := hpre i (List.mem_cons_self _ _)
    unfold ocCopy
    have hjob : p1.getJobAt (i : Int) = .ok (p1.seq.getD i 0) := by
      unfold Sol.getJobAt
      rw [if_neg (by omega : ¬((i : Int) < 0 ∨ (i : Int) ≥ (p1.seq.length : Int)))]
      rw [Int.toNat_natCast]
    simp only [hjob]
    have hjmem : p1.seq.getD i 0 ∈ p1.seq := by
      rw [List.getD_eq_getElem _ _ (by omega)]
      exact List.getElem_mem _
    have hjbd := hbd1 _ hjmem
    rw [if_pos hjbd]
    obtain ⟨hni, hndis⟩ := List.nodup_cons.mp hnd
    apply ih
    · exact ocInv_insert hinv hi hoffi hjbd husedi
    · exact hndis
    · intro i2 hi2m
      obtain ⟨hi2lt, hoff2, hused2⟩ := hpre i2 (List.mem_cons_of_mem _ hi2m)
      have hne : i ≠ i2 := fun hc => hni (hc ▸ hi2m)
      refine ⟨hi2lt, ?_, ?_⟩
      · rw [getD_set_ne hne]
        exact hoff2
      · have hjne : p1.seq.getD i2 0 ≠ p1.seq.getD i 0 := by
          rw [List.getD_eq_getElem _ _ (show i2 < p1.seq.length by omega),
            List.getD_eq_getElem _ _ (show i < p1.seq.length by omega)]
          intro hc
          exact hne (hnd1.getElem_inj_iff.mp hc).symm
        have hbj2 := hbd1 _ (show p1.seq.getD i2 0 ∈ p1.seq by
          rw [List.getD_eq_getElem _ _ (by omega : i2 < p1.seq.length)]
          exact List.getElem_mem _)
        have htne : (p1.seq.getD i 0).toNat ≠ (p1.seq.getD i2 0).toNat := by omega
        rw [getD_set_ne htne]
        exact hused2

theorem ocFill_spec (p2 : Sol) (size : Nat) (hp2len : p2.seq.length = size) :
    ∀ (is : List Nat) (off : List Int) (used : List Bool) (cpos : Nat),
      ocInv size off used → (∀ i ∈ is, i < size) →
      (size ≤ cpos ∨ off.getD cpos 0 = -1) →
      ∃ off1 used1, ocFill p2 size is off used cpos = .ok (off1, used1) ∧
        ocInv size off1 used1 := by
  intro is
  induction is with
  | nil =>
    intro off used cpos hinv _ _
    exact ⟨off, used, rfl, hinv⟩
  | cons i is ih =>
    intro off used cpos hinv hIs hcp
    unfold ocFill
    by_cases hstop : cpos ≥ size
    · rw [if_pos hstop]
      exact ⟨off, used, rfl, hinv⟩
    · rw [if_neg hstop]
      have hcm : off.getD cpos 0 = -1 := by
        rcases hcp with h | h
        · omega
        · exact h
      have hi := hIs i (List.mem_cons_self _ _)
      have hjob : p2.getJobAt (i : Int) = .ok (p2.seq.getD i 0) := by
        unfold Sol.getJobAt
        rw [if_neg (by omega : ¬((i : Int) < 0 ∨ (i : Int) ≥ (p2.seq.length : Int)))]
        rw [Int.toNat_natCast]
      simp only [hjob]
      by_cases hguard : 0 ≤ p2.seq.getD i 0 ∧ p2.seq.getD i 0 < (size : Int) ∧
          ¬ (used.getD (p2.seq.getD i 0).toNat false = true)
      · rw [if_pos hguard]
        have ho1 := hinv.1
        apply ih
        · exact ocInv_insert hinv (by omega) hcm ⟨hguard.1, hguard.2.1⟩
            (by simpa using hguard.2.2)
        · exact fun i2 h => hIs i2 (List.mem_cons_of_mem _ h)
        · rcases firstEmptyFrom_spec (off.set cpos (p2.seq.getD i 0)) (cpos + 1) with h | h
          · rw [List.length_set] at h
            exact Or.inl (by omega)
          · exact Or.inr h
      · rw [if_neg hguard]
        exact ih off used cpos hinv (fun i2 h => hIs i2 (List.mem_cons_of_mem _ h)) hcp

theorem ocGap_spec (size : Nat) :
    ∀ (is : List Nat) (off : List Int) (used : List Bool),
      ocInv size off used → (∀ i ∈ is, i < size) →
      ocInv size (ocGap is off used).1 (ocGap is off used).2 ∧
      (∀ j : Nat, used.getD j false = true → (ocGap is off used).2.getD j false = true) ∧
      (∀ i ∈ is, (ocGap is off used).2.getD i false = true) := by
  intro is
  induction is with
  | nil =>
    intro off used hinv _
    exact ⟨hinv, fun j h => h, by simp⟩
  | cons i is ih =>
    intro off used hinv hIs
    unfold ocGap
    by_cases hu : used.getD i false = true
    · rw [if_neg (show ¬ ¬ (used.getD i false = true) from fun hc => hc hu)]
      obtain ⟨hinv1, hmono, hall⟩ := ih off used hinv
        (fun i2 h => hIs i2 (List.mem_cons_of_mem _ h))
      refine ⟨hinv1, hmono, ?_⟩
      intro i2 hi2
      rcases List.mem_cons.mp hi2 with rfl | h
      · exact hmono i2 hu
      · exact hall i2 h
    · rw [if_pos hu]
      cases hfind : off.findIdx? (· = -1) with
      | none =>
        exfalso
        have hnone := List.findIdx?_eq_none_iff.mp hfind
        have hno : ∀ e ∈ off, e ≠ -1 := by
          intro e he
          have := hnone e he
          simpa using this
        obtain ⟨ho1, ho2, ho3, ho4, ho5⟩ := hinv
        have hcov := full_coverage ho1 ho3 ho4 hno i (hIs i (List.mem_cons_self _ _))
        exact hu ((ho5 i (hIs i (List.mem_cons_self _ _))).mpr hcov)
      | some j =>
        simp only [hfind]
        obtain ⟨hjl, hjv⟩ := findIdx_some_spec hfind
        have hoffj : off.getD j 0 = -1 := by
          rw [List.getD_eq_getElem _ _ hjl]
          simpa using hjv
        have ho1 := hinv.1
        have hu2 := hinv.2.1
        have hins := ocInv_insert hinv (show j < size by omega) hoffj
          ⟨Int.natCast_nonneg i, by exact_mod_cast hIs i (List.mem_cons_self _ _)⟩
          (by simpa using hu)
        obtain ⟨hinv1, hmono, hall⟩ := ih (off.set j (i : Int)) (used.set i true) hins
          (fun i2 h => hIs i2 (List.mem_cons_of_mem _ h))
        refine ⟨hinv1, ?_, ?_⟩
        · intro j2 hj2
          apply hmono
          by_cases hji : i = j2
          · subst hji
            by_cases hil : i < used.length
            · rw [getD_set_self hil]
            · rw [List.getD_eq_default _ _ (Nat.le_of_not_lt hil)] at hj2
              exact Bool.noConfusion hj2
          · rw [getD_set_ne hji]
            exact hj2
        · intro i2 hi2
          rcases List.mem_cons.mp hi2 with rfl | h
          · apply hmono
            rw [getD_set_self (show i2 < used.length by
              have := hIs i2 (List.mem_cons_self _ _)
              omega)]
          · exact hall i2 h

theorem rangeFromTo_nodup (a b : Nat) : (rangeFromTo a b).Nodup := by
  unfold rangeFromTo
  exact List.Nodup.map (fun x y h => by omega) (List.nodup_range _)

theorem rangeFromTo_mem {a b x : Nat} (h : x ∈ rangeFromTo a b) : a ≤ x ∧ x < b := by
  unfold rangeFromTo at h
  obtain ⟨m, hm, rfl⟩ := List.mem_map.mp h
  rw [List.mem_range] at hm
  omega

theorem range_sol_valid {inst : ProblemInstance} (hv : inst.isValid = true) {n : Nat}
    (hn : (n : Int) = inst.numJobs) :
    (Sol.mk inst ((List.range n).map (Nat.cast : Nat → Int))).isValid = true := by
  rw [isValid_iff]
  refine ⟨by simpa using hn, ?_, ?_⟩
  · exact List.Nodup.map (fun a b h => by exact_mod_cast h) (List.nodup_range _)
  · intro x hx
    obtain ⟨m, hm, rfl⟩ := List.mem_map.mp hx
    rw [List.mem_range] at hm
    constructor
    · exact Int.natCast_nonneg m
    · show (m : Int) < inst.numJobs
      omega

theorem orderCrossover_valid (p1 p2 : Sol) (t : Tape)
    (hi2 : p2.inst = p1.inst) (hiv : p1.inst.isValid = true)
    (hv1 : p1.isValid = true) (hv2 : p2.isValid = true) :
    ∃ child t', orderCrossover p1 p2 t = .ok (child, t') ∧
      child.inst = p1.inst ∧ child.isValid = true := by
  obtain ⟨hl1, hnd1, hbd1⟩ := (isValid_iff p1).mp hv1
  obtain ⟨hl2, hnd2, hbd2⟩ := (isValid_iff p2).mp hv2
  have hnj := valid_numJobs_pos hiv
  have hsz : 1 ≤ p1.seq.length := by omega
  have hp2len : p2.seq.length = p1.seq.length := by
    rw [hi2] at hl2
    omega
  unfold orderCrossover
  obtain ⟨q1, he1, hq1a, hq1b⟩ :=
    randIntR_ok (show (0 : Int) ≤ (p1.seq.length : Int) - 1 by omega) t
  simp only [he1]
  obtain ⟨q2, he2, hq2a, hq2b⟩ :=
    randIntR_ok (show (0 : Int) ≤ (p1.seq.length : Int) - 1 by omega)
      { t with ints := t.ints.tail }
  simp only [he2]
  have hpA : 0 ≤ (if q1 > q2 then q2 else q1) := by split_ifs <;> omega
  have hpB : (if q1 > q2 then q1 else q2) ≤ (p1.seq.length : Int) - 1 := by
    split_ifs <;> omega
  have hinv0 : ocInv p1.seq.length (List.replicate p1.seq.length (-1))
      (List.replicate p1.seq.length false) := by
    refine ⟨by simp, by simp, ?_, ?_, ?_⟩
    · intro e he hne
      exact absurd (List.eq_of_mem_replicate he) hne
    · intro k1 k2 hne h1
      exact absurd (List.getElem_replicate _ _) h1
    · intro j hj
      refine iff_of_false ?_ ?_
      · rw [getD_replicate_lt false false (by simpa using hj)]
        simp
      · intro hmem
        have := List.eq_of_mem_replicate hmem
        omega
  obtain ⟨off1, used1, hcopy, hinv1⟩ := ocCopy_spec p1 p1.seq.length rfl hnd1
    (fun x hx => by have h := hbd1 x hx; omega)
    (rangeFromTo (if q1 > q2 then q2 else q1).toNat ((if q1 > q2 then q1 else q2).toNat + 1))
    (List.replicate p1.seq.length (-1)) (List.replicate p1.seq.length false)
    hinv0 (rangeFromTo_nodup _ _)
    (by
      intro i hi
      obtain ⟨hia, hib⟩ := rangeFromTo_mem hi
      have hilt : i < p1.seq.length := by omega
      refine ⟨hilt, getD_replicate_lt _ _ hilt, getD_replicate_self _ _ _⟩)
  simp only [hcopy]
  obtain ⟨off2, used2, hfill, hinv2⟩ := ocFill_spec p2 p1.seq.length hp2len
    (List.range p1.seq.length) off1 used1 (firstEmptyFrom off1 0) hinv1
    (fun i h => List.mem_range.mp h)
    (by
      rcases firstEmptyFrom_spec off1 0 with h | h
      · rw [hinv1.1] at h
        exact Or.inl h
      · exact Or.inr h)
  simp only [hfill]
  obtain ⟨hinv3, hmono3, hall3⟩ := ocGap_spec p1.seq.length (List.range p1.seq.length)
    off2 used2 hinv2 (fun i h => List.mem_range.mp h)
  have hcov : ∀ j : Nat, j < p1.seq.length →
      (j : Int) ∈ (ocGap (List.range p1.seq.length) off2 used2).1 := by
    intro j hj
    exact (hinv3.2.2.2.2 j hj).mp (hall3 j (List.mem_range.mpr hj))
  have hLnd : ((List.range p1.seq.length).map (Nat.cast : Nat → Int)).Nodup :=
    List.Nodup.map (fun a b h => by exact_mod_cast h) (List.nodup_range _)
  have hLsub : ((List.range p1.seq.length).map (Nat.cast : Nat → Int)) ⊆
      (ocGap (List.range p1.seq.length) off2 used2).1 := by
    intro x hx
    obtain ⟨m, hm, rfl⟩ := List.mem_map.mp hx
    exact hcov m (List.mem_range.mp hm)
  have hperm : ((ocGap (List.range p1.seq.length) off2 used2).1).Perm
      ((List.range p1.seq.length).map (Nat.cast : Nat → Int)) :=
    ((hLnd.subperm hLsub).perm_of_length_le (by simp [hinv3.1])).symm
  have hofs : Sol.ofSeq (ocGap (List.range p1.seq.length) off2 used2).1 p1.inst =
      .ok ⟨p1.inst, (ocGap (List.range p1.seq.length) off2 used2).1⟩ := by
    unfold Sol.ofSeq
    rw [if_neg (by simp [hiv]),
      if_neg (show ¬ ((((ocGap (List.range p1.seq.length) off2 used2).1).length : Int) ≠
          p1.inst.numJobs) from by
        rw [hinv3.1]
        omega)]
  simp only [hofs]
  refine ⟨_, _, rfl, rfl, ?_⟩
  exact isValid_of_perm (range_sol_valid hiv hl1) hperm rfl

theorem mcLoop_spec (p2 : Sol) (size : Nat) (hp2len : p2.seq.length = size)
    (hsz : 1 ≤ size) :
    ∀ (k : Nat) (off : List Int) (t : Tape), off.length = size →
      ∃ off1 t1, mcLoop p2 size k off t = .ok (off1, t1) ∧ off1.Perm off := by
  intro k
  induction k with
  | zero =>
    intro off t hol
    exact ⟨off, t, rfl, List.Perm.refl off⟩
  | succ k ih =>
    intro off t hol
    unfold mcLoop
    obtain ⟨v1, he1, hv1a, hv1b⟩ :=
      randIntR_ok (show (0 : Int) ≤ (size : Int) - 1 by omega) t
    simp only [he1]
    obtain ⟨v2, he2, hv2a, hv2b⟩ :=
      randIntR_ok (show (0 : Int) ≤ (size : Int) - 1 by omega)
        { t with ints := t.ints.tail }
    simp only [he2]
    have hjob : p2.getJobAt v1 = .ok (p2.seq.getD v1.toNat 0) := by
      unfold Sol.getJobAt
      rw [if_neg (by omega)]
    simp only [hjob]
    cases hfind : off.findIdx? (· = p2.seq.getD v1.toNat 0) with
    | some j =>
      simp only [hfind]
      obtain ⟨hjl, -⟩ := findIdx_some_spec hfind
      obtain ⟨off1, t1, hrec, hperm⟩ := ih (listSwap off j v2.toNat) _
        (by rw [listSwap_length]; exact hol)
      exact ⟨off1, t1, hrec, hperm.trans (listSwap_perm off j v2.toNat hjl (by omega))⟩
    | none =>
      simp only [hfind]
      exact ih off _ hol

theorem mappedCrossover_ok (p1 p2 : Sol) (t : Tape)
    (hi2 : p2.inst = p1.inst) (hiv : p1.inst.isValid = true)
    (hv1 : p1.isValid = true) (hv2 : p2.isValid = true) (h2 : 2 ≤ p1.seq.length) :
    ∃ child t', mappedCrossover p1 p2 t = .ok (child, t') ∧
      child.inst = p1.inst ∧ child.isValid = true := by
  obtain ⟨hl1, hnd1, hbd1⟩ := (isValid_iff p1).mp hv1
  obtain ⟨hl2, -, -⟩ := (isValid_iff p2).mp hv2
  have hp2len : p2.seq.length = p1.seq.length := by
    rw [hi2] at hl2
    omega
  unfold mappedCrossover
  have hmin : (1 : Int) ≤ ((min 3 (p1.seq.length / 2) : Nat) : Int) := by
    have h1 : 1 ≤ min 3 (p1.seq.length / 2) := by omega
    exact_mod_cast h1
  obtain ⟨ns, hens, hnsa, hnsb⟩ := randIntR_ok hmin t
  simp only [hens]
  obtain ⟨off1, t1, hml, hperm⟩ := mcLoop_spec p2 p1.seq.length hp2len (by omega)
    ns.toNat p1.seq { t with ints := t.ints.tail } rfl
  simp only [hml]
  have hofs : Sol.ofSeq off1 p1.inst = .ok ⟨p1.inst, off1⟩ := by
    unfold Sol.ofSeq
    rw [if_neg (by simp [hiv]),
      if_neg (show ¬ ((off1.length : Int) ≠ p1.inst.numJobs) from by
        rw [hperm.length_eq]
        omega)]
  simp only [hofs]
  exact ⟨⟨p1.inst, off1⟩, t1, rfl, rfl, isValid_of_perm hv1 hperm rfl⟩

theorem mappedCrossover_oneJob (p1 p2 : Sol) (t : Tape) (h : p1.seq.length = 1) :
    mappedCrossover p1 p2 t = .error "min cannot be greater than max" := by
  unfold mappedCrossover
  rw [h]
  rfl

/-- C2 (amended): order crossover ALWAYS yields a valid permutation child for
valid permutation parents over the same (valid) instance; the simplified
partially-mapped crossover does so whenever the instance has at least two
jobs, but on a single-job instance it THROWS (`randInt(1, size/2)` with
`size/2 = 0`) instead of returning a valid permutation. -/
theorem claim_C2_crossover_validity :
    (∀ (p1 p2 : Sol) (t : Tape), p2.inst = p1.inst → p1.inst.isValid = true →
        p1.isValid = true → p2.isValid = true →
        ∃ child t', orderCrossover p1 p2 t = .ok (child, t') ∧
          child.inst = p1.inst ∧ child.isValid = true) ∧
    (∀ (p1 p2 : Sol) (t : Tape), p2.inst = p1.inst → p1.inst.isValid = true →
        p1.isValid = true → p2.isValid = true → 2 ≤ p1.seq.length →
        ∃ child t', mappedCrossover p1 p2 t = .ok (child, t') ∧
          child.inst = p1.inst ∧ child.isValid = true) ∧
    (∀ (p1 p2 : Sol) (t : Tape), p1.seq.length = 1 →
        mappedCrossover p1 p2 t = .error "min cannot be greater than max") :=
  ⟨fun p1 p2 t h1 h2 h3 h4 => orderCrossover_valid p1 p2 t h1 h2 h3 h4,
   fun p1 p2 t h1 h2 h3 h4 h5 => mappedCrossover_ok p1 p2 t h1 h2 h3 h4 h5,
   fun p1 p2 t h => mappedCrossover_oneJob p1 p2 t h⟩

/-! ## C5 (amended): the Horse-level searches are first-improvement -/

theorem listSwap_getElem? (l : List Int) (i j n : Nat) (hi : i < l.length)
    (hj : j < l.length) :
    (listSwap l i j)[n]? = if n = j then l[i]? else if n = i then l[j]? else l[n]? := by
  unfold listSwap
  rw [List.getElem?_set, List.getElem?_set]
  simp only [List.length_set]
  by_cases hjn : j = n
  · rw [if_pos hjn, if_pos hj, if_pos (show n = j from hjn.symm)]
    rw [List.getD_eq_getElem?_getD, List.getElem?_eq_getElem hi]
    rfl
  · rw [if_neg hjn, if_neg (show ¬ n = j from fun h => hjn h.symm)]
    by_cases hin : i = n
    · rw [if_pos hin, if_pos hi, if_pos (show n = i from hin.symm)]
      rw [List.getD_eq_getElem?_getD, List.getElem?_eq_getElem hj]
      rfl
    · rw [if_neg hin, if_neg (show ¬ n = i from fun h => hin h.symm)]

theorem listSwap_listSwap (l : List Int) (i j : Nat) (hi : i < l.length)
    (hj : j < l.length) :
    listSwap (listSwap l i j) i j = l := by
  have hlen : (listSwap l i j).length = l.length := by unfold listSwap; simp
  apply List.ext_getElem?
  intro n
  rw [listSwap_getElem? _ i j n (by rw [hlen]; exact hi) (by rw [hlen]; exact hj)]
  by_cases hnj : n = j
  · rw [if_pos hnj, listSwap_getElem? l i j i hi hj]
    by_cases hij : i = j
    · rw [if_pos hij, hij, ← hnj]
    · rw [if_neg hij, if_pos rfl, ← hnj]
  · rw [if_neg hnj]
    by_cases hni : n = i
    · rw [if_pos hni, listSwap_getElem? l i j j hi hj, if_pos rfl, ← hni]
    · rw [if_neg hni, listSwap_getElem? l i j n hi hj, if_neg hnj, if_neg hni]

theorem swapJobs_swapJobs {s s1 : Sol} {p1 p2 : Int}
    (h : s.swapJobs p1 p2 = .ok s1) : s1.swapJobs p1 p2 = .ok s := by
  unfold Sol.swapJobs at h ⊢
  by_cases hb : p1 < 0 ∨ p1 ≥ (s.seq.length : Int) ∨ p2 < 0 ∨ p2 ≥ (s.seq.length : Int)
  · rw [if_pos hb] at h
    exact Except.noConfusion h
  · rw [if_neg hb] at h
    simp only [Except.ok.injEq] at h
    subst h
    have hb2 := hb
    push_neg at hb2
    obtain ⟨hb1, hb3, hb4, hb5⟩ := hb2
    have ha : p1.toNat < s.seq.length := by omega
    have hc : p2.toNat < s.seq.length := by omega
    show (if p1 < 0 ∨ p1 ≥ ((listSwap s.seq p1.toNat p2.toNat).length : Int) ∨ p2 < 0 ∨
        p2 ≥ ((listSwap s.seq p1.toNat p2.toNat).length : Int) then
        (.error "Invalid positions" : Except Err Sol)
      else .ok { s with seq := listSwap (listSwap s.seq p1.toNat p2.toNat) p1.toNat p2.toNat })
      = .ok s
    rw [show ((listSwap s.seq p1.toNat p2.toNat).length : Int) = (s.seq.length : Int) from by
      unfold listSwap; simp]
    rw [if_neg hb, listSwap_listSwap s.seq p1.toNat p2.toNat ha hc]

theorem h2optInner_eq (i : Nat) : ∀ (js : List Nat) (s : Sol) (current : Int),
    h2optInner i js s current = fi2optGo s current (js.map (fun j => (i, j))) := by
  intro js
  induction js with
  | nil => intro s current; rfl
  | cons j js ih =>
    intro s current
    unfold h2optInner
    simp only [List.map_cons]
    unfold fi2optGo
    cases hsw : s.swapJobs (i : Int) (j : Int) with
    | error e => simp only [hsw]
    | ok s1 =>
      simp only [hsw]
      cases hm : s1.makespanE with
      | error e => simp only [hm]
      | ok nm =>
        simp only [hm]
        by_cases himp : nm < current
        · rw [if_pos himp, if_pos himp]
        · rw [if_neg himp, if_neg himp]
          simp only [swapJobs_swapJobs hsw]
          rw [ih s current]

theorem fi2optGo_false {s : Sol} {m : Int} : ∀ {ps : List (Nat × Nat)} {s' : Sol},
    fi2optGo s m ps = .ok (s', false) → s' = s := by
  intro ps
  induction ps with
  | nil =>
    intro s' h
    unfold fi2optGo at h
    simp only [Except.ok.injEq, Prod.mk.injEq] at h
    exact h.1.symm
  | cons p rest ih =>
    intro s' h
    obtain ⟨i, j⟩ := p
    unfold fi2optGo at h
    cases hsw : s.swapJobs (i : Int) (j : Int) with
    | error e => simp only [hsw] at h; exact Except.noConfusion h
    | ok s1 =>
      simp only [hsw] at h
      cases hm : s1.makespanE with
      | error e => simp only [hm] at h; exact Except.noConfusion h
      | ok nm =>
        simp only [hm] at h
        by_cases himp : nm < m
        · rw [if_pos himp] at h
          simp only [Except.ok.injEq, Prod.mk.injEq] at h
          exact Bool.noConfusion h.2
        · rw [if_neg himp] at h
          exact ih h

theorem fi2optGo_cons (s : Sol) (m : Int) (i j : Nat) (rest : List (Nat × Nat)) :
    fi2optGo s m ((i, j) :: rest) =
      match s.swapJobs (i : Int) (j : Int) with
      | .error e => .error e
      | .ok s1 =>
        match s1.makespanE with
        | .error e => .error e
        | .ok nm => if nm < m then .ok (s1, true) else fi2optGo s m rest := rfl

theorem fi2optGo_append (s : Sol) (m : Int) : ∀ (xs ys : List (Nat × Nat)),
    fi2optGo s m (xs ++ ys) =
      match fi2optGo s m xs with
      | .error e => .error e
      | .ok (s1, true) => .ok (s1, true)
      | .ok (_, false) => fi2optGo s m ys := by
  intro xs ys
  induction xs with
  | nil => rfl
  | cons p xs ih =>
    obtain ⟨i, j⟩ := p
    simp only [List.cons_append]
    rw [fi2optGo_cons, fi2optGo_cons]
    cases hsw : s.swapJobs (i : Int) (j : Int) with
    | error e => simp only [hsw]
    | ok s1 =>
      simp only [hsw]
      cases hm : s1.makespanE with
      | error e => simp only [hm]
      | ok nm =>
        simp only [hm]
        by_cases himp : nm < m
        · rw [if_pos himp, if_pos himp]
        · rw [if_neg himp, if_neg himp]
          rw [ih]

theorem h2optOuter_eq (size : Nat) : ∀ (is' : List Nat) (s : Sol) (current : Int),
    h2optOuter size is' s current =
      fi2optGo s current
        (is'.flatMap (fun i => (rangeFromTo (i + 1) size).map (fun j => (i, j)))) := by
  intro is'
  induction is' with
  | nil => intro s current; rfl
  | cons i is' ih =>
    intro s current
    unfold h2optOuter
    simp only [List.flatMap_cons]
    rw [fi2optGo_append, h2optInner_eq]
    cases hgo : fi2optGo s current ((rangeFromTo (i + 1) size).map (fun j => (i, j))) with
    | error e => simp only [hgo]
    | ok pr =>
      obtain ⟨s1, b⟩ := pr
      cases b with
      | true => simp only [hgo]
      | false =>
        simp only [hgo]
        have hs1 : s1 = s := fi2optGo_false hgo
        rw [hs1]
        exact ih s current

theorem apply2OptSearchH_eq (s : Sol) : apply2OptSearchH s = firstImprovement2Opt s := by
  unfold apply2OptSearchH firstImprovement2Opt
  cases hm : s.makespanE with
  | error e => simp only [hm]
  | ok m0 =>
    simp only [hm]
    rw [h2optOuter_eq]
    rfl

theorem hInsInner_eq (base : Sol) (current : Int) (i : Nat) : ∀ (js : List Nat),
    hInsInner base current i js =
      fiInsGo base current ((js.filter (fun j => j ≠ i)).map (fun j => (i, j))) := by
  intro js
  induction js with
  | nil => rfl
  | cons j js ih =>
    unfold hInsInner
    simp only [List.filter_cons]
    by_cases hij : i = j
    · rw [if_pos hij, if_neg (by simp [hij])]
      exact ih
    · have hji : j ≠ i := fun h => hij h.symm
      rw [if_neg hij, if_pos (by simpa using hji)]
      simp only [List.map_cons]
      unfold fiInsGo
      cases hof : Sol.ofSeq (insMove base.seq i j) base.inst with
      | error e => simp only [hof]
      | ok temp =>
        simp only [hof]
        cases hm : temp.makespanE with
        | error e => simp only [hm]
        | ok nm =>
          simp only [hm]
          by_cases himp : nm < current
          · rw [if_pos himp, if_pos himp]
          · rw [if_neg himp, if_neg himp]
            rw [ih]

theorem fiInsGo_cons (base : Sol) (m : Int) (i j : Nat) (rest : List (Nat × Nat)) :
    fiInsGo base m ((i, j) :: rest) =
      match Sol.ofSeq (insMove base.seq i j) base.inst with
      | .error e => .error e
      | .ok temp =>
        match temp.makespanE with
        | .error e => .error e
        | .ok nm => if nm < m then .ok (some temp) else fiInsGo base m rest := rfl

theorem fiInsGo_append (base : Sol) (m : Int) : ∀ (xs ys : List (Nat × Nat)),
    fiInsGo base m (xs ++ ys) =
      match fiInsGo base m xs with
      | .error e => .error e
      | .ok (some temp) => .ok (some temp)
      | .ok none => fiInsGo base m ys := by
  intro xs ys
  induction xs with
  | nil => rfl
  | cons p xs ih =>
    obtain ⟨i, j⟩ := p
    simp only [List.cons_append]
    rw [fiInsGo_cons, fiInsGo_cons]
    cases hof : Sol.ofSeq (insMove base.seq i j) base.inst with
    | error e => simp only [hof]
    | ok temp =>
      simp only [hof]
      cases hm : temp.makespanE with
      | error e => simp only [hm]
      | ok nm =>
        simp only [hm]
        by_cases himp : nm < m
        · rw [if_pos himp, if_pos himp]
        · rw [if_neg himp, if_neg himp]
          rw [ih]

theorem hInsOuter_eq (base : Sol) (current : Int) : ∀ (is' : List Nat),
    hInsOuter base current is' =
      fiInsGo base current
        (is'.flatMap (fun i =>
          ((List.range base.seq.length).filter (fun j => j ≠ i)).map (fun j => (i, j)))) := by
  intro is'
  induction is' with
  | nil => rfl
  | cons i is' ih =>
    unfold hInsOuter
    simp only [List.flatMap_cons]
    rw [fiInsGo_append, hInsInner_eq]
    cases hgo : fiInsGo base current
        (((List.range base.seq.length).filter (fun j => j ≠ i)).map (fun j => (i, j))) with
    | error e => simp only [hgo]
    | ok o =>
      cases o with
      | some temp => simp only [hgo]
      | none =>
        simp only [hgo]
        exact ih

theorem applyInsertionSearchH_eq (s : Sol) :
    applyInsertionSearchH s = firstImprovementIns s := by
  unfold applyInsertionSearchH firstImprovementIns
  cases hm : s.makespanE with
  | error e => simp only [hm]
  | ok m0 =>
    simp only [hm]
    rw [hInsOuter_eq]
    rfl

/-- C5 (amended): the AGENT-level local searches (`Horse::apply2OptSearch`,
`Horse::applyInsertionSearch`) are genuinely first-improvement — they coincide
exactly with the specification-modelled scans that walk the position pairs in
order and return at the first makespan reduction.  The SOLUTION-level methods
(`Solution::apply2Opt`, `Solution::applyInsertionSearch`) are NOT
first-improvement: they scan every pair, keeping each improvement as they go
(see the separate counterexample). -/
theorem claim_C5_horse_searches_first_improvement :
    (∀ s : Sol, apply2OptSearchH s = firstImprovement2Opt s) ∧
    (∀ s : Sol, applyInsertionSearchH s = firstImprovementIns s) :=
  ⟨apply2OptSearchH_eq, applyInsertionSearchH_eq⟩

/-! ## C3: the stored leader never regresses -/

theorem bestHorse1_mem : ∀ (hs : List Horse) (h0 : Horse),
    bestHorse1 h0 hs = h0 ∨ bestHorse1 h0 hs ∈ hs := by
  intro hs
  induction hs with
  | nil => intro h0; exact Or.inl rfl
  | cons h hs ih =>
    intro h0
    unfold bestHorse1
    by_cases hc : h.bestFitness > h0.bestFitness
    · rw [if_pos hc]
      rcases ih h with h1 | h2
      · refine Or.inr ?_
        rw [h1]
        exact List.mem_cons_self h hs
      · exact Or.inr (List.mem_cons_of_mem h h2)
    · rw [if_neg hc]
      rcases ih h0 with h1 | h2
      · exact Or.inl h1
      · exact Or.inr (List.mem_cons_of_mem h h2)

theorem bestHorse1_ge : ∀ (hs : List Horse) (h0 y : Horse),
    (y = h0 ∨ y ∈ hs) → y.bestFitness ≤ (bestHorse1 h0 hs).bestFitness := by
  intro hs
  induction hs with
  | nil =>
    intro h0 y hy
    rcases hy with rfl | hmem
    · exact le_refl _
    · exact absurd hmem (List.not_mem_nil y)
  | cons h hs ih =>
    intro h0 y hy
    unfold bestHorse1
    have k1 : h0.bestFitness ≤ (if h.bestFitness > h0.bestFitness then h else h0).bestFitness := by
      by_cases hc : h.bestFitness > h0.bestFitness
      · rw [if_pos hc]; exact le_of_lt hc
      · rw [if_neg hc]
    have k2 : h.bestFitness ≤ (if h.bestFitness > h0.bestFitness then h else h0).bestFitness := by
      by_cases hc : h.bestFitness > h0.bestFitness
      · rw [if_pos hc]
      · rw [if_neg hc]; exact le_of_not_lt hc
    rcases hy with rfl | hy
    · exact le_trans k1 (ih _ _ (Or.inl rfl))
    · rcases List.mem_cons.mp hy with rfl | hmem
      · exact le_trans k2 (ih _ _ (Or.inl rfl))
      · exact ih _ y (Or.inr hmem)

theorem updateLeader_char {hd hd' : Herd} {b : Bool} (h : hd.updateLeader = .ok (hd', b)) :
    hd.leader.bestFitness ≤ hd'.leader.bestFitness ∧
    (b = true ↔ ∃ x ∈ hd.horses, hd.leader.bestFitness < x.bestFitness) ∧
    (b = false → hd'.leader = hd.leader) ∧
    (b = true → ∃ x ∈ hd.horses, hd'.leader = { x with leaderFlag := true } ∧
        hd.leader.bestFitness < x.bestFitness) := by
  unfold Herd.updateLeader at h
  cases hh : hd.horses with
  | nil =>
    simp only [hh, Except.ok.injEq, Prod.mk.injEq] at h
    obtain ⟨h1, h2⟩ := h
    refine ⟨le_of_eq (by rw [h1]), ?_, ?_, ?_⟩
    · rw [← h2]
      simp
    · intro _
      rw [← h1]
    · intro hb
      rw [← h2] at hb
      exact Bool.noConfusion hb
  | cons x xs =>
    simp only [hh] at h
    by_cases hgt : (bestHorse1 x xs).bestFitness > hd.leader.bestFitness
    · simp only [if_pos hgt] at h
      cases hm : ({ bestHorse1 x xs with leaderFlag := true } : Horse).bestMakespanE with
      | error e => simp only [hm] at h; exact Except.noConfusion h
      | ok lm =>
        simp only [hm] at h
        cases hmk : markLeaderFirst lm ((x :: xs).map (fun y => { y with leaderFlag := false })) with
        | error e => simp only [hmk] at h; exact Except.noConfusion h
        | ok hs1 =>
          simp only [hmk, Except.ok.injEq, Prod.mk.injEq] at h
          obtain ⟨h1, h2⟩ := h
          have hles : hd'.leader = { bestHorse1 x xs with leaderFlag := true } := by
            rw [← h1]
          have hmemc : bestHorse1 x xs ∈ x :: xs := by
            rcases bestHorse1_mem xs x with h3 | h3
            · rw [h3]; exact List.mem_cons_self x xs
            · exact List.mem_cons_of_mem x h3
          refine ⟨?_, ?_, ?_, ?_⟩
          · rw [hles]
            exact le_of_lt hgt
          · rw [← h2]
            exact iff_of_true rfl ⟨bestHorse1 x xs, hmemc, hgt⟩
          · intro hb
            rw [← h2] at hb
            exact Bool.noConfusion hb
          · intro _
            exact ⟨bestHorse1 x xs, hmemc, hles, hgt⟩
    · simp only [if_neg hgt] at h
      cases hm : hd.leader.bestMakespanE with
      | error e => simp only [hm] at h; exact Except.noConfusion h
      | ok lm =>
        simp only [hm] at h
        cases hmk : markLeaderFirst lm ((x :: xs).map (fun y => { y with leaderFlag := false })) with
        | error e => simp only [hmk] at h; exact Except.noConfusion h
        | ok hs1 =>
          simp only [hmk, Except.ok.injEq, Prod.mk.injEq] at h
          obtain ⟨h1, h2⟩ := h
          have hles : hd'.leader = hd.leader := by rw [← h1]
          have hnone : ¬ ∃ y ∈ x :: xs, hd.leader.bestFitness < y.bestFitness := by
            rintro ⟨y, hy, hlt⟩
            have hle : y.bestFitness ≤ (bestHorse1 x xs).bestFitness := by
              rcases List.mem_cons.mp hy with rfl | hmem
              · exact bestHorse1_ge xs y y (Or.inl rfl)
              · exact bestHorse1_ge xs x y (Or.inr hmem)
            exact hgt (lt_of_lt_of_le hlt hle)
          refine ⟨le_of_eq (congrArg Horse.bestFitness hles.symm), ?_, fun _ => hles, ?_⟩
          · rw [← h2]
            exact iff_of_false (by simp) hnone
          · intro hb
            rw [← h2] at hb
            exact Bool.noConfusion hb

theorem updateLeader_guard_mono {hd : Herd} {horses1 : List Horse} {c : Int} {t1 : Tape}
    {hd' : Herd} {c' : Int} {t' : Tape}
    (h : ((if c > 0 then
            match Herd.updateLeader { hd with horses := horses1 } with
            | .error e => .error e
            | .ok (hd2, _) => .ok (hd2, c, t1)
          else .ok ({ hd with horses := horses1 }, c, t1)) :
            Except Err (Herd × Int × Tape)) = .ok (hd', c', t')) :
    hd.leader.bestFitness ≤ hd'.leader.bestFitness := by
  by_cases hc : c > 0
  · rw [if_pos hc] at h
    cases hul : Herd.updateLeader { hd with horses := horses1 } with
    | error e => simp only [hul] at h; exact Except.noConfusion h
    | ok pr =>
      obtain ⟨hd2, b2⟩ := pr
      simp only [hul, Except.ok.injEq, Prod.mk.injEq] at h
      obtain ⟨rfl, -, -⟩ := h
      exact (updateLeader_char hul).1
  · rw [if_neg hc] at h
    simp only [Except.ok.injEq, Prod.mk.injEq] at h
    obtain ⟨rfl, -, -⟩ := h
    exact le_refl _

theorem performGrazing_leader_mono {hd : Herd} {q : ℚ} {t : Tape} {hd' : Herd}
    {c : Int} {t' : Tape} (h : hd.performGrazing q t = .ok (hd', c, t')) :
    hd.leader.bestFitness ≤ hd'.leader.bestFitness := by
  unfold Herd.performGrazing at h
  split at h
  · exact Except.noConfusion h
  · exact updateLeader_guard_mono h

theorem performRoaming_leader_mono {hd : Herd} {q1 q2 : ℚ} {t : Tape} {hd' : Herd}
    {c : Int} {t' : Tape} (h : hd.performRoaming q1 q2 t = .ok (hd', c, t')) :
    hd.leader.bestFitness ≤ hd'.leader.bestFitness := by
  unfold Herd.performRoaming at h
  split at h
  · exact Except.noConfusion h
  · exact updateLeader_guard_mono h

theorem performFollowing_leader_mono {hd : Herd} {q : ℚ} {t : Tape} {hd' : Herd}
    {c : Int} {t' : Tape} (h : hd.performFollowing q t = .ok (hd', c, t')) :
    hd.leader.bestFitness ≤ hd'.leader.bestFitness := by
  unfold Herd.performFollowing at h
  split at h
  · exact Except.noConfusion h
  · exact updateLeader_guard_mono h

theorem performMating_leader_mono {hd : Herd} {q1 q2 : ℚ} {t : Tape} {hd' : Herd}
    {c : Int} {t' : Tape} (h : hd.performMating q1 q2 t = .ok (hd', c, t')) :
    hd.leader.bestFitness ≤ hd'.leader.bestFitness := by
  unfold Herd.performMating at h
  dsimp only at h
  split at h
  · exact Except.noConfusion h
  · exact updateLeader_guard_mono h

theorem performMutation_leader_mono {hd : Herd} {q : ℚ} {t : Tape} {hd' : Herd}
    {c : Int} {t' : Tape} (h : hd.performMutation q t = .ok (hd', c, t')) :
    hd.leader.bestFitness ≤ hd'.leader.bestFitness := by
  unfold Herd.performMutation at h
  split at h
  · exact Except.noConfusion h
  · exact updateLeader_guard_mono h

theorem rejuvenateStagnant_leader_mono {hd : Herd} {ms : Int} {t : Tape} {hd' : Herd}
    {c : Int} {t' : Tape} (h : hd.rejuvenateStagnant ms t = .ok (hd', c, t')) :
    hd.leader.bestFitness ≤ hd'.leader.bestFitness := by
  unfold Herd.rejuvenateStagnant at h
  split at h
  · exact Except.noConfusion h
  · exact updateLeader_guard_mono h

theorem improveElite_leader_mono {hd : Herd} {n : Int} {t : Tape} {hd' : Herd}
    {c : Int} {t' : Tape} (h : hd.improveElite n t = .ok (hd', c, t')) :
    hd.leader.bestFitness ≤ hd'.leader.bestFitness := by
  unfold Herd.improveElite at h
  dsimp only at h
  split at h
  · exact Except.noConfusion h
  · exact updateLeader_guard_mono h

theorem replaceWeakHorses_leader_mono {hd : Herd} {rate : ℚ} {t : Tape} {hd' : Herd}
    {k : Int} {t' : Tape} (h : hd.replaceWeakHorses rate t = .ok (hd', k, t')) :
    hd.leader.bestFitness ≤ hd'.leader.bestFitness := by
  unfold Herd.replaceWeakHorses at h
  dsimp only at h
  split at h
  · simp only [Except.ok.injEq, Prod.mk.injEq] at h
    obtain ⟨rfl, -, -⟩ := h
    exact le_refl _
  · split at h
    · exact Except.noConfusion h
    · split at h
      · exact Except.noConfusion h
      next hd2 b2 heq2 =>
        simp only [Except.ok.injEq, Prod.mk.injEq] at h
        obtain ⟨rfl, -, -⟩ := h
        exact (updateLeader_char heq2).1

theorem calcDiversity_leader (hd : Herd) : hd.calcDiversity.leader = hd.leader := by
  unfold Herd.calcDiversity
  split <;> rfl

theorem diversityPreservation_leader_mono {st : AlgState} {d : ℚ} {t : Tape}
    {st' : AlgState} {t' : Tape} (h : applyDiversityPreservation st d t = .ok (st', t')) :
    st.herd.leader.bestFitness ≤ st'.herd.leader.bestFitness := by
  unfold applyDiversityPreservation at h
  split at h
  · simp only [Except.ok.injEq, Prod.mk.injEq] at h
    obtain ⟨rfl, -⟩ := h
    exact le_refl _
  · dsimp only at h
    split at h
    · exact Except.noConfusion h
    next hd1 k t1 heq =>
      simp only [Except.ok.injEq, Prod.mk.injEq] at h
      obtain ⟨rfl, -⟩ := h
      exact replaceWeakHorses_leader_mono heq

theorem executeIteration_leader_mono {it : Int} {st : AlgState} {t : Tape} {b : Bool}
    {st' : AlgState} {t' : Tape} (h : executeIteration it st t = .ok (b, st', t')) :
    st.herd.leader.bestFitness ≤ st'.herd.leader.bestFitness := by
  unfold executeIteration at h
  split at h
  · exact Except.noConfusion h
  next hd1 g t1 hg =>
    split at h
    · exact Except.noConfusion h
    next hd2 r t2 hr =>
      split at h
      · exact Except.noConfusion h
      next hd3 f t3 hf =>
        split at h
        · exact Except.noConfusion h
        next hd4 mt t4 hmt =>
          split at h
          · exact Except.noConfusion h
          next hd5 mu t5 hmu =>
            dsimp only at h
            split at h
            · exact Except.noConfusion h
            next hd7 repl t6 hrepl =>
              split at h
              · exact Except.noConfusion h
              next hd8 rej t7 hrej =>
                split at h
                · exact Except.noConfusion h
                next hd9 el t8 hel =>
                  split at h
                  · exact Except.noConfusion h
                  next hd10 lc hul =>
                    split at h
                    · exact Except.noConfusion h
                    next st2 t9 hdp =>
                      simp only [Except.ok.injEq, Prod.mk.injEq] at h
                      obtain ⟨-, rfl, -⟩ := h
                      have m6 : hd5.ageHorses.leader.bestFitness ≤ hd7.leader.bestFitness := by
                        split at hrepl
                        · exact replaceWeakHorses_leader_mono hrepl
                        · simp only [Except.ok.injEq, Prod.mk.injEq] at hrepl
                          obtain ⟨rfl, -, -⟩ := hrepl
                          exact le_refl _
                      have m7 : hd7.leader.bestFitness ≤ hd8.leader.bestFitness := by
                        split at hrej
                        · exact rejuvenateStagnant_leader_mono hrej
                        · simp only [Except.ok.injEq, Prod.mk.injEq] at hrej
                          obtain ⟨rfl, -, -⟩ := hrej
                          exact le_refl _
                      have m8 : hd8.leader.bestFitness ≤ hd9.leader.bestFitness := by
                        split at hel
                        · exact improveElite_leader_mono hel
                        · simp only [Except.ok.injEq, Prod.mk.injEq] at hel
                          obtain ⟨rfl, -, -⟩ := hel
                          exact le_refl _
                      have m11 : hd10.calcDiversity.leader.bestFitness ≤
                          st2.herd.leader.bestFitness := by
                        split at hdp
                        · exact diversityPreservation_leader_mono hdp
                        · simp only [Except.ok.injEq, Prod.mk.injEq] at hdp
                          obtain ⟨rfl, -⟩ := hdp
                          exact le_refl _
                      calc st.herd.leader.bestFitness
                          ≤ hd1.leader.bestFitness := performGrazing_leader_mono hg
                        _ ≤ hd2.leader.bestFitness := performRoaming_leader_mono hr
                        _ ≤ hd3.leader.bestFitness := performFollowing_leader_mono hf
                        _ ≤ hd4.leader.bestFitness := performMating_leader_mono hmt
                        _ ≤ hd5.leader.bestFitness := performMutation_leader_mono hmu
                        _ ≤ hd7.leader.bestFitness := m6
                        _ ≤ hd8.leader.bestFitness := m7
                        _ ≤ hd9.leader.bestFitness := m8
                        _ ≤ hd10.leader.bestFitness := (updateLeader_char hul).1
                        _ = hd10.calcDiversity.leader.bestFitness :=
                            (congrArg Horse.bestFitness (calcDiversity_leader hd10)).symm
                        _ ≤ st2.herd.leader.bestFitness := m11

theorem recordStats_herd {st st' : AlgState} (h : recordStats st = .ok st') :
    st'.herd = st.herd := by
  unfold recordStats at h
  split at h
  · exact Except.noConfusion h
  · split at h
    · exact Except.noConfusion h
    · simp only [Except.ok.injEq] at h
      rw [← h]

theorem nextST3_herd (cm bm : Int) (st2 : AlgState) :
    (nextST3 cm bm st2).herd = st2.herd := by
  unfold nextST3
  split <;> rfl

theorem nextST_herd (it cm bm sc : Int) (st2 : AlgState) :
    (nextST it cm bm sc st2).herd = st2.herd := by
  unfold nextST
  split
  · exact nextST3_herd cm bm st2
  · exact nextST3_herd cm bm st2

theorem optLoop_leader_mono (cb : Option (Int → Sol → Bool)) :
    ∀ (fuel : Nat) (iteration : Int) (st : AlgState) (bm sc : Int) (t : Tape)
      (st' : AlgState) (t' : Tape),
      optLoop cb fuel iteration st bm sc t = .ok (st', t') →
      st.herd.leader.bestFitness ≤ st'.herd.leader.bestFitness := by
  intro fuel
  induction fuel with
  | zero =>
    intro it st bm sc t st' t' h
    unfold optLoop at h
    simp only [Except.ok.injEq, Prod.mk.injEq] at h
    obtain ⟨rfl, -⟩ := h
    exact le_refl _
  | succ fuel ih =>
    intro it st bm sc t st' t' h
    unfold optLoop at h
    split at h
    · exact Except.noConfusion h
    next b1 st1 t1 hexec =>
      split at h
      · exact Except.noConfusion h
      next st2 hrec =>
        split at h
        · exact Except.noConfusion h
        next best hbest =>
          split at h
          · exact Except.noConfusion h
          next cm hcm =>
            have m1 : st.herd.leader.bestFitness ≤ st1.herd.leader.bestFitness :=
              executeIteration_leader_mono hexec
            have m2 : st2.herd = st1.herd := recordStats_herd hrec
            have m3 : st.herd.leader.bestFitness ≤ st2.herd.leader.bestFitness :=
              le_trans m1
                (le_of_eq (congrArg Horse.bestFitness (congrArg Herd.leader m2)).symm)
            split at h
            · simp only [Except.ok.injEq, Prod.mk.injEq] at h
              obtain ⟨rfl, -⟩ := h
              rw [nextST_herd]
              exact m3
            · refine le_trans ?_ (ih _ _ _ _ _ _ _ h)
              show st.herd.leader.bestFitness ≤
                (advanceST it (nextST it cm bm sc st2)).herd.leader.bestFitness
              have m4 : (advanceST it (nextST it cm bm sc st2)).herd.leader =
                  st2.herd.leader := by
                show (nextST it cm bm sc st2).herd.leader = st2.herd.leader
                exact congrArg Herd.leader (nextST_herd it cm bm sc st2)
              rw [m4]
              exact m3

theorem herdInit_leader_mono {hd : Herd} {r : ℚ} {t : Tape} {hd' : Herd} {t' : Tape}
    (h : hd.herdInit r t = .ok (hd', t')) :
    hd.leader.bestFitness ≤ hd'.leader.bestFitness := by
  unfold Herd.herdInit at h
  split at h
  · exact Except.noConfusion h
  · dsimp only at h
    split at h
    · exact Except.noConfusion h
    next randoms t1 hr =>
      split at h
      · exact Except.noConfusion h
      next greedys t2 hgr =>
        split at h
        · exact Except.noConfusion h
        next hd2 b2 hul =>
          split at h
          · exact Except.noConfusion h
          next bh hbh =>
            split at h
            · exact Except.noConfusion h
            next m hm =>
              simp only [Except.ok.injEq, Prod.mk.injEq] at h
              obtain ⟨rfl, -⟩ := h
              calc hd.leader.bestFitness
                  ≤ hd2.leader.bestFitness := (updateLeader_char hul).1
                _ = hd2.calcDiversity.leader.bestFitness :=
                    (congrArg Horse.bestFitness (calcDiversity_leader hd2)).symm

theorem optimizeE_leader_mono {iters : Int} {cb : Option (Int → Sol → Bool)}
    {st : AlgState} {t : Tape} {s : Sol} {st' : AlgState} {t' : Tape}
    (h : optimizeE iters cb st t = .ok (s, st', t')) :
    st.herd.leader.bestFitness ≤ st'.herd.leader.bestFitness := by
  unfold optimizeE at h
  split at h
  · exact Except.noConfusion h
  next hd1 t1 hinit =>
    dsimp only at h
    split at h
    · exact Except.noConfusion h
    next b0 hb0 =>
      split at h
      · exact Except.noConfusion h
      next m0 hm0 =>
        split at h
        · exact Except.noConfusion h
        next st2 t2 hloop =>
          split at h
          · exact Except.noConfusion h
          next bf hbf =>
            simp only [Except.ok.injEq, Prod.mk.injEq] at h
            obtain ⟨-, rfl, -⟩ := h
            exact le_trans (herdInit_leader_mono hinit)
              (optLoop_leader_mono cb iters.toNat 0 { st with herd := hd1, stats := {} }
                m0 0 t1 st2 t2 hloop)

/-- C3: the stored leader is replaced exactly when some agent's best fitness
strictly exceeds the stored leader's best fitness (`updateLeader` then installs
a flagged standalone copy of that agent and reports the change); consequently
the leader's best fitness never decreases across any phase, any iteration, or
an entire `optimize` run. -/
theorem claim_C3_leader_monotonic :
    (∀ (hd hd' : Herd) (b : Bool), hd.updateLeader = .ok (hd', b) →
        hd.leader.bestFitness ≤ hd'.leader.bestFitness ∧
        (b = true ↔ ∃ x ∈ hd.horses, hd.leader.bestFitness < x.bestFitness) ∧
        (b = false → hd'.leader = hd.leader) ∧
        (b = true → ∃ x ∈ hd.horses, hd'.leader = { x with leaderFlag := true } ∧
            hd.leader.bestFitness < x.bestFitness)) ∧
    (∀ (cb : Option (Int → Sol → Bool)) (fuel : Nat) (iteration : Int) (st : AlgState)
        (bm sc : Int) (t : Tape) (st' : AlgState) (t' : Tape),
        optLoop cb fuel iteration st bm sc t = .ok (st', t') →
        st.herd.leader.bestFitness ≤ st'.herd.leader.bestFitness) ∧
    (∀ (iterations : Int) (cb : Option (Int → Sol → Bool)) (st : AlgState) (t : Tape)
        (s : Sol) (st' : AlgState) (t' : Tape),
        optimizeE iterations cb st t = .ok (s, st', t') →
        st.herd.leader.bestFitness ≤ st'.herd.leader.bestFitness) :=
  ⟨fun _ _ _ h => updateLeader_char h,
   fun cb fuel it st bm sc t st' t' h => optLoop_leader_mono cb fuel it st bm sc t st' t' h,
   fun _ _ _ _ _ _ _ h => optimizeE_leader_mono h⟩

/-! ## C8: a supplied termination callback fully overrides the built-in checks -/

theorem optLoop_some_eq (f : Int → Sol → Bool) :
    ∀ (fuel : Nat) (it : Int) (st : AlgState) (bm sc : Int) (t : Tape),
      optLoop (some f) fuel it st bm sc t = optLoopCb f fuel it st bm sc t := by
  intro fuel
  induction fuel with
  | zero => intro it st bm sc t; rfl
  | succ fuel ih =>
    intro it st bm sc t
    unfold optLoop optLoopCb
    cases hexec : executeIteration it st t with
    | error e => simp only [hexec]
    | ok tr =>
      obtain ⟨b1, st1, t1⟩ := tr
      simp only [hexec]
      cases hrec : recordStats st1 with
      | error e => simp only [hrec]
      | ok st2 =>
        simp only [hrec]
        cases hbest : st2.getBestSolutionA with
        | error e => simp only [hbest]
        | ok best =>
          simp only [hbest]
          cases hcm : best.makespanE with
          | error e => simp only [hcm]
          | ok cm =>
            simp only [hcm]
            rw [show shouldTerminate (some f) (nextST it cm bm sc st2).params it
                (nextSC cm bm sc) best = f it best from rfl]
            by_cases hf : f it best = true
            · rw [if_pos hf, if_pos hf]
            · rw [if_neg hf, if_neg hf]
              exact ih (it + 1) (advanceST it (nextST it cm bm sc st2))
                (nextBM cm bm) (nextSC cm bm sc) t1

theorem optLoop_alwaysFalse_full (f : Int → Sol → Bool) (hf : ∀ i b, f i b = false) :
    ∀ (fuel : Nat) (it : Int) (st : AlgState) (bm sc : Int) (t : Tape)
      (st' : AlgState) (t' : Tape),
      optLoop (some f) (fuel + 1) it st bm sc t = .ok (st', t') →
      st'.stats.iterationsExecuted = it + ((fuel + 1 : Nat) : Int) := by
  intro fuel
  induction fuel with
  | zero =>
    intro it st bm sc t st' t' h
    unfold optLoop at h
    cases hexec : executeIteration it st t with
    | error e => simp only [hexec] at h; exact Except.noConfusion h
    | ok tr =>
      obtain ⟨b1, st1, t1⟩ := tr
      simp only [hexec] at h
      cases hrec : recordStats st1 with
      | error e => simp only [hrec] at h; exact Except.noConfusion h
      | ok st2 =>
        simp only [hrec] at h
        cases hbest : st2.getBestSolutionA with
        | error e => simp only [hbest] at h; exact Except.noConfusion h
        | ok best =>
          simp only [hbest] at h
          cases hcm : best.makespanE with
          | error e => simp only [hcm] at h; exact Except.noConfusion h
          | ok cm =>
            simp only [hcm] at h
            rw [show shouldTerminate (some f) (nextST it cm bm sc st2).params it
                (nextSC cm bm sc) best = f it best from rfl, hf it best] at h
            rw [if_neg Bool.false_ne_true] at h
            unfold optLoop at h
            simp only [Except.ok.injEq, Prod.mk.injEq] at h
            obtain ⟨h1, -⟩ := h
            rw [← h1]
            show (it + 1 : Int) = it + ((0 + 1 : Nat) : Int)
            omega
  | succ fuel ih =>
    intro it st bm sc t st' t' h
    unfold optLoop at h
    cases hexec : executeIteration it st t with
    | error e => simp only [hexec] at h; exact Except.noConfusion h
    | ok tr =>
      obtain ⟨b1, st1, t1⟩ := tr
      simp only [hexec] at h
      cases hrec : recordStats st1 with
      | error e => simp only [hrec] at h; exact Except.noConfusion h
      | ok st2 =>
        simp only [hrec] at h
        cases hbest : st2.getBestSolutionA with
        | error e => simp only [hbest] at h; exact Except.noConfusion h
        | ok best =>
          simp only [hbest] at h
          cases hcm : best.makespanE with
          | error e => simp only [hcm] at h; exact Except.noConfusion h
          | ok cm =>
            simp only [hcm] at h
            rw [show shouldTerminate (some f) (nextST it cm bm sc st2).params it
                (nextSC cm bm sc) best = f it best from rfl, hf it best] at h
            rw [if_neg Bool.false_ne_true] at h
            have h2 := ih (it + 1) (advanceST it (nextST it cm bm sc st2))
              (nextBM cm bm) (nextSC cm bm sc) t1 st' t' h
            omega

/-- C8: an installed termination callback REPLACES the built-in
max-iteration/stagnation checks: `shouldTerminate` with a callback is exactly
the callback's verdict (the parameters and the stagnation counter are ignored),
the whole loop with a callback coincides with the purely callback-driven loop,
and with a constantly-false callback a successful run executes every one of its
`fuel` loop passes (it never stops early). -/
theorem claim_C8_callback_override :
    (∀ (f : Int → Sol → Bool) (p : HHOAParameters) (it sc : Int) (best : Sol),
        shouldTerminate (some f) p it sc best = f it best) ∧
    (∀ (f : Int → Sol → Bool) (fuel : Nat) (it : Int) (st : AlgState) (bm sc : Int)
        (t : Tape),
        optLoop (some f) fuel it st bm sc t = optLoopCb f fuel it st bm sc t) ∧
    (∀ (f : Int → Sol → Bool), (∀ i b, f i b = false) →
        ∀ (fuel : Nat) (it : Int) (st : AlgState) (bm sc : Int) (t : Tape)
          (st' : AlgState) (t' : Tape),
          optLoop (some f) (fuel + 1) it st bm sc t = .ok (st', t') →
          st'.stats.iterationsExecuted = it + ((fuel + 1 : Nat) : Int)) :=
  ⟨fun _ _ _ _ _ => rfl,
   fun f fuel it st bm sc t => optLoop_some_eq f fuel it st bm sc t,
   fun f hf fuel it st bm sc t st' t' h =>
     optLoop_alwaysFalse_full f hf fuel it st bm sc t st' t' h⟩

section ConcreteEvaluation

attribute [local semireducible] Rat.add Rat.mul Rat.sub Rat.div Rat.blt Rat.inv
attribute [local semireducible] Rat.neg Rat.ofScientific Rat.floor

/-- C10: the configuration with `grazing_intensity = 0` is accepted by the
parameter validity predicate, yet `Horse::graze` requires intensity strictly
in `(0, 1]`, so the grazing phase (phase 1 of every iteration) raises
`invalid_argument` on any non-empty herd. -/
theorem claim_C10_accepted_zero_intensity_throws :
    HHOAParameters.isValid { grazingIntensity := 0 } = true ∧
    (∀ (h : Horse) (t : Tape),
      h.graze 0 t = .error "Intensity must be between 0.0 and 1.0") ∧
    (∀ (hd : Herd) (t : Tape), hd.horses ≠ [] →
      hd.performGrazing 0 t = .error "Intensity must be between 0.0 and 1.0") ∧
    (∀ (it : Int) (st : AlgState) (t : Tape), st.params.grazingIntensity = 0 →
      st.herd.horses ≠ [] →
      executeIteration it st t = .error "Intensity must be between 0.0 and 1.0") := by
  exact ⟨by decide, graze_zero_err, performGrazing_zero_err, executeIteration_graze_zero⟩

/-- Witness for C10 on a concrete herd. -/
theorem claim_C10_witness :
    HHOAParameters.isValid { grazingIntensity := 0 } = true ∧
    Herd.performGrazing herdC7 0 tapeC7 =
      .error "Intensity must be between 0.0 and 1.0" ∧
    executeIteration 0
      { inst := inst2, params := { grazingIntensity := 0 }, stats := {}, herd := herdC7 }
      tapeC7 = .error "Intensity must be between 0.0 and 1.0" :=
  ⟨claim_C10_accepted_zero_intensity_throws.1,
   claim_C10_accepted_zero_intensity_throws.2.2.1 herdC7 tapeC7 (by decide),
   claim_C10_accepted_zero_intensity_throws.2.2.2 0
     { inst := inst2, params := { grazingIntensity := 0 }, stats := {}, herd := herdC7 }
     tapeC7 (by decide) (by decide)⟩

/-- C9 counterexample: the code's predicate accepts `elite_count = 0` and
never examines `elite_improvement_freq`, contradicting the spec's "elite
count/frequency positive". -/
theorem claim_C9_counterexample :
    HHOAParameters.isValid { eliteCount := 0 } = true ∧
    ¬ specParamsValid { eliteCount := 0 } ∧
    HHOAParameters.isValid { eliteImprovementFreq := -7 } = true ∧
    ¬ specParamsValid { eliteImprovementFreq := -7 } :=
  ⟨by decide, by decide, by decide, by decide⟩

/-- Witness for C9 at concrete instances and parameter records. -/
theorem claim_C9_witness :
    (HHOAParameters.isValid params1 = true ↔
      (0 < params1.populationSize ∧ 0 < params1.maxIterations ∧
       (0 ≤ params1.grazingIntensity ∧ params1.grazingIntensity ≤ 1) ∧
       (0 ≤ params1.roamingRate ∧ params1.roamingRate ≤ 1) ∧
       (0 ≤ params1.explorationRate ∧ params1.explorationRate ≤ 1) ∧
       (0 ≤ params1.followingRate ∧ params1.followingRate ≤ 1) ∧
       (0 ≤ params1.matingRate ∧ params1.matingRate ≤ 1) ∧
       (0 ≤ params1.crossoverRate ∧ params1.crossoverRate ≤ 1) ∧
       (0 ≤ params1.mutationRate ∧ params1.mutationRate ≤ 1) ∧
       (0 ≤ params1.replacementRate ∧ params1.replacementRate ≤ 1) ∧
       0 < params1.maxStagnation ∧ 0 ≤ params1.eliteCount ∧
       0 < params1.terminationPatience)) ∧
    mkHHOA inst1 { populationSize := 0 } tape4 = .error "Invalid HHOA parameters" ∧
    (∃ r, mkHHOA inst2 params1 tape4 = .ok r) :=
  ⟨claim_C9_config_validation.1 params1,
   claim_C9_config_validation.2.2.2.1 inst1 { populationSize := 0 } tape4
     (by decide) (by decide),
   claim_C9_config_validation.2.2.2.2 inst2 params1 tape4 (by decide) (by decide)⟩

/-- C4: on the seeded run with population size 1 and one iteration on
`inst2`, the best-of-population after initialization has makespan 11, yet
the run returns the (valid) solution `[1,0]` with makespan 19: the
diversity-preservation step replaced the only (best) horse with a random
one, and `getBestSolution` consults the live herd rather than the monotone
leader — the returned best regresses, contradicting the claim (and
`getBestSolution`'s own "best solution found so far" contract). -/
theorem claim_C4_regressing_run :
    c4initBest = .ok ([0, 1], .ok 11) ∧
    c4final = .ok ([1, 0], .ok 19, true) ∧
    ¬ ((19 : Int) ≤ 11) :=
  ⟨by decide, by decide, by decide⟩

/-- C7 counterexample: on a single-horse herd, `performMutation` reports `0`
improvements, yet the horse's current solution changed from `[0,1]`
(makespan 11) to the strictly worse `[1,0]` (makespan 19) — the mutated
candidate was NOT reverted. -/
theorem claim_C7_counterexample :
    c7res = .ok (0, [1, 0]) ∧
    horseC7.solution.seq = [0, 1] ∧
    Sol.makespanE ⟨inst2, [1, 0]⟩ = .ok 19 ∧
    Sol.makespanE ⟨inst2, [0, 1]⟩ = .ok 11 ∧
    ¬ ((19 : Int) < 11) :=
  ⟨by decide, by decide, by decide, by decide, by decide⟩

/-- C6 counterexample: with `explorationRate = 0.9` on a 4-job solution,
`0.9 × 4 × 0.5 = 1.8`; the code performs `max(1, trunc(1.8)) = 1` move
(yielding `[1,0,2,3]` on this tape) while the claim's
`max(1, round(1.8)) = 2` moves would yield `[1,0,3,2]`. -/
theorem claim_C6_counterexample :
    (Horse.roam horseC6 (9/10) tapeC6).map (fun p => p.1.seq) = .ok [1, 0, 2, 3] ∧
    max 1 (roundQ ((9/10) * (horseC6.solution.seq.length : ℚ) * 0.5)) = 2 ∧
    (roamLoop 2 horseC6.solution tapeC6).map (fun p => p.1.seq) = .ok [1, 0, 3, 2] ∧
    ([1, 0, 2, 3] : List Int) ≠ [1, 0, 3, 2] :=
  ⟨by decide, by decide, by decide, by decide⟩


/-- Witness for C7 on the concrete single-horse herd. -/
theorem claim_C7_witness :
    ([horseC7m] : List Horse).length = herdC7.horses.length ∧
    ∃ ms : List (Int × Int), ms.length = herdC7.horses.length ∧
      (∀ i, i < herdC7.horses.length →
        (herdC7.horses.getD i dummyHorse).solution.makespanE = .ok (ms.getD i (0, 0)).1 ∧
        (([horseC7m] : List Horse).getD i dummyHorse).solution.makespanE =
          .ok (ms.getD i (0, 0)).2 ∧
        ∃ ti ti', Horse.mutate (herdC7.horses.getD i dummyHorse) (1/2) ti =
          .ok (([horseC7m] : List Horse).getD i dummyHorse, ti')) ∧
      (0 : Int) = ((ms.filter (fun pr => pr.2 < pr.1)).length : Int) :=
  claim_C7_mutation_semantics.1 herdC7.horses (1/2) tapeC7 [horseC7m] 0 tapeC7e (by decide)


/-- Witness for C3 on the concrete single-horse herd: the best agent does not
strictly beat the stored leader, so the leader is kept. -/
theorem claim_C3_witness :
    herdC7.leader.bestFitness ≤ herdC3r.leader.bestFitness ∧
    (false = true ↔ ∃ x ∈ herdC7.horses, herdC7.leader.bestFitness < x.bestFitness) ∧
    (false = false → herdC3r.leader = herdC7.leader) ∧
    (false = true → ∃ x ∈ herdC7.horses, herdC3r.leader = { x with leaderFlag := true } ∧
        herdC7.leader.bestFitness < x.bestFitness) :=
  claim_C3_leader_monotonic.1 herdC7 herdC3r false (by decide)


/-- Witness for C8: a concrete single-horse run with a constantly-false
callback executes its full single loop pass. -/
theorem claim_C8_witness :
    stC8after.stats.iterationsExecuted = (0 : Int) + ((0 + 1 : Nat) : Int) :=
  claim_C8_callback_override.2.2 (fun _ _ => false) (fun _ _ => rfl) 0 0 stC8 99 0
    { ints := [], dbls := [], perms := [] } stC8after { ints := [], dbls := [], perms := [] }
    (by decide)


/-- C2 counterexample: on the (valid) single-job instance, the simplified
partially-mapped crossover of two valid permutation parents THROWS
(`randInt(1, 0)`), while the order crossover still succeeds. -/
theorem claim_C2_counterexample :
    sol1.isValid = true ∧ inst1.isValid = true ∧
    mappedCrossover sol1 sol1 tapeC7e = .error "min cannot be greater than max" ∧
    orderCrossover sol1 sol1 tapeC7e = .ok (⟨inst1, [0]⟩, tapeC7e) :=
  ⟨by decide, by decide, by decide, by decide⟩

/-- Witness for C2 on concrete two-job and one-job parents. -/
theorem claim_C2_witness :
    (∃ child t', orderCrossover solC2 solC2 tapeC7e = .ok (child, t') ∧
      child.inst = solC2.inst ∧ child.isValid = true) ∧
    (∃ child t', mappedCrossover solC2 solC2 tapeC7e = .ok (child, t') ∧
      child.inst = solC2.inst ∧ child.isValid = true) ∧
    mappedCrossover sol1 sol1 tapeC7e = .error "min cannot be greater than max" :=
  ⟨claim_C2_crossover_validity.1 solC2 solC2 tapeC7e rfl (by decide) (by decide) (by decide),
   claim_C2_crossover_validity.2.1 solC2 solC2 tapeC7e rfl (by decide) (by decide)
     (by decide) (by decide),
   claim_C2_crossover_validity.2.2 sol1 sol1 tapeC7e (by decide)⟩

end ConcreteEvaluation

end HHOAFSSP
